import Mathlib

/-!
Shallow embedding of the dependency-aware parameter recalculation engine of
`bw2data/parameters.py` (the `ProjectParameter`, `DatabaseParameter`,
`ActivityParameter`, `Group`, `GroupDependency`, `ParameterizedExchange`
models and the `ParameterManager` facade), together with theorems settling
the behavioural claims about it.

Modelling conventions:

* SQL rows become Lean structures held in lists inside a single `State`.
* Python exceptions become `Except (Err × State) State`: an error carries
  the storage state at raise time (Python mutations before an uncaught
  exception persist; transactional rollback is modelled where the source
  wraps work in `db.atomic()`).
* Formulas are modelled as a small expression AST (`Expr`): the external
  `asteval`/`bw2parameters` evaluator is out of scope per the source's
  design, and only its contract matters: extract free identifiers, and
  evaluate against a symbol table.  `astevalBuiltins` abstractly models the
  interpreter's built-in symbol table.
* Machine floats in `amount` fields are modelled as `Option Int`
  (nullable); no claim depends on float arithmetic.
* The `AUTOUPDATE` SQL trigger (touch `group_table.updated` when a
  parameter row changes) is modelled by `touchGroup` at every parameter
  write; `Group.save`'s `purge_order` is modelled inside `saveGroup`.
-/

namespace BW

/-- Parsed formula, the shape the external evaluator's `parse` produces. -/
inductive Expr where
  | const : Int → Expr
  | var : String → Expr
  | add : Expr → Expr → Expr
  | mul : Expr → Expr → Expr
deriving Repr, DecidableEq

/-- Free identifiers referenced by a formula (`asteval.NameFinder`). -/
def Expr.freeNames : Expr → List String
  | .const _ => []
  | .var x => [x]
  | .add a b => a.freeNames ++ b.freeNames
  | .mul a b => a.freeNames ++ b.freeNames

/-- Abstract model of the external asteval interpreter's built-in symbol
table (`interpreter.symtable`); the concrete entries stand in for the
mathematical constants and functions asteval predefines. -/
def astevalBuiltins : List (String × Int) := [("pi", 3), ("e", 2), ("tau", 6)]

def builtinNames : List String := astevalBuiltins.map (·.1)

/-- Evaluate a formula against a symbol table; `none` when a referenced
name has no value (asteval records an error and yields `None`). -/
def Expr.evalWith (env : List (String × Int)) : Expr → Option Int
  | .const n => some n
  | .var x => (env.find? (fun p => p.1 == x)).map (·.2)
  | .add a b =>
    match a.evalWith env, b.evalWith env with
    | some x, some y => some (x + y)
    | _, _ => none
  | .mul a b =>
    match a.evalWith env, b.evalWith env with
    | some x, some y => some (x * y)
    | _, _ => none

/-- `get_new_symbols(data, context)`: union of the free identifiers of the
given formulas, minus the context names and the interpreter's builtins. -/
def getNewSymbols (formulas : List (Option Expr)) (context : List String) : List String :=
  ((formulas.flatMap (fun f => match f with | some e => e.freeNames | none => [])).dedup).filter
    (fun n => !(decide (n ∈ context) || decide (n ∈ builtinNames)))

/-- A `group_table` row. -/
structure GroupRow where
  name : String
  fresh : Bool
  updated : Nat
  order : List String
deriving Repr, DecidableEq

/-- A `groupdependency` row: edge (`group`, `depends`). -/
structure DepRow where
  group : String
  depends : String
deriving Repr, DecidableEq

/-- A `projectparameter` row. -/
structure ProjectParamRow where
  name : String
  formula : Option Expr
  amount : Option Int
  data : List (String × Int)
deriving Repr, DecidableEq

/-- A `databaseparameter` row. -/
structure DatabaseParamRow where
  database : String
  name : String
  formula : Option Expr
  amount : Option Int
  data : List (String × Int)
deriving Repr, DecidableEq

/-- An `activityparameter` row. -/
structure ActivityParamRow where
  group : String
  database : String
  code : String
  name : String
  formula : Option Expr
  amount : Option Int
  data : List (String × Int)
deriving Repr, DecidableEq

/-- A `parameterizedexchange` row. -/
structure PERow where
  group : String
  exchange : Nat
  formula : Expr
deriving Repr, DecidableEq

/-- External exchange record (`ExchangeDataset`), owned outside the core;
the engine only rewrites its numeric amount. -/
structure ExchangeRow where
  id : Nat
  database : String
  code : String
  formula : Option Expr
  amount : Option Int
deriving Repr, DecidableEq

/-- An embedded parameter definition inside an external activity record
(the dictionaries under its `parameters` key). -/
structure ParamDef where
  varName : String
  formula : Option Expr
  amount : Option Int
  data : List (String × Int)
deriving Repr, DecidableEq

/-- External activity record, with its optional embedded `parameters`. -/
structure ActivityRec where
  database : String
  code : String
  parameters : Option (List ParamDef)
deriving Repr, DecidableEq

/-- The whole storage state: the parameter stores, the group registry, the
dependency graph, the external activity/exchange stores, the `databases`
registry, the dirty flags, and a logical clock for `updated` stamps. -/
structure State where
  groups : List GroupRow
  deps : List DepRow
  projectParams : List ProjectParamRow
  databaseParams : List DatabaseParamRow
  activityParams : List ActivityParamRow
  paramExchanges : List PERow
  exchanges : List ExchangeRow
  activities : List ActivityRec
  databases : List String
  dirty : List String
  time : Nat
deriving Repr, DecidableEq

/-- Exceptions the engine can raise. -/
inductive Err where
  | missingVariables : List String → Err
  | doesNotExist : Err
  | cyclicTrigger : Err
  | integrity : Err
  | valueError : Err
  | assertionError : String → Err
  | evaluation : Err
  | nameError : Err
  | fuel : Err
deriving Repr, DecidableEq

/-- A stateful, fallible step: errors carry the state at raise time. -/
abbrev Res := Except (Err × State) State

instance {ε α : Type} [DecidableEq ε] [DecidableEq α] : DecidableEq (Except ε α) :=
  fun a b =>
    match a, b with
    | .ok x, .ok y =>
      if h : x = y then .isTrue (congrArg Except.ok h)
      else .isFalse (fun hc => h (Except.ok.inj hc))
    | .error x, .error y =>
      if h : x = y then .isTrue (congrArg Except.error h)
      else .isFalse (fun hc => h (Except.error.inj hc))
    | .ok _, .error _ => .isFalse (fun hc => Except.noConfusion hc)
    | .error _, .ok _ => .isFalse (fun hc => Except.noConfusion hc)

@[simp] theorem res_bind_ok (a : State) (f : State → Res) :
    (Bind.bind (Except.ok a) f : Res) = f a := rfl

@[simp] theorem res_bind_error (e : Err × State) (f : State → Res) :
    (Bind.bind (Except.error e) f : Res) = Except.error e := rfl

theorem isEmpty_false_of_ne_nil {α : Type} {l : List α} (h : l ≠ []) : l.isEmpty = false := by
  rcases l with _ | ⟨a, t⟩
  · exact absurd rfl h
  · rfl

/-! ### Group registry primitives -/

def getGroup (s : State) (n : String) : Option GroupRow :=
  s.groups.find? (fun r => r.name == n)

/-- `Group.purge_order`: drop database names and `project` from `order`. -/
def purgeOrder (s : State) (ord : List String) : List String :=
  ord.filter (fun x => !(decide (x ∈ s.databases) || decide (x = "project")))

/-- `Group.save`: purge the order, then write the row back (keyed by the
unique `name`). -/
def saveGroup (s : State) (r : GroupRow) : State :=
  let r2 := { r with order := purgeOrder s r.order }
  { s with groups := s.groups.map (fun g => if g.name == r.name then r2 else g) }

/-- `Group.get_or_create(name=n)`: newly created rows carry the defaults
`fresh = true`, empty `order`. -/
def getOrCreateGroup (s : State) (n : String) : GroupRow × State :=
  match getGroup s n with
  | some r => (r, s)
  | none =>
    let r : GroupRow := { name := n, fresh := true, updated := s.time, order := [] }
    (r, { s with groups := s.groups ++ [r], time := s.time + 1 })

/-- `Group.get_or_create(name=n)[0].expire()`. -/
def expireGroupByName (s : State) (n : String) : State :=
  let p := getOrCreateGroup s n
  saveGroup p.2 { p.1 with fresh := false }

/-- `ParameterBase.expire_downstream(group)`: one SQL `UPDATE` flipping
`fresh = false` on every group with a dependency edge pointing at `group`
(no trigger fires on `group_table`, so nothing else changes). -/
def expireDownstream (s : State) (g : String) : State :=
  { s with groups := s.groups.map (fun r =>
      if decide (∃ e ∈ s.deps, e.group = r.name ∧ e.depends = g) then
        { r with fresh := false }
      else r) }

/-- The `AUTOUPDATE` trigger: a write on a parameter table stamps the owning
group's `updated` field. -/
def touchGroup (s : State) (n : String) : State :=
  { s with groups := s.groups.map (fun r => if r.name == n then { r with updated := s.time } else r),
           time := s.time + 1 }

/-! ### Loads, statics, expiry tests -/

def projLoad (s : State) : List ProjectParamRow := s.projectParams

def dbLoad (s : State) (d : String) : List DatabaseParamRow :=
  s.databaseParams.filter (fun p => p.database == d)

def apLoad (s : State) (g : String) : List ActivityParamRow :=
  s.activityParams.filter (fun p => p.group == g)

def projNames (s : State) : List String := s.projectParams.map (·.name)

def dbNames (s : State) (d : String) : List String := (dbLoad s d).map (·.name)

def apNames (s : State) (g : String) : List String := (apLoad s g).map (·.name)

/-- `ProjectParameter.static(only=names)`. -/
def projStaticOnly (s : State) (names : List String) : List (String × Option Int) :=
  s.projectParams.filterMap (fun p =>
    if decide (p.name ∈ names) then some (p.name, p.amount) else none)

/-- `DatabaseParameter.static(database, only=names)`. -/
def dbStaticOnly (s : State) (d : String) (names : List String) : List (String × Option Int) :=
  (dbLoad s d).filterMap (fun p =>
    if decide (p.name ∈ names) then some (p.name, p.amount) else none)

/-- `ActivityParameter.static(group, only=names)` (without `full`). -/
def apStaticOnly (s : State) (g : String) (names : List String) : List (String × Option Int) :=
  (apLoad s g).filterMap (fun p =>
    if decide (p.name ∈ names) then some (p.name, p.amount) else none)

/-- `ProjectParameter.expired()`: false when the `project` group row does
not exist. -/
def projectExpired (s : State) : Bool :=
  match getGroup s "project" with
  | some r => !r.fresh
  | none => false

/-- `DatabaseParameter.expired(database)`. -/
def dbExpired (s : State) (d : String) : Bool :=
  match getGroup s d with
  | some r => !r.fresh
  | none => false

/-- `ActivityParameter.expired(group)`. -/
def activityExpired (s : State) (g : String) : Bool :=
  match getGroup s g with
  | some r => !r.fresh
  | none => false

/-- The free symbols an activity group's own formulas need from outside the
group (`get_new_symbols(data.values(), set(data))`). -/
def needed0 (s : State) (g : String) : List String :=
  getNewSymbols ((apLoad s g).map (·.formula)) (apNames s g)

/-! ### Resolution engine: `ActivityParameter.dependency_chain` -/

inductive Kind where
  | project
  | database
  | activity
deriving Repr, DecidableEq

structure ChainEntry where
  kind : Kind
  group : String
  names : List String
deriving Repr, DecidableEq

/-- Which parameter names a chain scope defines. -/
def scopeNames (s : State) : Kind × String → List String
  | (.activity, g) => apNames s g
  | (.database, d) => dbNames s d
  | (.project, _) => projNames s

/-- One greedy step of the resolution loop: collect the still-needed names
defined in this scope, append a chain entry when any matched, and drop the
matched names from `needed`. -/
def chainStep (s : State) (k : Kind) (grp : String)
    (acc : List ChainEntry × List String) : List ChainEntry × List String :=
  let ns := scopeNames s (k, grp)
  let matched := acc.2.filter (fun n => decide (n ∈ ns))
  (if matched.isEmpty then acc.1 else acc.1 ++ [⟨k, grp, matched⟩],
   acc.2.filter (fun n => !decide (n ∈ ns)))

/-- `ActivityParameter.dependency_chain(group)`: search the group's
recorded `order` of sibling activity groups (in order), then the owning
database, then project parameters, greedily; raise `MissingVariables` on a
leftover symbol.  `Group.get` raises `DoesNotExist` when no group row
exists. -/
def dependencyChain (s : State) (g : String) : Except Err (List ChainEntry) :=
  let data := apLoad s g
  if data.isEmpty then .ok []
  else
    let needed := getNewSymbols (data.map (·.formula)) (data.map (·.name))
    if needed.isEmpty then .ok []
    else
      match getGroup s g with
      | none => .error .doesNotExist
      | some row =>
        let acc1 := row.order.foldl (fun acc ng => chainStep s .activity ng acc) ([], needed)
        let acc2 :=
          if acc1.2.isEmpty then acc1
          else
            match data with
            | [] => acc1
            | r :: _ => chainStep s .database r.database acc1
        let acc3 := if acc2.2.isEmpty then acc2 else chainStep s .project "project" acc2
        if acc3.2.isEmpty then .ok acc3.1
        else .error (.missingVariables acc3.2)

/-- The `{name: amount}` dictionary a chain entry contributes
(`mapping[row['kind']].static(row['group'], only=row['names'])`). -/
def staticFor (s : State) (e : ChainEntry) : List (String × Option Int) :=
  match e.kind with
  | .activity => apStaticOnly s e.group e.names
  | .database => dbStaticOnly s e.group e.names
  | .project => projStaticOnly s e.names

/-- Python `dict.update`: entries of `new` override entries of `old`. -/
def updateAssoc (old new : List (String × Option Int)) : List (String × Option Int) :=
  old.filter (fun p => !decide (p.1 ∈ new.map (·.1))) ++ new

/-- `ActivityParameter.static_dependencies(group)`. -/
def staticDependencies (s : State) (g : String) : Except Err (List (String × Option Int)) :=
  (dependencyChain s g).map (fun chain =>
    chain.foldl (fun acc e => updateAssoc acc (staticFor s e)) [])

/-- `ActivityParameter.static(group, full=True)`: the group's own amounts,
updated with everything resolved through the dependency chain. -/
def apStaticFull (s : State) (g : String) : Except Err (List (String × Option Int)) :=
  (staticDependencies s g).map (fun depsTable =>
    updateAssoc ((apLoad s g).map (fun p => (p.name, p.amount))) depsTable)

/-! ### The external `bw2parameters.ParameterSet` evaluator (modelled) -/

/-- One evaluation pass: compute every formula row whose referenced names
already have values, extending the environment. -/
def psPass (rows : List (String × Option Expr × Option Int))
    (env : List (String × Int)) : List (String × Int) :=
  rows.foldl (fun env r =>
    match r.2.1 with
    | some f =>
      match f.evalWith env with
      | some v => if decide (r.1 ∈ env.map (·.1)) then env else env ++ [(r.1, v)]
      | none => env
    | none => env) env

def psIter : Nat → List (String × Option Expr × Option Int) →
    List (String × Int) → List (String × Int)
  | 0, _, env => env
  | n + 1, rows, env => psIter n rows (psPass rows env)

/-- Abstract executable model of
`ParameterSet(data, glo).evaluate_and_set_amount_field()`: raise
`MissingName` when some formula references a name defined neither in the
set, nor in `glo`, nor among the builtins; otherwise resolve the formula
rows (in dependency order, here by iterated passes) and return the new
amount for every name; rows stuck after all passes (circular references or
a `None`-valued dependency) raise. -/
def psEval (rows : List (String × Option Expr × Option Int))
    (glo : List (String × Option Int)) : Except Err (List (String × Option Int)) :=
  let missing := (getNewSymbols (rows.map (·.2.1)) (rows.map (·.1))).filter
    (fun n => !decide (n ∈ glo.map (·.1)))
  if !missing.isEmpty then .error (.missingVariables missing)
  else
    let env0 := astevalBuiltins ++ glo.filterMap (fun p => p.2.map ((p.1, ·)))
      ++ rows.filterMap (fun r => match r.2.1 with
          | some _ => none
          | none => r.2.2.map ((r.1, ·)))
    let env := psIter (rows.length + 1) rows env0
    let results := rows.map (fun r =>
      match r.2.1 with
      | some _ => ((env.find? (fun p => p.1 == r.1)).map (fun p => (r.1, some p.2)))
      | none => some (r.1, r.2.2))
    if results.all (·.isSome) then .ok (results.filterMap id)
    else .error .evaluation

/-! ### Amount write-back (each SQL `UPDATE` fires the autoupdate trigger) -/

def writeProjAmounts (s : State) (amts : List (String × Option Int)) : State :=
  amts.foldl (fun s kv =>
    touchGroup
      { s with projectParams := s.projectParams.map (fun p =>
          if p.name == kv.1 then { p with amount := kv.2 } else p) }
      "project") s

def writeDbAmounts (s : State) (d : String) (amts : List (String × Option Int)) : State :=
  amts.foldl (fun s kv =>
    touchGroup
      { s with databaseParams := s.databaseParams.map (fun p =>
          if p.name == kv.1 && p.database == d then { p with amount := kv.2 } else p) }
      d) s

def writeApAmounts (s : State) (g : String) (amts : List (String × Option Int)) : State :=
  amts.foldl (fun s kv =>
    touchGroup
      { s with activityParams := s.activityParams.map (fun p =>
          if p.name == kv.1 && p.group == g then { p with amount := kv.2 } else p) }
      g) s

/-! ### Recalculation engine -/

/-- `ProjectParameter.recalculate()`. -/
def recalcProject (s : State) : Res :=
  if !projectExpired s then .ok s
  else
    let data := projLoad s
    if data.isEmpty then .ok s
    else
      match psEval (data.map (fun p => (p.name, p.formula, p.amount))) [] with
      | .error e => .error (e, s)
      | .ok amts =>
        let s1 := writeProjAmounts s amts
        let p := getOrCreateGroup s1 "project"
        let s2 := saveGroup p.2 { p.1 with fresh := true }
        .ok (expireDownstream s2 "project")

/-- `GroupDependency.get_or_create(group=g, depends=d)`: the create path
runs `GroupDependency.save` (its `ValueError` checks), then the schema
`CHECK` constraint, the unique index, and the `gd_circular` trigger. -/
def getOrCreateDepSave (s : State) (g d : String) : Res :=
  if decide ((⟨g, d⟩ : DepRow) ∈ s.deps) then .ok s
  else if g == "project" then .error (.valueError, s)
  else if decide (g ∈ s.databases) && !(d == "project") then .error (.valueError, s)
  else if g == d then .error (.integrity, s)
  else if decide ((⟨d, g⟩ : DepRow) ∈ s.deps) then .error (.cyclicTrigger, s)
  else .ok { s with deps := s.deps ++ [⟨g, d⟩] }

/-- `DatabaseParameter.recalculate(database)`. -/
def recalcDatabase (s0 : State) (d : String) : Res := do
  let s ← if projectExpired s0 then recalcProject s0 else .ok s0
  if !dbExpired s d then .ok s
  else
    let data := dbLoad s d
    if data.isEmpty then .ok s
    else
      let newSyms := getNewSymbols (data.map (·.formula)) (data.map (·.name))
      let missing := newSyms.filter (fun n => !decide (n ∈ projNames s))
      if !missing.isEmpty then .error (.missingVariables missing, s)
      else do
        let glo := if newSyms.isEmpty then [] else projStaticOnly s newSyms
        let s ←
          if newSyms.isEmpty then
            .ok { s with deps := s.deps.filter (fun e => !(e.group == d && e.depends == "project")) }
          else getOrCreateDepSave s d "project"
        match psEval (data.map (fun p => (p.name, p.formula, p.amount))) glo with
        | .error e => .error (e, s)
        | .ok amts =>
          let s := writeDbAmounts s d amts
          match getGroup s d with
          | none => .error (.doesNotExist, s)
          | some r =>
            let s := saveGroup s { r with fresh := true }
            .ok (expireDownstream s d)

/-- `ActivityParameter.recalculate_exchanges(group)`: build the full static
symbol table, re-evaluate every parameterized exchange of the group into
the external exchange record, then mark the owning database dirty
(`ActivityParameter.get` raises when the group has no parameters). -/
def recalcExchanges (s : State) (g : String) : Res :=
  match apStaticFull s g with
  | .error e => .error (e, s)
  | .ok table =>
    let env := astevalBuiltins ++ table.filterMap (fun p => p.2.map ((p.1, ·)))
    let step : State → PERow → Res := fun s pe =>
      match s.exchanges.find? (fun e => e.id == pe.exchange) with
      | none => .error (.doesNotExist, s)
      | some _ =>
        .ok { s with exchanges := s.exchanges.map (fun e =>
          if e.id == pe.exchange then { e with amount := pe.formula.evalWith env } else e) }
    match (s.paramExchanges.filter (fun pe => pe.group == g)).foldlM step s with
    | .error e => .error e
    | .ok s =>
      match apLoad s g with
      | [] => .error (.doesNotExist, s)
      | p :: _ => .ok { s with dirty := s.dirty ++ [p.database] }

/-- `GroupDependency.insert_many` rows `(g, c)` for `c` in `targets`: plain
SQL inserts, so the `save` checks are bypassed but the `CHECK` constraint,
unique index and `gd_circular` trigger still apply. -/
def insertDeps (s : State) (g : String) (targets : List String) : Res :=
  targets.foldlM (fun s c =>
    if g == c then .error (.integrity, s)
    else if decide ((⟨g, c⟩ : DepRow) ∈ s.deps) then .error (.integrity, s)
    else if decide ((⟨c, g⟩ : DepRow) ∈ s.deps) then .error (.cyclicTrigger, s)
    else .ok { s with deps := s.deps ++ [⟨g, c⟩] }) s

/-- The tail of `ActivityParameter.recalculate(group)` after the upstream
loop: evaluate the group's own formulas against the chain's static values,
write the amounts, freshen the group, expire downstream, and re-project the
parameterized exchanges. -/
def finishActivity (s : State) (g : String) : Res :=
  let data := apLoad s g
  match staticDependencies s g with
  | .error e => .error (e, s)
  | .ok table =>
    match psEval (data.map (fun p => (p.name, p.formula, p.amount))) table with
    | .error e => .error (e, s)
    | .ok amts =>
      let s := writeApAmounts s g amts
      match getGroup s g with
      | none => .error (.doesNotExist, s)
      | some r =>
        let s := saveGroup s { r with fresh := true }
        recalcExchanges (expireDownstream s g) g

/-- `ActivityParameter.recalculate(group)`, with fuel bounding the nested
upstream recursion (the source relies on acyclicity for termination). -/
def recalcActivity : Nat → String → State → Res
  | 0, _, s => .error (.fuel, s)
  | fuel + 1, g, s =>
    if !activityExpired s g then .ok s
    else
      match dependencyChain s g with
      | .error e => .error (e, s)
      | .ok chain => do
        let s ←
          if chain.isEmpty then .ok s
          else
            match getGroup s g with
            | none => .error (.doesNotExist, s)
            | some row => do
              let ord := chain.filterMap (fun e =>
                if e.kind == .activity then some e.group else none)
              let s := saveGroup s { row with order := ord }
              let s := { s with deps := s.deps.filter (fun e => !(e.group == g)) }
              insertDeps s g (chain.map (·.group))
        let s ← chain.reverse.foldlM (fun s e =>
            match e.kind with
            | .project => recalcProject s
            | .database => recalcDatabase s e.group
            | .activity => recalcActivity fuel e.group s) s
        finishActivity s g

/-- `ParameterManager.recalculate()`: refresh a stale project, refresh every
stale registered database, then refresh every remaining non-fresh group
(that is neither `project` nor a database name) as an activity group. -/
def pmRecalculate (fuel : Nat) (s0 : State) : Res := do
  let s ← if projectExpired s0 then recalcProject s0 else .ok s0
  let s ← s.databases.foldlM (fun s d =>
    if dbExpired s d then recalcDatabase s d else .ok s) s
  let snapshot := (s.groups.filter (fun r => !r.fresh)).map (·.name)
  snapshot.foldlM (fun s n =>
    if decide (n ∈ s.databases) || n == "project" then .ok s
    else recalcActivity fuel n s) s

/-! ### Standalone dependency-edge insertion and cycle detection (for the
`GroupDependency` write-time invariants) -/

/-- Creating (or updating into place) a single `GroupDependency` row via the
model layer: `GroupDependency.save`'s `ValueError` checks, the schema
`CHECK ("group" != depends)`, the unique index, and the `gd_circular`
trigger (which only inspects the direct reverse edge). -/
def insertGroupDependency (s : State) (g d : String) : Res :=
  if g == "project" then .error (.valueError, s)
  else if decide (g ∈ s.databases) && !(d == "project") then .error (.valueError, s)
  else if g == d then .error (.integrity, s)
  else if decide ((⟨g, d⟩ : DepRow) ∈ s.deps) then .error (.integrity, s)
  else if decide ((⟨d, g⟩ : DepRow) ∈ s.deps) then .error (.cyclicTrigger, s)
  else .ok { s with deps := s.deps ++ [⟨g, d⟩] }

/-- All groups reachable from `x` along dependency edges in at most `n`
hops (including `x` itself). -/
def reachableFrom (deps : List DepRow) : Nat → String → List String
  | 0, x => [x]
  | n + 1, x =>
    [x] ++ (deps.filter (fun e => e.group == x)).flatMap
      (fun e => reachableFrom deps n e.depends)

/-- Whether the dependency graph contains a directed cycle. -/
def hasCycle (deps : List DepRow) : Bool :=
  deps.any (fun e => decide (e.group ∈ reachableFrom deps deps.length e.depends))

/-! ### ParameterManager bulk operations -/

/-- Exiting a `parameters.db` atomic block on an exception rolls the
parameter tables back to the pre-block state; state living outside that
database (external exchange and activity records, the dirty flags, the
clock) keeps the value it had when the exception was raised. -/
def rollbackTo (pre post : State) : State :=
  { post with
    groups := pre.groups
    deps := pre.deps
    projectParams := pre.projectParams
    databaseParams := pre.databaseParams
    activityParams := pre.activityParams
    paramExchanges := pre.paramExchanges }

/-- Bulk input row for project parameters. -/
structure PPIn where
  name : String
  amount : Option Int
  formula : Option Expr
  data : List (String × Int)
deriving Repr, DecidableEq

/-- Bulk input row for database parameters. -/
structure DBIn where
  name : String
  amount : Option Int
  formula : Option Expr
  data : List (String × Int)
deriving Repr, DecidableEq

/-- Bulk input row for activity parameters. -/
structure APIn where
  database : String
  code : String
  name : String
  amount : Option Int
  formula : Option Expr
  data : List (String × Int)
deriving Repr, DecidableEq

/-- `ParameterManager.new_project_parameters(data)`. -/
def newProjectParameters (s : State) (data : List PPIn) : Res :=
  let names := (data.map (·.name)).dedup
  if !(names.length == data.length) then .error (.assertionError "Nonunique names", s)
  else
    let rows : List ProjectParamRow := data.map (fun ds =>
      { name := ds.name, amount := some (ds.amount.getD 0), formula := ds.formula,
        data := ds.data })
    let pre := s
    let s := touchGroup { s with projectParams := [] } "project"
    let s := touchGroup { s with projectParams := rows } "project"
    let s := expireGroupByName s "project"
    match recalcProject s with
    | .error es => .error (es.1, rollbackTo pre es.2)
    | .ok s2 => .ok s2

/-- `ParameterManager.new_database_parameters(data, database)`. -/
def newDatabaseParameters (s : State) (data : List DBIn) (database : String) : Res :=
  if !decide (database ∈ s.databases) then .error (.assertionError "Unknown database", s)
  else
    let names := (data.map (·.name)).dedup
    if !(names.length == data.length) then .error (.assertionError "Nonunique names", s)
    else
      let rows : List DatabaseParamRow := data.map (fun ds =>
        { database := database, name := ds.name, amount := some (ds.amount.getD 0),
          formula := ds.formula, data := ds.data })
      let pre := s
      let s := touchGroup
        { s with databaseParams := s.databaseParams.filter (fun p => !(p.database == database)) }
        database
      let s := touchGroup { s with databaseParams := s.databaseParams ++ rows } database
      let s := expireGroupByName s database
      match recalcDatabase s database with
      | .error es => .error (es.1, rollbackTo pre es.2)
      | .ok s2 => .ok s2

/-- One raw `activityparameter` insert (as done by `insert_many`): the
`ActivityParameter.save` override is bypassed, but the schema `CHECK`, the
unique `(group, name)` index and the cross-database / cross-group triggers
all still apply, and the autoupdate trigger stamps the owning group. -/
def apInsertRaw (s : State) (row : ActivityParamRow) : Res :=
  if row.group == "project" || row.group == row.database then .error (.integrity, s)
  else if decide (row.name ∈ apNames s row.group) then .error (.integrity, s)
  else if !(apLoad s row.group).isEmpty
      && !decide (row.database ∈ (apLoad s row.group).map (·.database)) then
    .error (.integrity, s)
  else if decide (∃ a ∈ s.activityParams,
      a.database = row.database ∧ a.code = row.code ∧ a.group ≠ row.group) then
    .error (.integrity, s)
  else
    .ok (touchGroup { s with activityParams := s.activityParams ++ [row] } row.group)

/-- `ParameterManager.new_activity_parameters(data, group)`. -/
def newActivityParameters (fuel : Nat) (s : State) (data : List APIn) (group : String) : Res :=
  let dbs := (data.map (·.database)).dedup
  if !(dbs.length == 1) then .error (.assertionError "Multiple databases", s)
  else if !decide (dbs.headI ∈ s.databases) then .error (.assertionError "Unknown database", s)
  else
    let names := (data.map (·.name)).dedup
    if !(names.length == data.length) then .error (.assertionError "Nonunique names", s)
    else
      let s := (getOrCreateGroup s group).2
      let rows : List ActivityParamRow := data.map (fun ds =>
        { group := group, database := ds.database, code := ds.code, name := ds.name,
          formula := ds.formula, amount := some (ds.amount.getD 0), data := ds.data })
      let pre := s
      let s := touchGroup
        { s with activityParams := s.activityParams.filter (fun p => !(p.group == group)) }
        group
      let inner : Res := do
        let s ← rows.foldlM apInsertRaw s
        let s := expireGroupByName s group
        recalcActivity fuel group s
      match inner with
      | .error es => .error (es.1, rollbackTo pre es.2)
      | .ok s2 => .ok s2

/-! ### `add_to_group` and `add_exchanges_to_group` -/

def getActivity (s : State) (database code : String) : Option ActivityRec :=
  s.activities.find? (fun a => a.database == database && a.code == code)

/-- The exchange records of an activity (its `exchanges()`). -/
def exchangesOf (s : State) (database code : String) : List ExchangeRow :=
  s.exchanges.filter (fun e => e.database == database && e.code == code)

/-- `ParameterManager.add_exchanges_to_group(group, activity)`.  The source
body reads, for each formula-bearing exchange:

    row = ParameterizedExchange.get_or_create(exchange=exc._document.id)[0]
    row['group'] = group
    row['formula'] = formula
    row.save()

`formula` is an unbound name (and a peewee `Model` does not support item
assignment), so reaching the branch raises; the first exchange carrying a
formula therefore aborts the call.  Modelled as a `nameError`. -/
def addExchangesToGroup (s : State) (_group : String) (database code : String) : Res :=
  match getActivity s database code with
  | none => .error (.doesNotExist, s)
  | some act =>
    (exchangesOf s act.database act.code).foldlM (fun s exc =>
      if exc.formula.isSome then .error (.nameError, s) else .ok s) s

/-- `ActivityParameter.create(**row)` goes through
`ActivityParameter.save`: first expire (creating if needed) the owning
group, then the SQL insert with its constraints and triggers. -/
def apCreate (s : State) (row : ActivityParamRow) : Res :=
  apInsertRaw (expireGroupByName s row.group) row

/-- `ParameterManager.add_to_group(group, activity)`. -/
def addToGroup (s : State) (group : String) (database code : String) : Res :=
  let s := (getOrCreateGroup s group).2
  match getActivity s database code with
  | none => .error (.doesNotExist, s)
  | some act =>
    match act.parameters with
    | none => .ok s
    | some defs =>
      let deleted := (s.activityParams.filter (fun p =>
        p.database == act.database && p.code == act.code)).map (·.group)
      let s := { s with activityParams := s.activityParams.filter (fun p =>
        !(p.database == act.database && p.code == act.code)) }
      let s := deleted.dedup.foldl touchGroup s
      let rows : List ActivityParamRow := defs.map (fun p =>
        { group := group, database := act.database, code := act.code, name := p.varName,
          formula := p.formula, amount := some (p.amount.getD 0), data := p.data })
      let pre := s
      match rows.foldlM apCreate s with
      | .error es => .error (es.1, rollbackTo pre es.2)
      | .ok s =>
        let s := { s with activities := s.activities.map (fun a =>
          if a.database == act.database && a.code == act.code then
            { a with parameters := none }
          else a) }
        addExchangesToGroup s group act.database act.code

/-! ## Characterization of the greedy resolution fold -/

/-- The database owning an activity group's parameters
(`ActivityParameter.get(group=group).database`, i.e. the first row's). -/
def ownDb (s : State) (g : String) : String :=
  match apLoad s g with
  | [] => ""
  | r :: _ => r.database

/-- The ordered scope list `dependency_chain` searches: the recorded
sibling activity groups, then the owning database, then project. -/
def allScopes (row : GroupRow) (d : String) : List (Kind × String) :=
  row.order.map (fun n => (Kind.activity, n)) ++ [(Kind.database, d), (Kind.project, "project")]

/-- Structural form of the chain the greedy fold builds. -/
def chainOf (s : State) : List (Kind × String) → List String → List ChainEntry
  | [], _ => []
  | σ :: rest, n =>
    let m := n.filter (fun x => decide (x ∈ scopeNames s σ))
    (if m.isEmpty then [] else [⟨σ.1, σ.2, m⟩])
      ++ chainOf s rest (n.filter (fun x => !decide (x ∈ scopeNames s σ)))

/-- Structural form of the leftover needed symbols. -/
def neededAfter (s : State) : List (Kind × String) → List String → List String
  | [], n => n
  | σ :: rest, n => neededAfter s rest (n.filter (fun x => !decide (x ∈ scopeNames s σ)))

/-- The first scope in the search order defining a symbol. -/
def firstHit (s : State) (scopes : List (Kind × String)) (x : String) : Option (Kind × String) :=
  scopes.find? (fun σ => decide (x ∈ scopeNames s σ))

theorem foldl_chainStep (s : State) (scopes : List (Kind × String))
    (c0 : List ChainEntry) (n0 : List String) :
    scopes.foldl (fun acc σ => chainStep s σ.1 σ.2 acc) (c0, n0)
      = (c0 ++ chainOf s scopes n0, neededAfter s scopes n0) := by
  induction scopes generalizing c0 n0 with
  | nil => simp [chainOf, neededAfter]
  | cons σ rest ih =>
    rw [List.foldl_cons]
    by_cases hm : (n0.filter (fun x => decide (x ∈ scopeNames s σ))).isEmpty
    · have hstep : chainStep s σ.1 σ.2 (c0, n0)
          = (c0, n0.filter (fun x => !decide (x ∈ scopeNames s σ))) := by
        simp [chainStep, hm]
      rw [hstep, ih]
      simp [chainOf, neededAfter, hm]
    · have hstep : chainStep s σ.1 σ.2 (c0, n0)
          = (c0 ++ [⟨σ.1, σ.2, n0.filter (fun x => decide (x ∈ scopeNames s σ))⟩],
             n0.filter (fun x => !decide (x ∈ scopeNames s σ))) := by
        simp [chainStep, hm]
      rw [hstep, ih]
      simp [chainOf, neededAfter, hm, List.append_assoc]

theorem chainOf_append (s : State) (a b : List (Kind × String)) (n : List String) :
    chainOf s (a ++ b) n = chainOf s a n ++ chainOf s b (neededAfter s a n) := by
  induction a generalizing n with
  | nil => simp [chainOf, neededAfter]
  | cons σ rest ih => simp [chainOf, neededAfter, ih, List.append_assoc]

theorem neededAfter_append (s : State) (a b : List (Kind × String)) (n : List String) :
    neededAfter s (a ++ b) n = neededAfter s b (neededAfter s a n) := by
  induction a generalizing n with
  | nil => simp [neededAfter]
  | cons σ rest ih => simp [neededAfter, ih]

theorem foldl_chainStep_act (s : State) (ord : List String)
    (c0 : List ChainEntry) (n0 : List String) :
    ord.foldl (fun acc ng => chainStep s Kind.activity ng acc) (c0, n0)
      = (c0 ++ chainOf s (ord.map (fun nm => (Kind.activity, nm))) n0,
         neededAfter s (ord.map (fun nm => (Kind.activity, nm))) n0) := by
  have h := foldl_chainStep s (ord.map (fun nm => (Kind.activity, nm))) c0 n0
  rw [List.foldl_map] at h
  exact h

theorem guardedStep (s : State) (k : Kind) (grp : String)
    (c : List ChainEntry) (n : List String) :
    (if n.isEmpty then (c, n) else chainStep s k grp (c, n))
      = (c ++ chainOf s [(k, grp)] n, neededAfter s [(k, grp)] n) := by
  by_cases hn : n.isEmpty
  · rw [List.isEmpty_iff] at hn
    subst hn
    simp [chainOf, neededAfter]
  · simp only [hn, Bool.false_eq_true, if_false, chainStep, chainOf, neededAfter]
    by_cases hm : (n.filter (fun x => decide (x ∈ scopeNames s (k, grp)))).isEmpty <;>
      simp [hm]

theorem mem_neededAfter (s : State) (scopes : List (Kind × String)) (n : List String)
    (x : String) :
    x ∈ neededAfter s scopes n ↔ x ∈ n ∧ ∀ σ ∈ scopes, x ∉ scopeNames s σ := by
  induction scopes generalizing n with
  | nil => simp [neededAfter]
  | cons σ rest ih =>
    simp only [neededAfter, ih, List.mem_filter, List.mem_cons]
    constructor
    · rintro ⟨⟨hx, hσ⟩, hrest⟩
      simp only [Bool.not_eq_true', decide_eq_false_iff_not] at hσ
      exact ⟨hx, by rintro τ (rfl | hτ); exact hσ; exact hrest τ hτ⟩
    · rintro ⟨hx, hall⟩
      refine ⟨⟨hx, ?_⟩, fun τ hτ => hall τ (Or.inr hτ)⟩
      simp only [Bool.not_eq_true', decide_eq_false_iff_not]
      exact hall σ (Or.inl rfl)

theorem chainOf_names_nonempty (s : State) (scopes : List (Kind × String)) (n : List String) :
    ∀ e ∈ chainOf s scopes n, e.names ≠ [] := by
  induction scopes generalizing n with
  | nil => simp [chainOf]
  | cons σ rest ih =>
    intro e he
    simp only [chainOf, List.mem_append] at he
    rcases he with he | he
    · by_cases hm : (n.filter (fun x => decide (x ∈ scopeNames s σ))).isEmpty
      · simp [hm] at he
      · simp only [hm, Bool.false_eq_true, if_false, List.mem_singleton] at he
        subst he
        simpa [List.isEmpty_iff] using hm
    · exact ih _ e he

theorem chainOf_names (s : State) (scopes : List (Kind × String)) (n : List String) :
    ∀ e ∈ chainOf s scopes n, ∀ x,
      x ∈ e.names ↔ x ∈ n ∧ firstHit s scopes x = some (e.kind, e.group) := by
  induction scopes generalizing n with
  | nil => simp [chainOf]
  | cons σ rest ih =>
    intro e he x
    simp only [chainOf, List.mem_append] at he
    rcases he with he | he
    · by_cases hm : (n.filter (fun x => decide (x ∈ scopeNames s σ))).isEmpty
      · simp [hm] at he
      · simp only [hm, Bool.false_eq_true, if_false, List.mem_singleton] at he
        subst he
        simp only [List.mem_filter, decide_eq_true_eq, firstHit]
        constructor
        · rintro ⟨hx, hσ⟩
          refine ⟨hx, ?_⟩
          rw [List.find?_cons_of_pos]
          simpa using hσ
        · rintro ⟨hx, hfind⟩
          refine ⟨hx, ?_⟩
          by_cases hσ : x ∈ scopeNames s σ
          · exact hσ
          · rw [List.find?_cons_of_neg _ (by simpa using hσ)] at hfind
            have := List.find?_some hfind
            simpa using this
    · have hiff := ih _ e he x
      simp only [List.mem_filter, Bool.not_eq_true', decide_eq_false_iff_not] at hiff
      rw [hiff]
      simp only [firstHit] at *
      constructor
      · rintro ⟨⟨hx, hσ⟩, hfind⟩
        refine ⟨hx, ?_⟩
        rw [List.find?_cons_of_neg _ (by simpa using hσ)]
        exact hfind
      · rintro ⟨hx, hfind⟩
        by_cases hσ : x ∈ scopeNames s σ
        · exfalso
          rw [List.find?_cons_of_pos _ (by simpa using hσ)] at hfind
          injection hfind with hfind
          obtain ⟨y, hy⟩ := List.exists_mem_of_ne_nil _ (chainOf_names_nonempty s rest _ e he)
          have hy2 := (ih _ e he y).mp hy
          rcases hy2 with ⟨hy3, hy4⟩
          rw [List.mem_filter] at hy3
          have := List.find?_some hy4
          simp only [decide_eq_true_eq] at this
          rw [← hfind] at this
          simp only [Bool.not_eq_true', decide_eq_false_iff_not] at hy3
          exact hy3.2 (by simpa using this)
        · rw [List.find?_cons_of_neg _ (by simpa using hσ)] at hfind
          exact ⟨⟨hx, hσ⟩, hfind⟩

theorem chainOf_sublist (s : State) (scopes : List (Kind × String)) (n : List String) :
    ((chainOf s scopes n).map (fun e => (e.kind, e.group))).Sublist scopes := by
  induction scopes generalizing n with
  | nil => simp [chainOf]
  | cons σ rest ih =>
    simp only [chainOf]
    by_cases hm : (n.filter (fun x => decide (x ∈ scopeNames s σ))).isEmpty
    · simp only [hm, if_true, List.nil_append]
      exact (ih _).cons σ
    · simp only [hm, Bool.false_eq_true, if_false, List.singleton_append, List.map_cons]
      exact (ih _).cons₂ σ

theorem chainOf_complete (s : State) (scopes : List (Kind × String)) (n : List String)
    (x : String) (hx : x ∈ n) (σ : Kind × String)
    (hf : firstHit s scopes x = some σ) :
    ∃ e ∈ chainOf s scopes n, x ∈ e.names ∧ (e.kind, e.group) = σ := by
  induction scopes generalizing n with
  | nil => simp [firstHit] at hf
  | cons τ rest ih =>
    by_cases hτ : x ∈ scopeNames s τ
    · rw [firstHit, List.find?_cons_of_pos _ (by simpa using hτ)] at hf
      injection hf with hf
      subst hf
      refine ⟨⟨τ.1, τ.2, n.filter (fun y => decide (y ∈ scopeNames s τ))⟩, ?_, ?_, rfl⟩
      · simp only [chainOf, List.mem_append]
        left
        have hmem : x ∈ n.filter (fun y => decide (y ∈ scopeNames s τ)) := by
          simp [List.mem_filter, hx, hτ]
        have : ¬(n.filter (fun y => decide (y ∈ scopeNames s τ))).isEmpty := by
          rw [List.isEmpty_iff]
          intro h
          rw [h] at hmem
          simp at hmem
        simp [this]
      · simp [List.mem_filter, hx, hτ]
    · rw [firstHit, List.find?_cons_of_neg _ (by simpa using hτ)] at hf
      obtain ⟨e, he, hex, hσ⟩ := ih (n.filter (fun y => !decide (y ∈ scopeNames s τ)))
        (by simp [List.mem_filter, hx, hτ]) hf
      refine ⟨e, ?_, hex, hσ⟩
      simp only [chainOf, List.mem_append]
      right
      exact he

theorem chainOf_disjoint (s : State) (scopes : List (Kind × String)) (n : List String) :
    (chainOf s scopes n).Pairwise (fun e1 e2 => ∀ x, x ∈ e1.names → x ∉ e2.names) := by
  induction scopes generalizing n with
  | nil => simp [chainOf]
  | cons σ rest ih =>
    simp only [chainOf]
    by_cases hm : (n.filter (fun x => decide (x ∈ scopeNames s σ))).isEmpty
    · simpa [hm] using ih _
    · simp only [hm, Bool.false_eq_true, if_false, List.singleton_append, List.pairwise_cons]
      refine ⟨?_, ih _⟩
      intro e he x hx hx2
      rw [List.mem_filter] at hx
      have := (chainOf_names s rest _ e he x).mp hx2
      rw [List.mem_filter] at this
      simp only [Bool.not_eq_true', decide_eq_false_iff_not, decide_eq_true_eq] at hx this
      exact this.1.2 hx.2

/-- Unfolding `dependency_chain` on a group with parameters and needed
symbols into the structural greedy search over the full scope list. -/
theorem dependencyChain_eq (s : State) (g : String) (row : GroupRow)
    (hd : (apLoad s g).isEmpty = false)
    (hn : (needed0 s g).isEmpty = false)
    (hr : getGroup s g = some row) :
    dependencyChain s g =
      (if (neededAfter s (allScopes row (ownDb s g)) (needed0 s g)).isEmpty
       then .ok (chainOf s (allScopes row (ownDb s g)) (needed0 s g))
       else .error (.missingVariables
         (neededAfter s (allScopes row (ownDb s g)) (needed0 s g)))) := by
  rcases hload : apLoad s g with _ | ⟨r, rest⟩
  · rw [hload] at hd
    simp at hd
  · have hown : ownDb s g = r.database := by rw [ownDb, hload]
    have hneed : getNewSymbols ((r :: rest).map (·.formula)) ((r :: rest).map (·.name))
        = needed0 s g := by
      rw [← hload]
      rfl
    simp only [dependencyChain, hload, List.isEmpty_cons, Bool.false_eq_true, if_false,
      hneed, hn, hr]
    rw [foldl_chainStep_act s row.order [] (needed0 s g), List.nil_append]
    rw [guardedStep s Kind.database r.database, guardedStep s Kind.project "project"]
    simp only [allScopes, hown]
    rw [show (row.order.map (fun nm => (Kind.activity, nm)))
          ++ [(Kind.database, r.database), (Kind.project, "project")]
        = (row.order.map (fun nm => (Kind.activity, nm)))
          ++ [(Kind.database, r.database)] ++ [(Kind.project, "project")] by
      simp]
    rw [chainOf_append, chainOf_append, neededAfter_append, neededAfter_append]

/-! ## Claim C2 -/

/-- C2: for an activity group with at least one parameter and at least one
free symbol, `dependency_chain(group)` resolves free symbols greedily with
first-match-wins priority over the ordered scope list (the `order`-listed
sibling activity groups in that order, then the owning database, then
project): the chain's `(kind, group)` tags form a subsequence of that scope
list (discovery order), each entry's `names` are exactly the free symbols
whose first defining scope it is, every entry is nonempty, each free symbol
appears in at most one entry, and every free symbol is resolved by some
entry. -/
theorem c2_dependency_chain_greedy_priority (s : State) (g : String) (row : GroupRow)
    (chain : List ChainEntry)
    (hrow : getGroup s g = some row)
    (hdata : apLoad s g ≠ [])
    (hneed : needed0 s g ≠ [])
    (hok : dependencyChain s g = .ok chain) :
    ((chain.map (fun e => (e.kind, e.group))).Sublist (allScopes row (ownDb s g))) ∧
    (∀ e ∈ chain, e.names ≠ [] ∧ ∀ x : String,
      (x ∈ e.names ↔ x ∈ needed0 s g ∧
        firstHit s (allScopes row (ownDb s g)) x = some (e.kind, e.group))) ∧
    (∀ e1 ∈ chain, ∀ e2 ∈ chain, ∀ x : String, x ∈ e1.names → x ∈ e2.names → e1 = e2) ∧
    (∀ x ∈ needed0 s g, ∃ e ∈ chain, x ∈ e.names) := by
  have hd : (apLoad s g).isEmpty = false := by
    rcases h : apLoad s g with _ | ⟨a, l⟩
    · exact absurd h hdata
    · rfl
  have hn : (needed0 s g).isEmpty = false := by
    rcases h : needed0 s g with _ | ⟨a, l⟩
    · exact absurd h hneed
    · rfl
  rw [dependencyChain_eq s g row hd hn hrow] at hok
  by_cases hA : (neededAfter s (allScopes row (ownDb s g)) (needed0 s g)).isEmpty
  · simp only [hA, if_true] at hok
    injection hok with hok
    subst hok
    refine ⟨chainOf_sublist s _ _,
      fun e he => ⟨chainOf_names_nonempty s _ _ e he, chainOf_names s _ _ e he⟩, ?_, ?_⟩
    · intro e1 h1 e2 h2 x hx1 hx2
      by_contra hne
      have hsym : Symmetric (fun (e1 e2 : ChainEntry) => ∀ x, x ∈ e1.names → x ∉ e2.names) :=
        fun a b h x hxb hxa => h x hxa hxb
      exact (chainOf_disjoint s _ _).forall hsym h1 h2 hne x hx1 hx2
    · intro x hx
      rw [List.isEmpty_iff] at hA
      have hmem := mem_neededAfter s (allScopes row (ownDb s g)) (needed0 s g) x
      rw [hA] at hmem
      simp only [List.not_mem_nil, false_iff, not_and, not_forall] at hmem
      obtain ⟨σ, hσ, hσ2⟩ := hmem hx
      simp only [not_not] at hσ2
      have hfind : ∃ τ, firstHit s (allScopes row (ownDb s g)) x = some τ := by
        rw [← Option.isSome_iff_exists, firstHit, List.find?_isSome]
        exact ⟨σ, hσ, by simpa using hσ2⟩
      obtain ⟨τ, hτ⟩ := hfind
      obtain ⟨e, he, hex, _⟩ := chainOf_complete s _ _ x hx τ hτ
      exact ⟨e, he, hex⟩
  · simp [hA] at hok

/-! ## Claim C4 -/

/-- The symbols of an activity group's formulas left undefined after
searching the group itself, its ordered siblings, its owning database, and
project parameters. -/
def unresolvedSyms (s : State) (g : String) : List String :=
  match getGroup s g with
  | none => []
  | some row => neededAfter s (allScopes row (ownDb s g)) (needed0 s g)

/-- The free symbols of a database's formulas that are not project
parameter names. -/
def dbMissing (s : State) (d : String) : List String :=
  (getNewSymbols ((dbLoad s d).map (·.formula)) ((dbLoad s d).map (·.name))).filter
    (fun n => !decide (n ∈ projNames s))

theorem neededAfter_nil (s : State) (scopes : List (Kind × String)) :
    neededAfter s scopes [] = [] := by
  induction scopes with
  | nil => rfl
  | cons σ rest ih => simpa [neededAfter] using ih

theorem dependencyChain_of_needed_nil (s : State) (g : String) (h : needed0 s g = []) :
    dependencyChain s g = .ok [] := by
  by_cases hd : (apLoad s g).isEmpty
  · simp [dependencyChain, hd]
  · have h2 : getNewSymbols ((apLoad s g).map (·.formula)) ((apLoad s g).map (·.name))
        = ([] : List String) := h
    simp [dependencyChain, hd, h2]

theorem psEval_error_shape (rows : List (String × Option Expr × Option Int))
    (glo : List (String × Option Int)) (e : Err) (h : psEval rows glo = .error e) :
    (e = .missingVariables ((getNewSymbols (rows.map (·.2.1)) (rows.map (·.1))).filter
        (fun n => !decide (n ∈ glo.map (·.1)))) ∧
      (getNewSymbols (rows.map (·.2.1)) (rows.map (·.1))).filter
        (fun n => !decide (n ∈ glo.map (·.1))) ≠ []) ∨
    e = .evaluation := by
  rw [psEval] at h
  by_cases hm : ((getNewSymbols (rows.map (·.2.1)) (rows.map (·.1))).filter
      (fun n => !decide (n ∈ glo.map (·.1)))).isEmpty
  · simp only [hm, Bool.not_true, Bool.false_eq_true, if_false] at h
    right
    split at h
    · exact absurd h (by simp)
    · simp only [Except.error.injEq] at h
      exact h.symm
  · rw [Bool.not_eq_true] at hm
    simp only [hm, Bool.not_false, if_true, Except.error.injEq] at h
    refine Or.inl ⟨h.symm, ?_⟩
    intro hc
    rw [hc] at hm
    simp at hm

theorem getOrCreateDepSave_error_shape (s : State) (g d : String) (e : Err) (st : State)
    (h : getOrCreateDepSave s g d = .error (e, st)) :
    e = .valueError ∨ e = .integrity ∨ e = .cyclicTrigger := by
  rw [getOrCreateDepSave] at h
  split_ifs at h <;> simp only [Except.error.injEq, Prod.mk.injEq] at h
  · exact Or.inl h.1.symm
  · exact Or.inl h.1.symm
  · exact Or.inr (Or.inl h.1.symm)
  · exact Or.inr (Or.inr h.1.symm)

theorem mem_projStaticOnly_names (s : State) (names : List String) (x : String) :
    x ∈ (projStaticOnly s names).map (·.1) ↔ x ∈ projNames s ∧ x ∈ names := by
  simp only [projStaticOnly, projNames, List.mem_map, List.mem_filterMap]
  constructor
  · rintro ⟨⟨y, amt⟩, ⟨p, hp, hf⟩, hx⟩
    split at hf
    next hname =>
      simp only [decide_eq_true_eq] at hname
      simp only [Option.some.injEq, Prod.mk.injEq] at hf
      obtain ⟨h1, _⟩ := hf
      have hy : y = x := hx
      subst hy
      exact ⟨⟨p, hp, h1⟩, h1 ▸ hname⟩
    next hname => exact absurd hf (by simp)
  · rintro ⟨⟨p, hp, hpx⟩, hx⟩
    refine ⟨(x, p.amount), ⟨p, hp, ?_⟩, rfl⟩
    rw [hpx]
    have : decide (x ∈ names) = true := by simpa using hx
    simp [this]

/-- C4: `dependency_chain(group)` (for an existing group row) raises
`MissingVariables`, naming exactly the unresolved symbols, precisely when
some free symbol of the group's formulas is defined in none of: the group
itself, its `order`-listed siblings, its owning database's parameters, the
project parameters; and `DatabaseParameter.recalculate(db)` (with the
project scope not stale, the database's group stale and its parameter set
nonempty) raises `MissingVariables`, naming them, precisely when some free
symbol of the database's formulas is not a project parameter name. -/
theorem c4_missing_variables_iff (s : State) (g d : String) (row : GroupRow) :
    (getGroup s g = some row →
      ((unresolvedSyms s g ≠ [] →
          dependencyChain s g = .error (.missingVariables (unresolvedSyms s g))) ∧
       (unresolvedSyms s g = [] →
          ∀ ns, dependencyChain s g ≠ .error (.missingVariables ns)) ∧
       (∀ x, x ∈ unresolvedSyms s g ↔ x ∈ needed0 s g ∧
          ∀ σ ∈ allScopes row (ownDb s g), x ∉ scopeNames s σ))) ∧
    (projectExpired s = false → dbExpired s d = true → dbLoad s d ≠ [] →
      ((dbMissing s d ≠ [] →
          recalcDatabase s d = .error (.missingVariables (dbMissing s d), s)) ∧
       (dbMissing s d = [] →
          ∀ ns st, recalcDatabase s d ≠ .error (.missingVariables ns, st)))) := by
  constructor
  · intro hrow
    have hunres : unresolvedSyms s g
        = neededAfter s (allScopes row (ownDb s g)) (needed0 s g) := by
      rw [unresolvedSyms, hrow]
    refine ⟨?_, ?_, ?_⟩
    · intro hne
      by_cases hd : (apLoad s g).isEmpty
      · exfalso
        apply hne
        rw [hunres]
        have : needed0 s g = [] := by
          rw [List.isEmpty_iff] at hd
          rw [needed0, apNames, hd]
          rfl
        rw [this, neededAfter_nil]
      · by_cases hn : (needed0 s g).isEmpty
        · exfalso
          apply hne
          rw [List.isEmpty_iff] at hn
          rw [hunres, hn, neededAfter_nil]
        · rw [dependencyChain_eq s g row (by simpa using hd) (by simpa using hn) hrow]
          rw [hunres] at hne
          simp [isEmpty_false_of_ne_nil hne, hunres]
    · intro hnil ns
      by_cases hd : (apLoad s g).isEmpty
      · rw [List.isEmpty_iff] at hd
        have : needed0 s g = [] := by
          rw [needed0, apNames, hd]
          rfl
        rw [dependencyChain_of_needed_nil s g this]
        simp
      · by_cases hn : (needed0 s g).isEmpty
        · rw [List.isEmpty_iff] at hn
          rw [dependencyChain_of_needed_nil s g hn]
          simp
        · rw [dependencyChain_eq s g row (by simpa using hd) (by simpa using hn) hrow]
          rw [hunres] at hnil
          simp [hnil]
    · intro x
      rw [hunres]
      exact mem_neededAfter s _ _ x
  · intro hproj hdb hload
    have hldF : (dbLoad s d).isEmpty = false := isEmpty_false_of_ne_nil hload
    have hrows1 : ((dbLoad s d).map
        (fun p => (p.name, p.formula, p.amount))).map (fun r => r.2.1)
        = (dbLoad s d).map (·.formula) := by
      simp [List.map_map]
    have hrows2 : ((dbLoad s d).map
        (fun p => (p.name, p.formula, p.amount))).map (fun r => r.1)
        = (dbLoad s d).map (·.name) := by
      simp [List.map_map]
    constructor
    · intro hne
      have hmiss : (getNewSymbols ((dbLoad s d).map (·.formula))
            ((dbLoad s d).map (·.name))).filter
          (fun n => !decide (n ∈ projNames s)) ≠ [] := hne
      simp only [recalcDatabase, hproj, Bool.false_eq_true, if_false, res_bind_ok, hdb,
        Bool.not_true, hldF, isEmpty_false_of_ne_nil hmiss, Bool.not_false, if_true]
      rfl
    · intro hnil ns st
      have hmiss : (getNewSymbols ((dbLoad s d).map (·.formula))
            ((dbLoad s d).map (·.name))).filter
          (fun n => !decide (n ∈ projNames s)) = [] := hnil
      simp only [recalcDatabase, hproj, Bool.false_eq_true, if_false, res_bind_ok, hdb,
        Bool.not_true, hldF, hmiss, List.isEmpty_nil, Bool.not_true, Bool.false_eq_true,
        if_false]
      have hfilter : ∀ glo2 : List (String × Option Int),
          (∀ n, n ∈ getNewSymbols ((dbLoad s d).map (·.formula))
              ((dbLoad s d).map (·.name)) → n ∈ glo2.map (·.1)) →
          (getNewSymbols
              (((dbLoad s d).map (fun p => (p.name, p.formula, p.amount))).map
                (fun r => r.2.1))
              (((dbLoad s d).map (fun p => (p.name, p.formula, p.amount))).map
                (fun r => r.1))).filter
            (fun n => !decide (n ∈ glo2.map (·.1))) = [] := by
        intro glo2 hcover
        rw [hrows1, hrows2, List.filter_eq_nil_iff]
        intro a ha
        simp only [Bool.not_eq_true', decide_eq_false_iff_not, not_not]
        exact hcover a ha
      by_cases hNSe : (getNewSymbols ((dbLoad s d).map (·.formula))
          ((dbLoad s d).map (·.name))).isEmpty
      · simp only [hNSe, if_true, res_bind_ok]
        split
        · rename_i e heq
          rcases psEval_error_shape _ _ _ heq with ⟨he, hfne⟩ | he
          · exfalso
            apply hfne
            apply hfilter
            intro n hn
            rw [List.isEmpty_iff] at hNSe
            rw [hNSe] at hn
            simp at hn
          · subst he
            simp
        · split <;> simp
      · rw [Bool.not_eq_true] at hNSe
        simp only [hNSe, Bool.false_eq_true, if_false]
        rcases hdep : getOrCreateDepSave s d "project" with ⟨e, st2⟩ | s2
        · rw [res_bind_error]
          rcases getOrCreateDepSave_error_shape s d "project" e st2 hdep with he | he | he <;>
            subst he <;> simp
        · rw [res_bind_ok]
          split
          · rename_i e heq
            rcases psEval_error_shape _ _ _ heq with ⟨he, hfne⟩ | he
            · exfalso
              apply hfne
              apply hfilter
              intro n hn
              rw [mem_projStaticOnly_names]
              refine ⟨?_, hn⟩
              have := List.filter_eq_nil_iff.mp hmiss n hn
              simp only [Bool.not_eq_true', decide_eq_false_iff_not, not_not] at this
              exact this
            · subst he
              simp
          · split <;> simp

/-! ## Claim C3 -/

theorem insertDeps_ok (g : String) (targets : List String) (s s2 : State)
    (h : insertDeps s g targets = .ok s2) :
    s2.deps = s.deps ++ targets.map (fun c => (⟨g, c⟩ : DepRow)) ∧
    s2.groups = s.groups ∧ s2.projectParams = s.projectParams ∧
    s2.databaseParams = s.databaseParams ∧ s2.activityParams = s.activityParams ∧
    s2.paramExchanges = s.paramExchanges ∧ s2.exchanges = s.exchanges ∧
    s2.activities = s.activities ∧ s2.databases = s.databases ∧
    s2.dirty = s.dirty ∧ s2.time = s.time := by
  induction targets generalizing s with
  | nil =>
    simp only [insertDeps, List.foldlM_nil] at h
    have h2 : s = s2 := Except.ok.inj h
    subst h2
    simp
  | cons c rest ih =>
    rw [insertDeps, List.foldlM_cons] at h
    split_ifs at h with h1 h2 h3
    · exact absurd h (by simp)
    · exact absurd h (by simp)
    · exact absurd h (by simp)
    · rw [res_bind_ok] at h
      obtain ⟨d1, d2, d3, d4, d5, d6, d7, d8, d9, d10, d11⟩ := ih _ h
      refine ⟨?_, d2, d3, d4, d5, d6, d7, d8, d9, d10, d11⟩
      rw [d1]
      simp [List.append_assoc]

theorem chain_ne_nil_sources (s : State) (g : String) (chain : List ChainEntry)
    (h : dependencyChain s g = .ok chain) (hne : chain ≠ []) :
    (apLoad s g).isEmpty = false ∧ (needed0 s g).isEmpty = false := by
  constructor
  · by_cases hd : (apLoad s g).isEmpty
    · rw [dependencyChain] at h
      simp only [hd, if_true, Except.ok.injEq] at h
      exact absurd h.symm hne
    · simpa using hd
  · by_cases hn : (needed0 s g).isEmpty
    · rw [List.isEmpty_iff] at hn
      rw [dependencyChain_of_needed_nil s g hn] at h
      simp only [Except.ok.injEq] at h
      exact absurd h.symm hne
    · simpa using hn

theorem getGroup_saveGroup_self (s : State) (r : GroupRow) (row : GroupRow)
    (hrow : getGroup s r.name = some row) :
    getGroup (saveGroup s r) r.name = some { r with order := purgeOrder s r.order } := by
  rw [saveGroup, getGroup]
  simp only
  rw [List.find?_map]
  have hp : ((fun gr : GroupRow => gr.name == r.name) ∘ (fun gr : GroupRow =>
      if gr.name == r.name then { r with order := purgeOrder s r.order } else gr))
      = fun gr : GroupRow => gr.name == r.name := by
    funext gr
    simp only [Function.comp]
    by_cases hg : gr.name == r.name <;> simp [hg]
  rw [hp]
  rw [getGroup] at hrow
  have hb := List.find?_some hrow
  rw [hrow]
  have hb2 : (row.name == r.name) = true := hb
  have hb3 : row.name = r.name := by simpa using hb2
  simp [hb3]

def exC3 : State :=
  { groups := [{ name := "g", fresh := false, updated := 0, order := ["x"] }],
    deps := [⟨"g", "q"⟩],
    projectParams := [], databaseParams := [],
    activityParams :=
      [{ group := "g", database := "d3", code := "k", name := "f",
         formula := none, amount := some 1, data := [] }],
    paramExchanges := [], exchanges := [], activities := [], databases := [],
    dirty := [], time := 1 }

/-- Counterexample for C3 as stated: a stale group whose dependency chain
is empty (its one parameter has no formula) is recalculated successfully,
yet its recorded `order` (`["x"]`) is not rewritten to the chain's (empty)
activity entries and its pre-existing dependency edge `(g, q)` is not
removed: the `if chain:` guard skips both rewrites when the chain is
empty. -/
theorem c3_counterexample :
    activityExpired exC3 "g" = true ∧
    dependencyChain exC3 "g" = .ok [] ∧
    (match recalcActivity 3 "g" exC3 with
      | .ok s2 => decide ((⟨"g", "q"⟩ : DepRow) ∈ s2.deps)
          && decide ((getGroup s2 "g").map (fun r => r.order) = some ["x"])
      | .error _ => false) = true :=
  ⟨by decide, by decide, by decide⟩

/-- C3 (amended): for a stale activity group whose dependency chain is
nonempty, `recalculate` rewrites the group's `order` to exactly the
activity-kind entries of the chain in chain order, replaces the group's
dependency edges so that they target exactly the chain's groups (previous
edges of the group removed), then recalculates the upstream entries in
reverse discovery order (`chain[::-1]`), each from the state the previous
one produced, before evaluating the group's own formulas; when the chain
is empty the order and the edges are left untouched (see the
counterexample). -/
theorem c3_order_edges_upstream (s : State) (g : String) (row : GroupRow)
    (chain : List ChainEntry) (fuel : Nat) (sf : State)
    (hexp : activityExpired s g = true)
    (hrow : getGroup s g = some row)
    (horder : ∀ x ∈ row.order, x ∉ s.databases ∧ x ≠ "project")
    (hch : dependencyChain s g = .ok chain)
    (hne : chain ≠ [])
    (hok : recalcActivity (fuel + 1) g s = .ok sf) :
    ∃ s1 s2 : State,
      (getGroup s1 g = some { row with
          order := chain.filterMap (fun e =>
            if e.kind == Kind.activity then some e.group else none) } ∧
       s1.deps = s.deps.filter (fun e => !(e.group == g))
          ++ chain.map (fun e => (⟨g, e.group⟩ : DepRow)) ∧
       s1.projectParams = s.projectParams ∧ s1.databaseParams = s.databaseParams ∧
       s1.activityParams = s.activityParams) ∧
      (chain.reverse.foldlM (fun s e =>
          match e.kind with
          | .project => recalcProject s
          | .database => recalcDatabase s e.group
          | .activity => recalcActivity fuel e.group s) s1 = .ok s2) ∧
      finishActivity s2 g = .ok sf := by
  obtain ⟨hd, hn⟩ := chain_ne_nil_sources s g chain hch hne
  -- the activity-kind entries of the chain all come from the stored order
  have hmemord : ∀ x ∈ chain.filterMap (fun e =>
      if e.kind == Kind.activity then some e.group else none), x ∈ row.order := by
    intro x hx
    rw [List.mem_filterMap] at hx
    obtain ⟨e, he, hfe⟩ := hx
    have hkind : e.kind = Kind.activity ∧ e.group = x := by
      by_cases hk : e.kind == Kind.activity
      · simp only [hk, if_true, Option.some.injEq] at hfe
        exact ⟨by simpa using hk, hfe⟩
      · simp [hk] at hfe
    have hchain : dependencyChain s g
        = (if (neededAfter s (allScopes row (ownDb s g)) (needed0 s g)).isEmpty
           then Except.ok (chainOf s (allScopes row (ownDb s g)) (needed0 s g))
           else Except.error (Err.missingVariables
             (neededAfter s (allScopes row (ownDb s g)) (needed0 s g)))) :=
      dependencyChain_eq s g row hd hn hrow
    rw [hch] at hchain
    by_cases hA : (neededAfter s (allScopes row (ownDb s g)) (needed0 s g)).isEmpty
    · rw [if_pos hA] at hchain
      injection hchain with hchain
      have hsub := chainOf_sublist s (allScopes row (ownDb s g)) (needed0 s g)
      rw [← hchain] at hsub
      have hmem : (e.kind, e.group) ∈ allScopes row (ownDb s g) :=
        hsub.subset (List.mem_map_of_mem _ he)
      rw [allScopes, List.mem_append] at hmem
      rcases hmem with hmem | hmem
      · rw [List.mem_map] at hmem
        obtain ⟨nm, hnm, heq⟩ := hmem
        have : nm = e.group := (Prod.mk.injEq _ _ _ _).mp heq |>.2
        rw [← hkind.2, ← this]
        exact hnm
      · exfalso
        simp only [List.mem_cons, List.not_mem_nil, or_false] at hmem
        rcases hmem with hmem | hmem <;>
        · have hk2 := congrArg Prod.fst hmem
          rw [hkind.1] at hk2
          exact Kind.noConfusion hk2
    · rw [if_neg hA] at hchain
      exact Except.noConfusion hchain
  -- unfold the recalculation
  rw [recalcActivity] at hok
  simp only [hexp, Bool.not_true, Bool.false_eq_true, if_false, hch,
    isEmpty_false_of_ne_nil hne, hrow] at hok
  rcases hins : insertDeps
      { saveGroup s { row with order := chain.filterMap (fun e =>
          if e.kind == Kind.activity then some e.group else none) } with
        deps := (saveGroup s { row with order := chain.filterMap (fun e =>
          if e.kind == Kind.activity then some e.group else none) }).deps.filter
            (fun e => !(e.group == g)) }
      g (chain.map (fun e => e.group)) with e1 | s1
  · rw [hins, res_bind_error] at hok
    exact absurd hok (by simp)
  · rw [hins, res_bind_ok] at hok
    rcases hrun : chain.reverse.foldlM (fun s e =>
        match e.kind with
        | .project => recalcProject s
        | .database => recalcDatabase s e.group
        | .activity => recalcActivity fuel e.group s) s1 with e2 | s2
    · rw [hrun, res_bind_error] at hok
      exact absurd hok (by simp)
    · rw [hrun, res_bind_ok] at hok
      obtain ⟨hdeps1, hgroups1, hpp1, hdp1, hap1, _, _, _, _, _, _⟩ :=
        insertDeps_ok g (chain.map (fun e => e.group)) _ s1 hins
      have hsave : getGroup (saveGroup s { row with order := chain.filterMap (fun e =>
          if e.kind == Kind.activity then some e.group else none) }) g
          = some { row with order := purgeOrder s (chain.filterMap (fun e =>
              if e.kind == Kind.activity then some e.group else none)) } := by
        have hname : ({ row with order := chain.filterMap (fun e =>
            if e.kind == Kind.activity then some e.group else none) } : GroupRow).name
            = row.name := rfl
        have hrowname : row.name = g := by
          have := List.find?_some hrow
          simpa using this
        rw [show ({ row with order := chain.filterMap (fun e =>
            if e.kind == Kind.activity then some e.group else none) } : GroupRow)
            = { name := row.name, fresh := row.fresh, updated := row.updated,
                order := chain.filterMap (fun e =>
                  if e.kind == Kind.activity then some e.group else none) } from rfl]
        rw [show g = row.name from hrowname.symm] at hrow ⊢
        exact getGroup_saveGroup_self s _ row hrow
      have hpurge : purgeOrder s (chain.filterMap (fun e =>
          if e.kind == Kind.activity then some e.group else none))
          = chain.filterMap (fun e =>
              if e.kind == Kind.activity then some e.group else none) := by
        rw [purgeOrder, List.filter_eq_self]
        intro x hx
        obtain ⟨hx1, hx2⟩ := horder x (hmemord x hx)
        simp [hx1, hx2]
      refine ⟨s1, s2, ⟨?_, ?_, ?_, ?_, ?_⟩, hrun, hok⟩
      · rw [getGroup, hgroups1]
        rw [getGroup] at hsave
        rw [hpurge] at hsave
        exact hsave
      · rw [hdeps1, List.map_map]
        rfl
      · exact hpp1
      · exact hdp1
      · exact hap1

def exC3w : State :=
  { groups := [{ name := "g", fresh := false, updated := 0, order := ["y"] },
               { name := "y", fresh := false, updated := 0, order := [] }],
    deps := [],
    projectParams := [{ name := "b", formula := none, amount := some 5, data := [] }],
    databaseParams :=
      [{ database := "d", name := "a", formula := none, amount := some 2, data := [] }],
    activityParams :=
      [{ group := "g", database := "d", code := "c1", name := "f",
         formula := some (.add (.var "a") (.var "b")), amount := none, data := [] },
       { group := "y", database := "d", code := "c2", name := "a",
         formula := none, amount := some 7, data := [] }],
    paramExchanges := [], exchanges := [], activities := [], databases := ["d"],
    dirty := [], time := 1 }

def exC3wRow : GroupRow := { name := "g", fresh := false, updated := 0, order := ["y"] }

def exC3wChain : List ChainEntry :=
  [⟨.activity, "y", ["a"]⟩, ⟨.project, "project", ["b"]⟩]

def exC3wFinal : State :=
  { groups := [{ name := "g", fresh := true, updated := 2, order := ["y"] },
               { name := "y", fresh := true, updated := 1, order := [] }],
    deps := [⟨"g", "y"⟩, ⟨"g", "project"⟩],
    projectParams := [{ name := "b", formula := none, amount := some 5, data := [] }],
    databaseParams :=
      [{ database := "d", name := "a", formula := none, amount := some 2, data := [] }],
    activityParams :=
      [{ group := "g", database := "d", code := "c1", name := "f",
         formula := some (.add (.var "a") (.var "b")), amount := some 12, data := [] },
       { group := "y", database := "d", code := "c2", name := "a",
         formula := none, amount := some 7, data := [] }],
    paramExchanges := [], exchanges := [], activities := [], databases := ["d"],
    dirty := ["d", "d"], time := 3 }

/-- Witness for C3's amended theorem at a concrete stale group with a
two-entry chain. -/
theorem c3_witness :
    (activityExpired exC3w "g" = true ∧ getGroup exC3w "g" = some exC3wRow ∧
      dependencyChain exC3w "g" = .ok exC3wChain ∧ exC3wChain ≠ [] ∧
      recalcActivity 5 "g" exC3w = .ok exC3wFinal) ∧
    (∃ s1 s2 : State,
      (getGroup s1 "g" = some { exC3wRow with
          order := exC3wChain.filterMap (fun e =>
            if e.kind == Kind.activity then some e.group else none) } ∧
       s1.deps = exC3w.deps.filter (fun e => !(e.group == "g"))
          ++ exC3wChain.map (fun e => (⟨"g", e.group⟩ : DepRow)) ∧
       s1.projectParams = exC3w.projectParams ∧
       s1.databaseParams = exC3w.databaseParams ∧
       s1.activityParams = exC3w.activityParams) ∧
      (exC3wChain.reverse.foldlM (fun s e =>
          match e.kind with
          | .project => recalcProject s
          | .database => recalcDatabase s e.group
          | .activity => recalcActivity 4 e.group s) s1 = .ok s2) ∧
      finishActivity s2 "g" = .ok exC3wFinal) :=
  ⟨⟨by decide, by decide, by decide, by decide, by decide⟩,
    c3_order_edges_upstream exC3w "g" exC3wRow exC3wChain 4 exC3wFinal
      (by decide) (by decide) (by decide) (by decide) (by decide) (by decide)⟩

/-! ## Claim C5 -/

/-- C5: `expire_downstream(g)` flips `fresh` to false on exactly the
groups with a dependency edge whose `depends` is `g`, and changes nothing
else: every parameter store, the dependency edges, the external stores and
the clock are untouched, and each group row keeps its name, order and
updated stamp, with its `fresh` flag cleared precisely when it directly
depends on `g`. -/
theorem c5_expire_downstream_frame (s : State) (g : String) :
    (expireDownstream s g).deps = s.deps ∧
    (expireDownstream s g).projectParams = s.projectParams ∧
    (expireDownstream s g).databaseParams = s.databaseParams ∧
    (expireDownstream s g).activityParams = s.activityParams ∧
    (expireDownstream s g).paramExchanges = s.paramExchanges ∧
    (expireDownstream s g).exchanges = s.exchanges ∧
    (expireDownstream s g).activities = s.activities ∧
    (expireDownstream s g).databases = s.databases ∧
    (expireDownstream s g).dirty = s.dirty ∧
    (expireDownstream s g).time = s.time ∧
    ∀ n : String, getGroup (expireDownstream s g) n
      = (getGroup s n).map (fun r =>
          if ∃ e ∈ s.deps, e.group = n ∧ e.depends = g then { r with fresh := false }
          else r) := by
  refine ⟨rfl, rfl, rfl, rfl, rfl, rfl, rfl, rfl, rfl, rfl, ?_⟩
  intro n
  rw [expireDownstream, getGroup, getGroup]
  simp only
  rw [List.find?_map]
  have hp : ((fun r : GroupRow => r.name == n) ∘ (fun r : GroupRow =>
      if decide (∃ e ∈ s.deps, e.group = r.name ∧ e.depends = g) = true then
        { r with fresh := false }
      else r)) = fun r : GroupRow => r.name == n := by
    funext r
    simp only [Function.comp]
    split <;> rfl
  rw [hp]
  rcases hf : s.groups.find? (fun r => r.name == n) with _ | r
  · rw [hf]
    rfl
  · rw [hf]
    have hname : r.name = n := by simpa using List.find?_some hf
    subst hname
    by_cases hc : ∃ e ∈ s.deps, e.group = r.name ∧ e.depends = g <;> simp [hc]

/-! ## Claim C6 -/

/-- Whether a group row exists and is fresh. -/
def freshG (s : State) (n : String) : Bool :=
  match getGroup s n with
  | some r => r.fresh
  | none => false

theorem projectExpired_false_of_fresh (s : State) (h : freshG s "project" = true) :
    projectExpired s = false := by
  rw [freshG] at h
  rw [projectExpired]
  rcases hg : getGroup s "project" with _ | r
  · rw [hg] at h
  · rw [hg] at h
    have h2 : r.fresh = true := h
    show (!r.fresh) = false
    rw [h2]
    rfl

theorem dbExpired_false_of_fresh (s : State) (d : String) (h : freshG s d = true) :
    dbExpired s d = false := by
  rw [freshG] at h
  rw [dbExpired]
  rcases hg : getGroup s d with _ | r
  · rw [hg] at h
  · rw [hg] at h
    have h2 : r.fresh = true := h
    show (!r.fresh) = false
    rw [h2]
    rfl

theorem activityExpired_false_of_fresh (s : State) (g : String) (h : freshG s g = true) :
    activityExpired s g = false := by
  rw [freshG] at h
  rw [activityExpired]
  rcases hg : getGroup s g with _ | r
  · rw [hg] at h
  · rw [hg] at h
    have h2 : r.fresh = true := h
    show (!r.fresh) = false
    rw [h2]
    rfl

/-- C6: every per-scope recalculate entry point is a strict no-op when its
Group is fresh (project also fresh for the database and activity
variants): the returned state is exactly the input state, so no parameter
amount, no Group row (including `updated`), and no dependency edge
changes. -/
theorem c6_fresh_group_noop (s : State) (d g : String) (fuel : Nat) :
    (freshG s "project" = true → recalcProject s = .ok s) ∧
    (freshG s "project" = true → freshG s d = true → recalcDatabase s d = .ok s) ∧
    (freshG s "project" = true → freshG s g = true →
      recalcActivity (fuel + 1) g s = .ok s) := by
  refine ⟨?_, ?_, ?_⟩
  · intro h
    rw [recalcProject, projectExpired_false_of_fresh s h]
    rfl
  · intro hp h
    rw [recalcDatabase]
    rw [projectExpired_false_of_fresh s hp]
    simp only [Bool.false_eq_true, if_false, res_bind_ok, dbExpired_false_of_fresh s d h,
      Bool.not_false, if_true]
  · intro _ h
    rw [recalcActivity]
    rw [activityExpired_false_of_fresh s g h]
    rfl

def exC6 : State :=
  { groups := [{ name := "project", fresh := true, updated := 0, order := [] },
               { name := "db", fresh := true, updated := 0, order := [] },
               { name := "grp", fresh := true, updated := 0, order := [] }],
    deps := [], projectParams := [], databaseParams := [], activityParams := [],
    paramExchanges := [], exchanges := [], activities := [], databases := ["db"],
    dirty := [], time := 1 }

/-- Witness for C6: with every group fresh, all three entry points return
the state unchanged. -/
theorem c6_witness :
    recalcProject exC6 = .ok exC6 ∧ recalcDatabase exC6 "db" = .ok exC6 ∧
    recalcActivity 1 "grp" exC6 = .ok exC6 :=
  ⟨(c6_fresh_group_noop exC6 "db" "grp" 0).1 (by decide),
   (c6_fresh_group_noop exC6 "db" "grp" 0).2.1 (by decide) (by decide),
   (c6_fresh_group_noop exC6 "db" "grp" 0).2.2 (by decide) (by decide)⟩

/-! ## Claim C7 -/

def exC7 : State :=
  { groups := [], deps := [⟨"a", "b"⟩, ⟨"b", "c"⟩], projectParams := [],
    databaseParams := [], activityParams := [], paramExchanges := [], exchanges := [],
    activities := [], databases := [], dirty := [], time := 0 }

/-- C7 (code bug): the write-time guards reject the direct self-edge
`(a, a)` and the 2-node cycle `(b, a)` against `(a, b)`, but the
`gd_circular` trigger only inspects the direct reverse edge, so inserting
`(c, a)` into `{(a, b), (b, c)}` is accepted and closes the 3-cycle
`a → b → c → a`, contradicting the "no circular dependencies" contract the
source itself documents. -/
theorem c7_cycle_guard_bug :
    hasCycle exC7.deps = false ∧
    insertGroupDependency exC7 "a" "a" = .error (.integrity, exC7) ∧
    insertGroupDependency exC7 "b" "a" = .error (.cyclicTrigger, exC7) ∧
    (match insertGroupDependency exC7 "c" "a" with
      | .ok s2 => hasCycle s2.deps
      | .error _ => false) = true :=
  ⟨by decide, by decide, by decide, by decide⟩

/-! ## Claim C9 -/

def exC9 : State :=
  { groups := [], deps := [], projectParams := [], databaseParams := [],
    activityParams := [],
    paramExchanges := [],
    exchanges := [{ id := 1, database := "db", code := "a1",
                    formula := some (.var "x"), amount := none }],
    activities := [{ database := "db", code := "a1",
                     parameters := some [{ varName := "x", formula := none,
                                           amount := some 2, data := [] }] }],
    databases := ["db"], dirty := [], time := 0 }

/-- C9 (code bug): on an activity carrying a `parameters` list and a
formula-bearing exchange, `add_to_group` reaches the exchange-linking loop
in `add_exchanges_to_group`, whose body assigns `row['formula'] = formula`
with `formula` an unbound name (on a model object that does not even
support item assignment), so the call raises instead of storing the
exchange's formula and clearing it from the record. -/
theorem c9_add_exchanges_unbound_name :
    ((getActivity exC9 "db" "a1").map (fun a => a.parameters.isSome) = some true) ∧
    (exchangesOf exC9 "db" "a1").any (fun e => e.formula.isSome) = true ∧
    (match addToGroup exC9 "G" "db" "a1" with
      | .error (.nameError, _) => true
      | _ => false) = true :=
  ⟨by decide, by decide, by decide⟩

/-! ## Claim C10 -/

def resIsOk : Res → Bool
  | .ok _ => true
  | .error _ => false

/-- C10 (amended): for a name with no Group row, every scope's `expired()`
returns false, and the project/activity recalculate entry points return
without raising and without writing; `DatabaseParameter.recalculate` first
refreshes a stale project scope, so it is only guaranteed write-free when
the project scope is not stale. -/
theorem c10_missing_group_noop (s : State) (n : String) (fuel : Nat)
    (h : getGroup s n = none) :
    dbExpired s n = false ∧ activityExpired s n = false ∧
    recalcActivity (fuel + 1) n s = .ok s ∧
    (n = "project" → projectExpired s = false ∧ recalcProject s = .ok s) ∧
    (projectExpired s = false → recalcDatabase s n = .ok s) := by
  have hdb : dbExpired s n = false := by
    rw [dbExpired, h]
  have hact : activityExpired s n = false := by
    rw [activityExpired, h]
  refine ⟨hdb, hact, ?_, ?_, ?_⟩
  · rw [recalcActivity, hact]
    rfl
  · intro hn
    subst hn
    have hpe : projectExpired s = false := by
      rw [projectExpired, h]
    refine ⟨hpe, ?_⟩
    rw [recalcProject, hpe]
    rfl
  · intro hpe
    rw [recalcDatabase, hpe]
    simp only [Bool.false_eq_true, if_false, res_bind_ok, hdb, Bool.not_false, if_true]

def exC10 : State :=
  { groups := [{ name := "project", fresh := false, updated := 0, order := [] }],
    deps := [],
    projectParams := [{ name := "p", formula := none, amount := some 3, data := [] }],
    databaseParams := [], activityParams := [], paramExchanges := [], exchanges := [],
    activities := [], databases := ["db1"], dirty := [], time := 1 }

/-- Counterexample for C10 as stated: with the `db1` group never created
but the project group stale, `DatabaseParameter.recalculate("db1")` first
recalculates the project scope and therefore returns with storage written
(the project group freshened), not the untouched input state. -/
theorem c10_counterexample :
    getGroup exC10 "db1" = none ∧
    resIsOk (recalcDatabase exC10 "db1") = true ∧
    recalcDatabase exC10 "db1" ≠ .ok exC10 :=
  ⟨by decide, by decide, by decide⟩

/-- Witness for C10's amended theorem at a concrete missing group. -/
theorem c10_witness :
    getGroup exC6 "nogroup" = none ∧
    (dbExpired exC6 "nogroup" = false ∧ activityExpired exC6 "nogroup" = false ∧
      recalcActivity 1 "nogroup" exC6 = .ok exC6 ∧
      ("nogroup" = "project" → projectExpired exC6 = false ∧
        recalcProject exC6 = .ok exC6) ∧
      (projectExpired exC6 = false → recalcDatabase exC6 "nogroup" = .ok exC6)) :=
  ⟨by decide, c10_missing_group_noop exC6 "nogroup" 0 (by decide)⟩

/-! ## Claim C8 -/

/-- C8: each bulk-replace entry point checks its input before any
mutation — duplicate names in the batch, an unknown database, or activity
rows naming more than one database make the call raise with the storage
state exactly as it was at entry. -/
theorem c8_bulk_validation_atomic (s : State) (dataP : List PPIn) (dataD : List DBIn)
    (dataA : List APIn) (dbn grp : String) (fuel : Nat) :
    ((dataP.map (·.name)).dedup.length ≠ dataP.length →
      newProjectParameters s dataP = .error (.assertionError "Nonunique names", s)) ∧
    (dbn ∉ s.databases →
      newDatabaseParameters s dataD dbn = .error (.assertionError "Unknown database", s)) ∧
    (dbn ∈ s.databases → (dataD.map (·.name)).dedup.length ≠ dataD.length →
      newDatabaseParameters s dataD dbn = .error (.assertionError "Nonunique names", s)) ∧
    ((dataA.map (·.database)).dedup.length ≠ 1 →
      newActivityParameters fuel s dataA grp
        = .error (.assertionError "Multiple databases", s)) ∧
    ((dataA.map (·.database)).dedup.length = 1 →
      (dataA.map (·.database)).dedup.headI ∉ s.databases →
      newActivityParameters fuel s dataA grp
        = .error (.assertionError "Unknown database", s)) ∧
    ((dataA.map (·.database)).dedup.length = 1 →
      (dataA.map (·.database)).dedup.headI ∈ s.databases →
      (dataA.map (·.name)).dedup.length ≠ dataA.length →
      newActivityParameters fuel s dataA grp
        = .error (.assertionError "Nonunique names", s)) := by
  refine ⟨?_, ?_, ?_, ?_, ?_, ?_⟩
  · intro h
    have hb : ((dataP.map (·.name)).dedup.length == dataP.length) = false :=
      beq_eq_false_iff_ne.mpr h
    simp [newProjectParameters, hb]
  · intro h
    have hb : decide (dbn ∈ s.databases) = false := decide_eq_false h
    simp [newDatabaseParameters, hb]
  · intro hdb h
    have hb : ((dataD.map (·.name)).dedup.length == dataD.length) = false :=
      beq_eq_false_iff_ne.mpr h
    have hdb2 : decide (dbn ∈ s.databases) = true := decide_eq_true hdb
    simp [newDatabaseParameters, hdb2, hb]
  · intro h
    have hb : ((dataA.map (·.database)).dedup.length == 1) = false :=
      beq_eq_false_iff_ne.mpr h
    simp [newActivityParameters, hb]
  · intro h1 h2
    have hb : ((dataA.map (·.database)).dedup.length == 1) = true := by
      simp [h1]
    have hdb : decide ((dataA.map (·.database)).dedup.headI ∈ s.databases) = false :=
      decide_eq_false h2
    simp [newActivityParameters, hb, hdb]
  · intro h1 h2 h3
    have hb : ((dataA.map (·.database)).dedup.length == 1) = true := by
      simp [h1]
    have hdb : decide ((dataA.map (·.database)).dedup.headI ∈ s.databases) = true :=
      decide_eq_true h2
    have hn : ((dataA.map (·.name)).dedup.length == dataA.length) = false :=
      beq_eq_false_iff_ne.mpr h3
    simp [newActivityParameters, hb, hdb, hn]

/-- Witness for C8: concrete invalid batches against a one-database
state, each rejected with the state returned untouched. -/
theorem c8_witness :
    (newProjectParameters exC6 [⟨"a", none, none, []⟩, ⟨"a", none, none, []⟩]
      = .error (.assertionError "Nonunique names", exC6)) ∧
    (newDatabaseParameters exC6 [] "nodb"
      = .error (.assertionError "Unknown database", exC6)) ∧
    (newDatabaseParameters exC6 [⟨"a", none, none, []⟩, ⟨"a", none, none, []⟩] "db"
      = .error (.assertionError "Nonunique names", exC6)) ∧
    (newActivityParameters 3 exC6
        [⟨"db", "c1", "a", none, none, []⟩, ⟨"other", "c2", "b", none, none, []⟩] "G"
      = .error (.assertionError "Multiple databases", exC6)) ∧
    (newActivityParameters 3 exC6 [⟨"nodb", "c1", "a", none, none, []⟩] "G"
      = .error (.assertionError "Unknown database", exC6)) ∧
    (newActivityParameters 3 exC6
        [⟨"db", "c1", "a", none, none, []⟩, ⟨"db", "c2", "a", none, none, []⟩] "G"
      = .error (.assertionError "Nonunique names", exC6)) :=
  ⟨(c8_bulk_validation_atomic exC6 [⟨"a", none, none, []⟩, ⟨"a", none, none, []⟩]
      [] [] "nodb" "G" 3).1 (by decide),
   (c8_bulk_validation_atomic exC6 [] [] [] "nodb" "G" 3).2.1 (by decide),
   (c8_bulk_validation_atomic exC6 [] [⟨"a", none, none, []⟩, ⟨"a", none, none, []⟩]
      [] "db" "G" 3).2.2.1 (by decide) (by decide),
   (c8_bulk_validation_atomic exC6 [] []
      [⟨"db", "c1", "a", none, none, []⟩, ⟨"other", "c2", "b", none, none, []⟩]
      "db" "G" 3).2.2.2.1 (by decide),
   (c8_bulk_validation_atomic exC6 [] [] [⟨"nodb", "c1", "a", none, none, []⟩]
      "db" "G" 3).2.2.2.2.1 (by decide) (by decide),
   (c8_bulk_validation_atomic exC6 [] []
      [⟨"db", "c1", "a", none, none, []⟩, ⟨"db", "c2", "a", none, none, []⟩]
      "db" "G" 3).2.2.2.2.2 (by decide) (by decide) (by decide)⟩

def exC4 : State :=
  { groups := [{ name := "g", fresh := false, updated := 0, order := [] },
               { name := "d", fresh := false, updated := 0, order := [] }],
    deps := [],
    projectParams := [],
    databaseParams :=
      [{ database := "d", name := "w", formula := some (.var "qq"), amount := none,
         data := [] }],
    activityParams :=
      [{ group := "g", database := "d0", code := "k1", name := "f",
         formula := some (.var "zz"), amount := none, data := [] }],
    paramExchanges := [], exchanges := [], activities := [], databases := ["d"],
    dirty := [], time := 1 }

def exC4row : GroupRow := { name := "g", fresh := false, updated := 0, order := [] }

/-- Witness for C4: a group whose formula needs the nowhere-defined `zz`
makes `dependency_chain` raise `MissingVariables ["zz"]`, and a database
formula needing `qq` (not a project parameter) makes
`DatabaseParameter.recalculate` raise `MissingVariables ["qq"]` leaving the
state untouched. -/
theorem c4_witness :
    dependencyChain exC4 "g" = .error (.missingVariables (unresolvedSyms exC4 "g")) ∧
    recalcDatabase exC4 "d" = .error (.missingVariables (dbMissing exC4 "d"), exC4) ∧
    unresolvedSyms exC4 "g" = ["zz"] ∧ dbMissing exC4 "d" = ["qq"] :=
  ⟨((c4_missing_variables_iff exC4 "g" "d" exC4row).1 (by decide)).1 (by decide),
   ((c4_missing_variables_iff exC4 "g" "d" exC4row).2 (by decide) (by decide)
      (by decide)).1 (by decide),
   by decide, by decide⟩

def exC2 : State :=
  { groups := [{ name := "g", fresh := false, updated := 0, order := ["y"] },
               { name := "y", fresh := true, updated := 0, order := [] }],
    deps := [],
    projectParams := [{ name := "c", formula := none, amount := some 1, data := [] }],
    databaseParams :=
      [{ database := "d", name := "a", formula := none, amount := some 2, data := [] },
       { database := "d", name := "b", formula := none, amount := some 3, data := [] }],
    activityParams :=
      [{ group := "g", database := "d", code := "k1", name := "f",
         formula := some (.add (.add (.var "a") (.var "b")) (.var "c")),
         amount := none, data := [] },
       { group := "y", database := "d", code := "k2", name := "a",
         formula := none, amount := some 7, data := [] }],
    paramExchanges := [], exchanges := [], activities := [], databases := ["d"],
    dirty := [], time := 1 }

def exC2row : GroupRow := { name := "g", fresh := false, updated := 0, order := ["y"] }

def exC2chain : List ChainEntry :=
  [⟨.activity, "y", ["a"]⟩, ⟨.database, "d", ["b"]⟩, ⟨.project, "project", ["c"]⟩]

/-- Witness for C2: a concrete group whose symbol `a` is defined both in
the ordered sibling `y` and in the owning database `d`, resolved from `y`. -/
theorem c2_witness :
    (getGroup exC2 "g" = some exC2row ∧ apLoad exC2 "g" ≠ [] ∧ needed0 exC2 "g" ≠ [] ∧
      dependencyChain exC2 "g" = .ok exC2chain) ∧
    (((exC2chain.map (fun e => (e.kind, e.group))).Sublist
        (allScopes exC2row (ownDb exC2 "g"))) ∧
      (∀ e ∈ exC2chain, e.names ≠ [] ∧ ∀ x : String,
        (x ∈ e.names ↔ x ∈ needed0 exC2 "g" ∧
          firstHit exC2 (allScopes exC2row (ownDb exC2 "g")) x = some (e.kind, e.group))) ∧
      (∀ e1 ∈ exC2chain, ∀ e2 ∈ exC2chain, ∀ x : String,
        x ∈ e1.names → x ∈ e2.names → e1 = e2) ∧
      (∀ x ∈ needed0 exC2 "g", ∃ e ∈ exC2chain, x ∈ e.names)) :=
  ⟨⟨by decide, by decide, by decide, by decide⟩,
    c2_dependency_chain_greedy_priority exC2 "g" exC2row exC2chain
      (by decide) (by decide) (by decide) (by decide)⟩

/-! ## Claim C1: infrastructure

The whole-run freshness theorem needs a set of data-model invariants (all
documented constraints of the schema and of `GroupDependency.save`), a
notion of which state components a recalculation step may change, and a
ranking hypothesis on the recorded `order` lists (the acyclicity the
source relies on for termination of the upstream recursion). -/

/-- An activity parameter row with the value fields normalised away: what
recalculation never changes. -/
def apShape (p : ActivityParamRow) : ActivityParamRow := { p with amount := none, data := [] }

def dbShape (p : DatabaseParamRow) : DatabaseParamRow := { p with amount := none, data := [] }

def ppShape (p : ProjectParamRow) : ProjectParamRow := { p with amount := none, data := [] }

/-- A group row without its `updated` stamp: name, freshness and order. -/
def grShape (r : GroupRow) : GroupRow := { r with updated := 0 }

/-- A group is absent or fresh (the safe targets of a dependency edge of a
fresh group). -/
def okB (s : State) (n : String) : Bool :=
  match getGroup s n with
  | some r => r.fresh
  | none => true

/-! ### Well-formedness: the documented data-model invariants -/

/-- Schema `CHECK ("group" != depends)`. -/
def noSelfDeps (s : State) : Prop := ∀ e ∈ s.deps, e.group ≠ e.depends

/-- `GroupDependency.save`: the project group has no dependencies. -/
def noProjectDeps (s : State) : Prop := ∀ e ∈ s.deps, e.group ≠ "project"

/-- `GroupDependency.save`: database groups depend only on `project`. -/
def dbDepsProject (s : State) : Prop :=
  ∀ e ∈ s.deps, e.group ∈ s.databases → e.depends = "project"

/-- Edges out of an activity group exist because its formulas borrow
symbols: the group has parameters and free symbols. -/
def edgesHaveNeeds (s : State) : Prop :=
  ∀ e ∈ s.deps, e.group ∉ s.databases → (apLoad s e.group ≠ [] ∧ needed0 s e.group ≠ [])

/-- A fresh group's dependencies are absent or fresh: its cached amounts
were not computed from values known to be stale. -/
def inv2 (s : State) : Prop :=
  ∀ e ∈ s.deps, freshG s e.group = true → okB s e.depends = true

/-- `purge_order` has run on stored orders: no database or project names. -/
def orderWf (s : State) : Prop :=
  ∀ r ∈ s.groups, ∀ x ∈ r.order, x ∉ s.databases ∧ x ≠ "project"

/-- Schema constraints of `activityparameter` plus registry coherence. -/
def apWf (s : State) : Prop :=
  ∀ p ∈ s.activityParams, p.database ∈ s.databases ∧ p.group ≠ "project"

def projNotDb (s : State) : Prop := "project" ∉ s.databases

def WF (s : State) : Prop :=
  noSelfDeps s ∧ noProjectDeps s ∧ dbDepsProject s ∧ edgesHaveNeeds s ∧ inv2 s ∧
    orderWf s ∧ apWf s ∧ projNotDb s

/-- The recorded `order` lists are ranked: the acyclicity of the sibling
search the source's upstream recursion relies on. -/
def RankOK (rank : String → Nat) (s : State) : Prop :=
  ∀ r ∈ s.groups, ∀ x ∈ r.order, rank x < rank r.name

/-! ### What a recalculation step may and may not change -/

/-- The frame every recalculation step preserves, together with the
monotonicity facts freshness tracking needs. -/
structure Steps (s s2 : State) : Prop where
  dbEq : s2.databases = s.databases
  apSk : s2.activityParams.map apShape = s.activityParams.map apShape
  dbSk : s2.databaseParams.map dbShape = s.databaseParams.map dbShape
  ppSk : s2.projectParams.map ppShape = s.projectParams.map ppShape
  rows : ∀ n, (getGroup s n).isSome = true → (getGroup s2 n).isSome = true
  freshMono : ∀ n, freshG s n = true → freshG s2 n = true
  newFresh : ∀ n, getGroup s n = none → okB s2 n = true
  newEdge : ∀ e ∈ s2.deps, e ∈ s.deps ∨ okB s2 e.depends = true

theorem freshG_okB (s : State) (n : String) (h : freshG s n = true) : okB s n = true := by
  rw [freshG] at h
  rw [okB]
  rcases hg : getGroup s n with _ | r
  · rfl
  · rw [hg] at h
    exact h

theorem okB_and_row_fresh (s : State) (n : String) (h : okB s n = true)
    (hr : (getGroup s n).isSome = true) : freshG s n = true := by
  rw [okB] at h
  rw [freshG]
  rcases hg : getGroup s n with _ | r
  · rw [hg] at hr
    simp at hr
  · rw [hg] at h
    exact h

theorem okB_mono (s s2 : State) (hS : Steps s s2) (n : String) (h : okB s n = true) :
    okB s2 n = true := by
  rcases hg : getGroup s n with _ | r
  · exact hS.newFresh n hg
  · rw [okB, hg] at h
    have hfr : freshG s n = true := by
      rw [freshG, hg]
      exact h
    exact freshG_okB _ _ (hS.freshMono n hfr)

theorem steps_refl (s : State) : Steps s s :=
  ⟨rfl, rfl, rfl, rfl, fun _ h => h, fun _ h => h,
   fun n h => by rw [okB, h], fun e he => Or.inl he⟩

theorem steps_trans (s s2 s3 : State) (h1 : Steps s s2) (h2 : Steps s2 s3) : Steps s s3 := by
  refine ⟨h2.dbEq.trans h1.dbEq, h2.apSk.trans h1.apSk, h2.dbSk.trans h1.dbSk,
    h2.ppSk.trans h1.ppSk, fun n h => h2.rows n (h1.rows n h),
    fun n h => h2.freshMono n (h1.freshMono n h), ?_, ?_⟩
  · intro n h
    exact okB_mono s2 s3 h2 n (h1.newFresh n h)
  · intro e he
    rcases h2.newEdge e he with he2 | he2
    · rcases h1.newEdge e he2 with he1 | he1
      · exact Or.inl he1
      · exact Or.inr (okB_mono s2 s3 h2 _ he1)
    · exact Or.inr he2

/-! ### Quiet steps: amount and stamp writes only -/

/-- A storage step that touches only amounts, `updated` stamps, the clock,
external records and dirty flags: everything structural is unchanged. -/
structure Quiet (s s2 : State) : Prop where
  depsEq : s2.deps = s.deps
  dbEq : s2.databases = s.databases
  apSk : s2.activityParams.map apShape = s.activityParams.map apShape
  dbSk : s2.databaseParams.map dbShape = s.databaseParams.map dbShape
  ppSk : s2.projectParams.map ppShape = s.projectParams.map ppShape
  grSk : s2.groups.map grShape = s.groups.map grShape

theorem quiet_refl (s : State) : Quiet s s := ⟨rfl, rfl, rfl, rfl, rfl, rfl⟩

theorem quiet_trans (s s2 s3 : State) (h1 : Quiet s s2) (h2 : Quiet s2 s3) : Quiet s s3 :=
  ⟨h2.depsEq.trans h1.depsEq, h2.dbEq.trans h1.dbEq, h2.apSk.trans h1.apSk,
   h2.dbSk.trans h1.dbSk, h2.ppSk.trans h1.ppSk, h2.grSk.trans h1.grSk⟩

/-- `find?` by name through a row-shape-equal group list. -/
theorem getGroup_of_grSk (gs gs2 : List GroupRow)
    (h : gs2.map grShape = gs.map grShape) (n : String) :
    (gs2.find? (fun r => r.name == n)).map grShape
      = (gs.find? (fun r => r.name == n)).map grShape := by
  induction gs generalizing gs2 with
  | nil =>
    rcases gs2 with _ | ⟨a, t⟩
    · rfl
    · simp at h
  | cons a t ih =>
    rcases gs2 with _ | ⟨b, t2⟩
    · simp at h
    · simp only [List.map_cons, List.cons.injEq] at h
      obtain ⟨hab, ht⟩ := h
      have hname : b.name = a.name := by
        have h2 := congrArg GroupRow.name hab
        simpa [grShape] using h2
      simp only [List.find?_cons, hname]
      by_cases hn : (a.name == n) = true
      · simp only [hn]
        simpa using hab
      · simp only [Bool.not_eq_true] at hn
        simp only [hn]
        exact ih t2 ht

theorem quiet_getGroup (s s2 : State) (h : Quiet s s2) (n : String) :
    (getGroup s2 n).map grShape = (getGroup s n).map grShape :=
  getGroup_of_grSk s.groups s2.groups h.grSk n

theorem quiet_freshG (s s2 : State) (h : Quiet s s2) (n : String) :
    freshG s2 n = freshG s n := by
  have hg := quiet_getGroup s s2 h n
  rw [freshG, freshG]
  rcases h1 : getGroup s n with _ | r <;> rcases h2 : getGroup s2 n with _ | r2 <;>
    rw [h1, h2] at hg <;> simp at hg ⊢
  have h3 := congrArg GroupRow.fresh hg
  simpa [grShape] using h3

theorem quiet_okB (s s2 : State) (h : Quiet s s2) (n : String) : okB s2 n = okB s n := by
  have hg := quiet_getGroup s s2 h n
  rw [okB, okB]
  rcases h1 : getGroup s n with _ | r <;> rcases h2 : getGroup s2 n with _ | r2 <;>
    rw [h1, h2] at hg <;> simp at hg ⊢
  have h3 := congrArg GroupRow.fresh hg
  simpa [grShape] using h3

theorem quiet_isSome (s s2 : State) (h : Quiet s s2) (n : String) :
    (getGroup s2 n).isSome = (getGroup s n).isSome := by
  have hg := quiet_getGroup s s2 h n
  rcases h1 : getGroup s n with _ | r <;> rcases h2 : getGroup s2 n with _ | r2 <;>
    rw [h1, h2] at hg <;> simp at hg ⊢

theorem quiet_steps (s s2 : State) (h : Quiet s s2) : Steps s s2 := by
  refine ⟨h.dbEq, h.apSk, h.dbSk, h.ppSk, ?_, ?_, ?_, ?_⟩
  · intro n hn
    rw [quiet_isSome s s2 h]
    exact hn
  · intro n hn
    rw [quiet_freshG s s2 h]
    exact hn
  · intro n hn
    rw [quiet_okB s s2 h, okB, hn]
  · intro e he
    rw [h.depsEq] at he
    exact Or.inl he

/-! ### Stability of loads, names and needed symbols under shape equality -/

theorem apSk_load (s s2 : State)
    (h : s2.activityParams.map apShape = s.activityParams.map apShape) (g : String) :
    (apLoad s2 g).map apShape = (apLoad s g).map apShape := by
  have h2 := congrArg (List.filter (fun q : ActivityParamRow => q.group == g)) h
  rw [List.filter_map, List.filter_map] at h2
  exact h2

theorem dbSk_load (s s2 : State)
    (h : s2.databaseParams.map dbShape = s.databaseParams.map dbShape) (d : String) :
    (dbLoad s2 d).map dbShape = (dbLoad s d).map dbShape := by
  have h2 := congrArg (List.filter (fun q : DatabaseParamRow => q.database == d)) h
  rw [List.filter_map, List.filter_map] at h2
  exact h2

theorem apSk_load_ne (s s2 : State)
    (h : s2.activityParams.map apShape = s.activityParams.map apShape) (g : String) :
    (apLoad s2 g = []) ↔ (apLoad s g = []) := by
  have h2 := apSk_load s s2 h g
  constructor <;> intro hx
  · rw [hx] at h2
    exact List.map_eq_nil_iff.mp h2.symm
  · rw [hx] at h2
    exact List.map_eq_nil_iff.mp h2

theorem dbSk_load_ne (s s2 : State)
    (h : s2.databaseParams.map dbShape = s.databaseParams.map dbShape) (d : String) :
    (dbLoad s2 d = []) ↔ (dbLoad s d = []) := by
  have h2 := dbSk_load s s2 h d
  constructor <;> intro hx
  · rw [hx] at h2
    exact List.map_eq_nil_iff.mp h2.symm
  · rw [hx] at h2
    exact List.map_eq_nil_iff.mp h2

theorem apSk_needed0 (s s2 : State)
    (h : s2.activityParams.map apShape = s.activityParams.map apShape) (g : String) :
    needed0 s2 g = needed0 s g := by
  have hl := apSk_load s s2 h g
  have hf : (apLoad s2 g).map (fun p => p.formula) = (apLoad s g).map (fun p => p.formula) := by
    have h2 := congrArg (List.map (fun q : ActivityParamRow => q.formula)) hl
    rw [List.map_map, List.map_map] at h2
    exact h2
  have hn : (apLoad s2 g).map (fun p => p.name) = (apLoad s g).map (fun p => p.name) := by
    have h2 := congrArg (List.map (fun q : ActivityParamRow => q.name)) hl
    rw [List.map_map, List.map_map] at h2
    exact h2
  rw [needed0, needed0, apNames, apNames]
  rw [show (apLoad s2 g).map (·.formula) = (apLoad s2 g).map (fun p => p.formula) from rfl,
    show (apLoad s g).map (·.formula) = (apLoad s g).map (fun p => p.formula) from rfl, hf]
  rw [show (apLoad s2 g).map (·.name) = (apLoad s2 g).map (fun p => p.name) from rfl,
    show (apLoad s g).map (·.name) = (apLoad s g).map (fun p => p.name) from rfl, hn]

theorem apSk_names (s s2 : State)
    (h : s2.activityParams.map apShape = s.activityParams.map apShape) (g : String) :
    apNames s2 g = apNames s g := by
  have hl := apSk_load s s2 h g
  have h2 := congrArg (List.map (fun q : ActivityParamRow => q.name)) hl
  rw [List.map_map, List.map_map] at h2
  exact h2

theorem dbSk_names (s s2 : State)
    (h : s2.databaseParams.map dbShape = s.databaseParams.map dbShape) (d : String) :
    dbNames s2 d = dbNames s d := by
  have hl := dbSk_load s s2 h d
  have h2 := congrArg (List.map (fun q : DatabaseParamRow => q.name)) hl
  rw [List.map_map, List.map_map] at h2
  exact h2

theorem ppSk_names (s s2 : State)
    (h : s2.projectParams.map ppShape = s.projectParams.map ppShape) :
    projNames s2 = projNames s := by
  have h2 := congrArg (List.map (fun q : ProjectParamRow => q.name)) h
  rw [List.map_map, List.map_map] at h2
  exact h2

theorem ppSk_load_ne (s s2 : State)
    (h : s2.projectParams.map ppShape = s.projectParams.map ppShape) :
    (projLoad s2 = []) ↔ (projLoad s = []) := by
  constructor <;> intro hx
  · rw [projLoad] at hx ⊢
    rw [hx] at h
    exact List.map_eq_nil_iff.mp h.symm
  · rw [projLoad] at hx ⊢
    rw [hx] at h
    exact List.map_eq_nil_iff.mp h

theorem apSk_ownDb (s s2 : State)
    (h : s2.activityParams.map apShape = s.activityParams.map apShape) (g : String) :
    ownDb s2 g = ownDb s g := by
  have hl := apSk_load s s2 h g
  rw [ownDb, ownDb]
  rcases h1 : apLoad s g with _ | ⟨r, t⟩ <;> rcases h2 : apLoad s2 g with _ | ⟨r2, t2⟩ <;>
    rw [h1, h2] at hl <;> simp at hl ⊢
  have h3 := congrArg ActivityParamRow.database hl.1
  simpa [apShape] using h3

/-! ### The amount and stamp writers are quiet -/

theorem touchGroup_quiet (s : State) (m : String) : Quiet s (touchGroup s m) := by
  refine ⟨rfl, rfl, rfl, rfl, rfl, ?_⟩
  rw [touchGroup]
  simp only [List.map_map]
  have : grShape ∘ (fun r : GroupRow => if r.name == m then { r with updated := s.time } else r)
      = grShape := by
    funext r
    simp only [Function.comp]
    split <;> rfl
  rw [this]

theorem setProjAmounts_quiet (s : State) (f : ProjectParamRow → ProjectParamRow)
    (hf : ∀ p, ppShape (f p) = ppShape p) :
    Quiet s { s with projectParams := s.projectParams.map f } := by
  refine ⟨rfl, rfl, rfl, rfl, ?_, rfl⟩
  simp only [List.map_map]
  have : ppShape ∘ f = ppShape := by
    funext p
    exact hf p
  rw [this]

theorem writeProjAmounts_quiet (s : State) (amts : List (String × Option Int)) :
    Quiet s (writeProjAmounts s amts) := by
  induction amts generalizing s with
  | nil => exact quiet_refl s
  | cons kv rest ih =>
    rw [writeProjAmounts, List.foldl_cons]
    refine quiet_trans s _ _ ?_ (ih _)
    refine quiet_trans s _ _ ?_ (touchGroup_quiet _ "project")
    refine setProjAmounts_quiet s _ ?_
    intro p
    split <;> rfl

theorem writeDbAmounts_quiet (s : State) (d : String) (amts : List (String × Option Int)) :
    Quiet s (writeDbAmounts s d amts) := by
  induction amts generalizing s with
  | nil => exact quiet_refl s
  | cons kv rest ih =>
    rw [writeDbAmounts, List.foldl_cons]
    refine quiet_trans s _ _ ?_ (ih _)
    refine quiet_trans s _ _ ?_ (touchGroup_quiet _ d)
    refine ⟨rfl, rfl, rfl, ?_, rfl, rfl⟩
    simp only [List.map_map]
    have : dbShape ∘ (fun p : DatabaseParamRow =>
        if p.name == kv.1 && p.database == d then { p with amount := kv.2 } else p)
        = dbShape := by
      funext p
      simp only [Function.comp]
      split <;> rfl
    rw [this]

theorem writeApAmounts_quiet (s : State) (g : String) (amts : List (String × Option Int)) :
    Quiet s (writeApAmounts s g amts) := by
  induction amts generalizing s with
  | nil => exact quiet_refl s
  | cons kv rest ih =>
    rw [writeApAmounts, List.foldl_cons]
    refine quiet_trans s _ _ ?_ (ih _)
    refine quiet_trans s _ _ ?_ (touchGroup_quiet _ g)
    refine ⟨rfl, rfl, ?_, rfl, rfl, rfl⟩
    simp only [List.map_map]
    have : apShape ∘ (fun p : ActivityParamRow =>
        if p.name == kv.1 && p.group == g then { p with amount := kv.2 } else p)
        = apShape := by
      funext p
      simp only [Function.comp]
      split <;> rfl
    rw [this]

/-! ### Quiet steps preserve well-formedness and the rank hypothesis -/

theorem grSk_exists (s s2 : State) (h : s2.groups.map grShape = s.groups.map grShape)
    (r2 : GroupRow) (hr2 : r2 ∈ s2.groups) :
    ∃ r ∈ s.groups, r.name = r2.name ∧ r.order = r2.order := by
  have hm : grShape r2 ∈ s.groups.map grShape := by
    rw [← h]
    exact List.mem_map_of_mem grShape hr2
  rw [List.mem_map] at hm
  obtain ⟨r, hr, hsh⟩ := hm
  refine ⟨r, hr, ?_, ?_⟩
  · have := congrArg GroupRow.name hsh
    simpa [grShape] using this
  · have := congrArg GroupRow.order hsh
    simpa [grShape] using this

theorem apSk_exists (s s2 : State)
    (h : s2.activityParams.map apShape = s.activityParams.map apShape)
    (p2 : ActivityParamRow) (hp2 : p2 ∈ s2.activityParams) :
    ∃ p ∈ s.activityParams, p.database = p2.database ∧ p.group = p2.group := by
  have hm : apShape p2 ∈ s.activityParams.map apShape := by
    rw [← h]
    exact List.mem_map_of_mem apShape hp2
  rw [List.mem_map] at hm
  obtain ⟨p, hp, hsh⟩ := hm
  refine ⟨p, hp, ?_, ?_⟩
  · have := congrArg ActivityParamRow.database hsh
    simpa [apShape] using this
  · have := congrArg ActivityParamRow.group hsh
    simpa [apShape] using this

theorem quiet_WF (s s2 : State) (hq : Quiet s s2) (hwf : WF s) : WF s2 := by
  obtain ⟨w1, w2, w3, w4, w5, w6, w7, w8⟩ := hwf
  refine ⟨?_, ?_, ?_, ?_, ?_, ?_, ?_, ?_⟩
  · intro e he
    rw [hq.depsEq] at he
    exact w1 e he
  · intro e he
    rw [hq.depsEq] at he
    exact w2 e he
  · intro e he hdb
    rw [hq.depsEq] at he
    rw [hq.dbEq] at hdb
    exact w3 e he hdb
  · intro e he hdb
    rw [hq.depsEq] at he
    rw [hq.dbEq] at hdb
    obtain ⟨h1, h2⟩ := w4 e he hdb
    refine ⟨?_, ?_⟩
    · intro hx
      exact h1 ((apSk_load_ne s s2 hq.apSk e.group).mp hx)
    · rw [apSk_needed0 s s2 hq.apSk]
      exact h2
  · intro e he hfr
    rw [hq.depsEq] at he
    rw [quiet_freshG s s2 hq] at hfr
    rw [quiet_okB s s2 hq]
    exact w5 e he hfr
  · intro r2 hr2 x hx
    obtain ⟨r, hr, hn, ho⟩ := grSk_exists s s2 hq.grSk r2 hr2
    rw [← ho] at hx
    rw [hq.dbEq]
    exact w6 r hr x hx
  · intro p2 hp2
    obtain ⟨p, hp, hd, hg⟩ := apSk_exists s s2 hq.apSk p2 hp2
    obtain ⟨h1, h2⟩ := w7 p hp
    rw [hq.dbEq, ← hd, ← hg]
    exact ⟨h1, h2⟩
  · rw [projNotDb, hq.dbEq]
    exact w8

theorem quiet_RankOK (rank : String → Nat) (s s2 : State) (hq : Quiet s s2)
    (h : RankOK rank s) : RankOK rank s2 := by
  intro r2 hr2 x hx
  obtain ⟨r, hr, hn, ho⟩ := grSk_exists s s2 hq.grSk r2 hr2
  rw [← ho] at hx
  rw [← hn]
  exact h r hr x hx

/-! ### Effect of `saveGroup`, `get_or_create`, `expire_downstream` and the
dependency writes -/

theorem getGroup_saveGroup (s : State) (r : GroupRow) (n : String) :
    getGroup (saveGroup s r) n = (getGroup s n).map (fun gr =>
      if gr.name == r.name then { r with order := purgeOrder s r.order } else gr) := by
  rw [saveGroup, getGroup, getGroup]
  simp only
  rw [List.find?_map]
  have hp : ((fun gr : GroupRow => gr.name == n) ∘ (fun gr : GroupRow =>
      if gr.name == r.name then { r with order := purgeOrder s r.order } else gr))
      = fun gr : GroupRow => gr.name == n := by
    funext gr
    simp only [Function.comp]
    by_cases hg : gr.name == r.name
    · have : gr.name = r.name := by simpa using hg
      simp [hg, this]
    · simp [hg]
  rw [hp]

theorem freshG_saveGroup_other (s : State) (r : GroupRow) (n : String) (h : ¬(n = r.name)) :
    freshG (saveGroup s r) n = freshG s n := by
  rw [freshG, freshG, getGroup_saveGroup]
  rcases hg : getGroup s n with _ | row
  · rfl
  · have hname : row.name = n := by simpa using List.find?_some hg
    have hprop : ¬(row.name = r.name) := by
      rw [hname]
      exact h
    simp [hprop]

theorem okB_saveGroup_other (s : State) (r : GroupRow) (n : String) (h : ¬(n = r.name)) :
    okB (saveGroup s r) n = okB s n := by
  rw [okB, okB, getGroup_saveGroup]
  rcases hg : getGroup s n with _ | row
  · rfl
  · have hname : row.name = n := by simpa using List.find?_some hg
    have hprop : ¬(row.name = r.name) := by
      rw [hname]
      exact h
    simp [hprop]

theorem freshG_saveGroup_self (s : State) (r : GroupRow)
    (hrow : (getGroup s r.name).isSome = true) :
    freshG (saveGroup s r) r.name = r.fresh := by
  rw [freshG, getGroup_saveGroup]
  rcases hg : getGroup s r.name with _ | row
  · rw [hg] at hrow
    simp at hrow
  · have hname : row.name = r.name := by simpa using List.find?_some hg
    simp [hname]

theorem isSome_saveGroup (s : State) (r : GroupRow) (n : String) :
    (getGroup (saveGroup s r) n).isSome = (getGroup s n).isSome := by
  rw [getGroup_saveGroup]
  rcases hg : getGroup s n with _ | row <;> simp

theorem saveGroup_orderWf (s : State) (r : GroupRow) (hwf : orderWf s) :
    orderWf (saveGroup s r) := by
  intro r2 hr2 x hx
  rw [saveGroup] at hr2
  simp only [List.mem_map] at hr2
  obtain ⟨r0, hr0, hf⟩ := hr2
  show x ∉ s.databases ∧ x ≠ "project"
  by_cases hc : r0.name == r.name
  · rw [if_pos hc] at hf
    rw [← hf] at hx
    simp only [purgeOrder, List.mem_filter] at hx
    have := hx.2
    simp only [Bool.not_eq_true', Bool.or_eq_false_iff, decide_eq_false_iff_not] at this
    exact ⟨this.1, this.2⟩
  · rw [if_neg hc] at hf
    rw [← hf] at hx
    exact hwf r0 hr0 x hx

theorem saveGroup_RankOK (rank : String → Nat) (s : State) (r : GroupRow)
    (hrk : RankOK rank s) (hord : ∀ x ∈ r.order, rank x < rank r.name) :
    RankOK rank (saveGroup s r) := by
  intro r2 hr2 x hx
  rw [saveGroup] at hr2
  simp only [List.mem_map] at hr2
  obtain ⟨r0, hr0, hf⟩ := hr2
  by_cases hc : r0.name == r.name
  · rw [if_pos hc] at hf
    rw [← hf] at hx
    simp only [purgeOrder, List.mem_filter] at hx
    have h2 : rank x < rank r.name := hord x hx.1
    have h3 : r2.name = r.name := by rw [← hf]
    rw [h3]
    exact h2
  · rw [if_neg hc] at hf
    rw [← hf] at hx
    have h3 : r2.name = r0.name := by rw [← hf]
    rw [h3]
    exact hrk r0 hr0 x hx

theorem getOrCreate_found (s : State) (n : String) (r : GroupRow)
    (h : getGroup s n = some r) : getOrCreateGroup s n = (r, s) := by
  rw [getOrCreateGroup, h]

theorem getOrCreate_new_getGroup (s : State) (n : String) (h : getGroup s n = none)
    (m : String) :
    getGroup (getOrCreateGroup s n).2 m
      = if m = n
        then some { name := n, fresh := true, updated := s.time, order := [] }
        else getGroup s m := by
  simp only [getOrCreateGroup, h]
  simp only [getGroup, List.find?_append]
  by_cases hm : m = n
  · subst hm
    rw [getGroup] at h
    simp [h, List.find?]
  · rw [if_neg hm]
    rcases hg : s.groups.find? (fun r => r.name == m) with _ | row
    · have hnm : (n == m) = false := by
        simp only [beq_eq_false_iff_ne, ne_eq]
        exact fun hc => hm hc.symm
      simp [hg, List.find?, hnm]
    · simp [hg]

theorem expireDownstream_getGroup (s : State) (g n : String) :
    getGroup (expireDownstream s g) n = (getGroup s n).map (fun r =>
      if decide (∃ e ∈ s.deps, e.group = n ∧ e.depends = g) = true
      then { r with fresh := false } else r) := by
  rw [expireDownstream, getGroup, getGroup]
  simp only
  rw [List.find?_map]
  have hp : ((fun r : GroupRow => r.name == n) ∘ (fun r : GroupRow =>
      if decide (∃ e ∈ s.deps, e.group = r.name ∧ e.depends = g) = true then
        { r with fresh := false }
      else r)) = fun r : GroupRow => r.name == n := by
    funext r
    simp only [Function.comp]
    split <;> rfl
  rw [hp]
  rcases hg : s.groups.find? (fun r => r.name == n) with _ | row
  · rw [hg]
    rfl
  · rw [hg]
    have hname : row.name = n := by simpa using List.find?_some hg
    simp only [Option.map_some']
    rw [hname]

theorem freshG_expireDownstream (s : State) (g n : String) :
    freshG (expireDownstream s g) n
      = (freshG s n && !(decide (∃ e ∈ s.deps, e.group = n ∧ e.depends = g))) := by
  rw [freshG, freshG, expireDownstream_getGroup]
  rcases hg : getGroup s n with _ | row
  · rfl
  · by_cases hc : decide (∃ e ∈ s.deps, e.group = n ∧ e.depends = g) = true
    · simp [hc]
    · simp only [Bool.not_eq_true] at hc
      simp [hc]

theorem isSome_expireDownstream (s : State) (g n : String) :
    (getGroup (expireDownstream s g) n).isSome = (getGroup s n).isSome := by
  rw [expireDownstream_getGroup]
  rcases getGroup s n <;> simp

theorem expireDownstream_orderWf (s : State) (g : String) (hwf : orderWf s) :
    orderWf (expireDownstream s g) := by
  intro r2 hr2 x hx
  rw [expireDownstream] at hr2
  simp only [List.mem_map] at hr2
  obtain ⟨r0, hr0, hf⟩ := hr2
  show x ∉ s.databases ∧ x ≠ "project"
  have horder : r2.order = r0.order := by
    rw [← hf]
    split <;> rfl
  rw [horder] at hx
  exact hwf r0 hr0 x hx

theorem expireDownstream_RankOK (rank : String → Nat) (s : State) (g : String)
    (hrk : RankOK rank s) : RankOK rank (expireDownstream s g) := by
  intro r2 hr2 x hx
  rw [expireDownstream] at hr2
  simp only [List.mem_map] at hr2
  obtain ⟨r0, hr0, hf⟩ := hr2
  have horder : r2.order = r0.order := by
    rw [← hf]
    split <;> rfl
  have hname : r2.name = r0.name := by
    rw [← hf]
    split <;> rfl
  rw [horder] at hx
  rw [hname]
  exact hrk r0 hr0 x hx

theorem getOrCreateDepSave_ok (s : State) (g d : String) (s2 : State)
    (h : getOrCreateDepSave s g d = .ok s2) :
    (s2 = s ∧ (⟨g, d⟩ : DepRow) ∈ s.deps) ∨
    (s2 = { s with deps := s.deps ++ [⟨g, d⟩] } ∧ (⟨g, d⟩ : DepRow) ∉ s.deps ∧
      g ≠ "project" ∧ (g ∈ s.databases → d = "project") ∧ g ≠ d) := by
  rw [getOrCreateDepSave] at h
  split_ifs at h with h1 h2 h3 h4 h5
  · left
    simp only [Except.ok.injEq] at h
    exact ⟨h.symm, by simpa using h1⟩
  · right
    simp only [Except.ok.injEq] at h
    refine ⟨h.symm, by simpa using h1, by simpa using h2, ?_, by simpa using h4⟩
    intro hdb
    by_contra hne
    apply h3
    simp only [Bool.and_eq_true, decide_eq_true_eq]
    exact ⟨hdb, by simpa using hne⟩

theorem okB_eq (s : State) (n : String) :
    okB s n = (!(getGroup s n).isSome || freshG s n) := by
  rcases hg : getGroup s n with _ | r <;> simp [okB, freshG, hg]

/-- After a successful recalculation the scope's group is fresh or its
parameter set is empty (by-name view). -/
def projDone (s : State) : Prop :=
  (getGroup s "project").isSome = true → (freshG s "project" = true ∨ projLoad s = [])

def dbDone (s : State) (d : String) : Prop :=
  (getGroup s d).isSome = true → (freshG s d = true ∨ dbLoad s d = [])

theorem projDone_mono (s s2 : State) (hS : Steps s s2) (h : projDone s) : projDone s2 := by
  intro hr
  rcases hg : getGroup s "project" with _ | r
  · left
    exact okB_and_row_fresh s2 _ (hS.newFresh _ hg) hr
  · rcases h (by rw [hg]; rfl) with hf | he
    · exact Or.inl (hS.freshMono _ hf)
    · right
      exact (ppSk_load_ne s s2 hS.ppSk).mpr he

theorem dbDone_mono (s s2 : State) (d : String) (hS : Steps s s2) (h : dbDone s d) :
    dbDone s2 d := by
  intro hr
  rcases hg : getGroup s d with _ | r
  · left
    exact okB_and_row_fresh s2 _ (hS.newFresh _ hg) hr
  · rcases h (by rw [hg]; rfl) with hf | he
    · exact Or.inl (hS.freshMono _ hf)
    · right
      exact (dbSk_load_ne s s2 hS.dbSk d).mpr he

theorem notExpired_projDone (s : State) (h : projectExpired s = false) : projDone s := by
  intro hr
  left
  rw [projectExpired] at h
  rw [freshG]
  rcases hg : getGroup s "project" with _ | r
  · rw [hg] at hr
    simp at hr
  · rw [hg] at h
    simpa using h

theorem notExpired_dbDone (s : State) (d : String) (h : dbExpired s d = false) :
    dbDone s d := by
  intro hr
  left
  rw [dbExpired] at h
  rw [freshG]
  rcases hg : getGroup s d with _ | r
  · rw [hg] at hr
    simp at hr
  · rw [hg] at h
    simpa using h

/-- The freshen-then-expire tail every recalculation ends with: given a
stale group `m` whose outgoing edges all point at absent-or-fresh groups,
`Group.get(m).freshen()` followed by `expire_downstream(m)` freshens `m`,
leaves every other group's freshness unchanged (the one-hop expiry only
flips groups that were already stale, by the `inv2` invariant), and
preserves the invariants and the frame. -/
theorem freshenExpire (rank : String → Nat) (t : State) (m : String) (row' : GroupRow)
    (hrow : getGroup t m = some row')
    (hstale : freshG t m = false)
    (hwf : WF t) (hrk : RankOK rank t)
    (hB : ∀ e ∈ t.deps, e.group = m → okB t e.depends = true) :
    ∀ u, u = expireDownstream (saveGroup t { row' with fresh := true }) m →
    WF u ∧ RankOK rank u ∧ Steps t u ∧ freshG u m = true ∧
    (∀ n, n ≠ m → freshG u n = freshG t n) ∧
    (∀ n, (getGroup u n).isSome = (getGroup t n).isSome) ∧
    u.deps = t.deps ∧ u.databases = t.databases ∧
    u.projectParams = t.projectParams ∧ u.databaseParams = t.databaseParams ∧
    u.activityParams = t.activityParams := by
  intro u hu
  obtain ⟨w1, w2, w3, w4, w5, w6, w7, w8⟩ := hwf
  have hname : row'.name = m := by simpa using List.find?_some hrow
  have hrname : ({ row' with fresh := true } : GroupRow).name = m := hname
  have hrorder : ({ row' with fresh := true } : GroupRow).order = row'.order := rfl
  set r := ({ row' with fresh := true } : GroupRow) with hr
  set sF := saveGroup t r with hsF
  -- freshness after the save
  have hFm : freshG sF m = true := by
    rw [← hrname]
    rw [hsF]
    rw [freshG_saveGroup_self t r (by rw [hrname, hrow]; rfl)]
  have hFother : ∀ n, n ≠ m → freshG sF n = freshG t n := by
    intro n hn
    rw [hsF, freshG_saveGroup_other t r n (by rw [hrname]; exact hn)]
  have hFsome : ∀ n, (getGroup sF n).isSome = (getGroup t n).isSome := by
    intro n
    rw [hsF, isSome_saveGroup]
  have hFdeps : sF.deps = t.deps := rfl
  -- the expire step only touches groups that were already stale
  have hExp : ∀ n, freshG u n = freshG sF n := by
    intro n
    rw [hu, freshG_expireDownstream]
    by_cases hc : decide (∃ e ∈ sF.deps, e.group = n ∧ e.depends = m) = true
    · rw [hc]
      simp only [Bool.not_true, Bool.and_false]
      rw [decide_eq_true_eq] at hc
      obtain ⟨e, he, hg2, hd2⟩ := hc
      rw [hFdeps] at he
      have hnm : n ≠ m := by
        intro hc2
        exact w1 e he (by rw [hg2, hd2, hc2])
      rw [hFother n hnm]
      by_cases hfr : freshG t n = true
      · exfalso
        have := w5 e he (by rw [hg2]; exact hfr)
        rw [okB_eq, hd2] at this
        rw [freshG] at this
        rw [hrow] at this
        simp only [Option.isSome_some, Bool.not_true, Bool.false_or] at this
        rw [freshG] at hstale
        rw [hrow] at hstale
        simp only at hstale
        rw [hstale] at this
        exact Bool.noConfusion this
      · simp only [Bool.not_eq_true] at hfr
        exact hfr.symm
    · simp only [Bool.not_eq_true] at hc
      rw [hc]
      simp
  have hUsome : ∀ n, (getGroup u n).isSome = (getGroup t n).isSome := by
    intro n
    rw [hu, isSome_expireDownstream, hFsome]
  have hUm : freshG u m = true := by
    rw [hExp]
    exact hFm
  have hUother : ∀ n, n ≠ m → freshG u n = freshG t n := by
    intro n hn
    rw [hExp]
    exact hFother n hn
  have hUdeps : u.deps = t.deps := by rw [hu]; rfl
  have hUdb : u.databases = t.databases := by rw [hu]; rfl
  have hUpp : u.projectParams = t.projectParams := by rw [hu]; rfl
  have hUdp : u.databaseParams = t.databaseParams := by rw [hu]; rfl
  have hUap : u.activityParams = t.activityParams := by rw [hu]; rfl
  have hUokB : ∀ n, okB u n = (if n = m then true else okB t n) := by
    intro n
    by_cases hn : n = m
    · subst hn
      rw [if_pos rfl, okB_eq, hUm]
      simp
    · rw [if_neg hn, okB_eq, okB_eq, hUsome, hUother n hn]
  -- the conclusions
  have hSteps : Steps t u := by
    refine ⟨hUdb, by rw [hUap], by rw [hUdp], by rw [hUpp], ?_, ?_, ?_, ?_⟩
    · intro n hn
      rw [hUsome]
      exact hn
    · intro n hn
      by_cases hnm : n = m
      · subst hnm
        exact hUm
      · rw [hUother n hnm]
        exact hn
    · intro n hn
      rw [hUokB]
      split_ifs with hnm
      · rfl
      · rw [okB_eq, hn]
        rfl
    · intro e he
      rw [hUdeps] at he
      exact Or.inl he
  refine ⟨?_, ?_, hSteps, hUm, hUother, hUsome, hUdeps, hUdb, hUpp, hUdp, hUap⟩
  · -- WF u
    refine ⟨?_, ?_, ?_, ?_, ?_, ?_, ?_, ?_⟩
    · intro e he
      rw [hUdeps] at he
      exact w1 e he
    · intro e he
      rw [hUdeps] at he
      exact w2 e he
    · intro e he hdb
      rw [hUdeps] at he
      rw [hUdb] at hdb
      exact w3 e he hdb
    · intro e he hdb
      rw [hUdeps] at he
      rw [hUdb] at hdb
      obtain ⟨h1, h2⟩ := w4 e he hdb
      constructor
      · intro hx
        apply h1
        rw [apLoad] at hx ⊢
        rw [← hUap]
        exact hx
      · rw [show needed0 u e.group = needed0 t e.group from by
          rw [needed0, needed0, apNames, apNames, apLoad, apLoad, hUap]]
        exact h2
    · intro e he hfr
      rw [hUdeps] at he
      rw [hUokB]
      split_ifs with hdm
      · rfl
      · by_cases hgm : e.group = m
        · exact hB e he hgm
        · exact w5 e he (by rw [← hUother e.group hgm]; exact hfr)
    · -- orderWf
      rw [hu, hsF]
      exact expireDownstream_orderWf _ m (saveGroup_orderWf t r w6)
    · intro p hp
      rw [hUap] at hp
      rw [hUdb]
      exact w7 p hp
    · rw [projNotDb, hUdb]
      exact w8
  · rw [hu, hsF]
    refine expireDownstream_RankOK rank _ m (saveGroup_RankOK rank t r hrk ?_)
    intro x hx
    rw [hrname]
    rw [hrorder] at hx
    have hrowmem : row' ∈ t.groups := by
      rw [getGroup] at hrow
      exact List.mem_of_find?_eq_some hrow
    have := hrk row' hrowmem x hx
    rw [hname] at this
    exact this

theorem insertDeps_ok_ne (g : String) (targets : List String) (s s2 : State)
    (h : insertDeps s g targets = .ok s2) : ∀ c ∈ targets, g ≠ c := by
  induction targets generalizing s with
  | nil => simp
  | cons c rest ih =>
    rw [insertDeps, List.foldlM_cons] at h
    split_ifs at h with h1 h2 h3
    · exact absurd h (by simp)
    · exact absurd h (by simp)
    · exact absurd h (by simp)
    · rw [res_bind_ok] at h
      intro x hx
      rcases List.mem_cons.mp hx with hx | hx
      · rw [hx]
        simpa using h1
      · exact ih _ h x hx

/-! ### Small reduction helpers -/

@[simp] theorem res_pure (a : State) : (pure a : Res) = Except.ok a := rfl

theorem if_bool_true {α : Type} (b : Bool) (h : b = true) (a c : α) :
    (if b = true then a else c) = a := by
  rw [h]
  exact if_pos rfl

theorem if_bool_false {α : Type} (b : Bool) (h : b = false) (a c : α) :
    (if b = true then a else c) = c := by
  rw [h]
  exact if_neg (by simp)

theorem projectExpired_row (s : State) (h : projectExpired s = true) :
    ∃ r, getGroup s "project" = some r ∧ r.fresh = false := by
  rw [projectExpired] at h
  rcases hg : getGroup s "project" with _ | r
  · rw [hg] at h
    exact absurd h (by simp)
  · rw [hg] at h
    exact ⟨r, rfl, by simpa using h⟩

theorem dbExpired_row (s : State) (d : String) (h : dbExpired s d = true) :
    ∃ r, getGroup s d = some r ∧ r.fresh = false := by
  rw [dbExpired] at h
  rcases hg : getGroup s d with _ | r
  · rw [hg] at h
    exact absurd h (by simp)
  · rw [hg] at h
    exact ⟨r, rfl, by simpa using h⟩

theorem activityExpired_row (s : State) (g : String) (h : activityExpired s g = true) :
    ∃ r, getGroup s g = some r ∧ r.fresh = false := by
  rw [activityExpired] at h
  rcases hg : getGroup s g with _ | r
  · rw [hg] at h
    exact absurd h (by simp)
  · rw [hg] at h
    exact ⟨r, rfl, by simpa using h⟩

theorem okB_of_not_expired (s : State) (g : String) (h : activityExpired s g = false) :
    okB s g = true := by
  rw [activityExpired] at h
  rw [okB]
  rcases hg : getGroup s g with _ | r
  · rfl
  · rw [hg] at h
    simpa using h

/-! ### Generic facts about `foldlM` runs over `Res` -/

/-- A reflexive-transitive relation preserved by every successful step is
preserved by a successful fold. -/
theorem foldlM_pres {α : Type} (step : State → α → Res) (P : State → State → Prop)
    (hrefl : ∀ a, P a a) (htrans : ∀ a b c, P a b → P b c → P a c)
    (hstep : ∀ a x b, step a x = .ok b → P a b) :
    ∀ (l : List α) (a b : State), l.foldlM step a = .ok b → P a b := by
  intro l
  induction l with
  | nil =>
    intro a b h
    rw [List.foldlM_nil, res_pure] at h
    injection h with h
    rw [h]
    exact hrefl b
  | cons x xs ih =>
    intro a b h
    rw [List.foldlM_cons] at h
    rcases hx : step a x with e | a1 <;> rw [hx] at h
    · rw [res_bind_error] at h
      exact absurd h (by simp)
    · rw [res_bind_ok] at h
      exact htrans a a1 b (hstep a x a1 hx) (ih a1 b h)

/-- The workhorse for the recalculation phases: an invariant carried by
every successful step, together with a `Steps`-monotone per-element
postcondition, survives a successful fold. -/
theorem foldlM_invariant {α : Type} (step : State → α → Res) (Inv : State → Prop)
    (Q : α → State → Prop)
    (hmono : ∀ x s1 s2, Steps s1 s2 → Q x s1 → Q x s2) :
    ∀ (l : List α) (s s' : State), Inv s →
    (∀ x ∈ l, ∀ s1 s2, Inv s1 → step s1 x = .ok s2 → Inv s2 ∧ Steps s1 s2 ∧ Q x s2) →
    l.foldlM step s = .ok s' →
    Inv s' ∧ Steps s s' ∧ (∀ x ∈ l, Q x s') := by
  intro l
  induction l with
  | nil =>
    intro s s' hI _ h
    rw [List.foldlM_nil, res_pure] at h
    injection h with h
    subst h
    exact ⟨hI, steps_refl s, by simp⟩
  | cons x xs ih =>
    intro s s' hI hstep h
    rw [List.foldlM_cons] at h
    rcases hx : step s x with e | s1 <;> rw [hx] at h
    · rw [res_bind_error] at h
      exact absurd h (by simp)
    · rw [res_bind_ok] at h
      obtain ⟨hI1, hS1, hQ1⟩ := hstep x (List.mem_cons_self x xs) s s1 hI hx
      obtain ⟨hI2, hS2, hQ2⟩ := ih s1 s' hI1
        (fun y hy => hstep y (List.mem_cons_of_mem x hy)) h
      refine ⟨hI2, steps_trans s s1 s' hS1 hS2, ?_⟩
      intro y hy
      rcases List.mem_cons.mp hy with hy | hy
      · subst hy
        exact hmono y s1 s' hS2 hQ1
      · exact hQ2 y hy

/-! ### Transport along plain field equalities -/

theorem getGroup_eq_of_groups_eq (u v : State) (hg : v.groups = u.groups) (n : String) :
    getGroup v n = getGroup u n := by
  rw [getGroup, getGroup, hg]

theorem freshG_eq_of_groups_eq (u v : State) (hg : v.groups = u.groups) (n : String) :
    freshG v n = freshG u n := by
  rw [freshG, freshG, getGroup_eq_of_groups_eq u v hg]

theorem okB_eq_of_groups_eq (u v : State) (hg : v.groups = u.groups) (n : String) :
    okB v n = okB u n := by
  rw [okB, okB, getGroup_eq_of_groups_eq u v hg]

theorem WF_fields (u v : State) (hg : v.groups = u.groups) (hd : v.deps = u.deps)
    (hdb : v.databases = u.databases) (hap : v.activityParams = u.activityParams)
    (hwf : WF u) : WF v := by
  obtain ⟨w1, w2, w3, w4, w5, w6, w7, w8⟩ := hwf
  have hap2 : ∀ g, apLoad v g = apLoad u g := fun g => by rw [apLoad, apLoad, hap]
  have hneed : ∀ g, needed0 v g = needed0 u g := fun g => by
    rw [needed0, needed0, apNames, apNames, hap2]
  refine ⟨?_, ?_, ?_, ?_, ?_, ?_, ?_, ?_⟩
  · intro e he
    exact w1 e (hd ▸ he)
  · intro e he
    exact w2 e (hd ▸ he)
  · intro e he hm
    rw [hdb] at hm
    exact w3 e (hd ▸ he) hm
  · intro e he hm
    rw [hdb] at hm
    rw [hap2, hneed]
    exact w4 e (hd ▸ he) hm
  · intro e he hf
    rw [okB_eq_of_groups_eq u v hg]
    exact w5 e (hd ▸ he) (by rw [← freshG_eq_of_groups_eq u v hg]; exact hf)
  · intro r hr x hx
    rw [hg] at hr
    rw [hdb]
    exact w6 r hr x hx
  · intro p hp
    rw [hap] at hp
    rw [hdb]
    exact w7 p hp
  · rw [projNotDb, hdb]
    exact w8

theorem RankOK_fields (rank : String → Nat) (u v : State) (hg : v.groups = u.groups)
    (hrk : RankOK rank u) : RankOK rank v := by
  intro r hr
  rw [hg] at hr
  exact hrk r hr

theorem Steps_fields (u v : State) (hg : v.groups = u.groups) (hd : v.deps = u.deps)
    (hdb : v.databases = u.databases) (hap : v.activityParams = u.activityParams)
    (hdp : v.databaseParams = u.databaseParams) (hpp : v.projectParams = u.projectParams) :
    Steps u v := by
  refine ⟨hdb, by rw [hap], by rw [hdp], by rw [hpp], ?_, ?_, ?_, ?_⟩
  · intro n hn
    rw [getGroup_eq_of_groups_eq u v hg]
    exact hn
  · intro n hn
    rw [freshG_eq_of_groups_eq u v hg]
    exact hn
  · intro n hn
    rw [okB_eq_of_groups_eq u v hg, okB, hn]
  · intro e he
    rw [hd] at he
    exact Or.inl he

theorem WF_filter_deps (s : State) (p : DepRow → Bool) (hwf : WF s) :
    WF { s with deps := s.deps.filter p } := by
  obtain ⟨w1, w2, w3, w4, w5, w6, w7, w8⟩ := hwf
  refine ⟨?_, ?_, ?_, ?_, ?_, w6, w7, w8⟩
  · intro e he
    exact w1 e (List.mem_of_mem_filter he)
  · intro e he
    exact w2 e (List.mem_of_mem_filter he)
  · intro e he
    exact w3 e (List.mem_of_mem_filter he)
  · intro e he
    exact w4 e (List.mem_of_mem_filter he)
  · intro e he
    exact w5 e (List.mem_of_mem_filter he)

theorem Steps_filter_deps (s : State) (p : DepRow → Bool) :
    Steps s { s with deps := s.deps.filter p } := by
  refine ⟨rfl, rfl, rfl, rfl, fun n hn => hn, fun n hn => hn, ?_, ?_⟩
  · intro n hn
    show okB s n = true
    rw [okB, hn]
  · intro e he
    exact Or.inl (List.mem_of_mem_filter he)

/-! ### The frame of `recalculate_exchanges`: exchanges and dirty flags only -/

theorem pe_fold_frame (g : String) (env : List (String × Int)) :
    ∀ (l : List PERow) (a b : State),
    l.foldlM (fun (s : State) (pe : PERow) =>
      (match s.exchanges.find? (fun e => e.id == pe.exchange) with
      | none => .error (.doesNotExist, s)
      | some _ =>
        .ok { s with exchanges := s.exchanges.map (fun e =>
          if e.id == pe.exchange then { e with amount := pe.formula.evalWith env } else e) } : Res)) a
      = .ok b →
    b.groups = a.groups ∧ b.deps = a.deps ∧ b.databases = a.databases ∧
    b.projectParams = a.projectParams ∧ b.databaseParams = a.databaseParams ∧
    b.activityParams = a.activityParams := by
  intro l
  induction l with
  | nil =>
    intro a b h
    rw [List.foldlM_nil, res_pure] at h
    injection h with h
    rw [h]
    exact ⟨rfl, rfl, rfl, rfl, rfl, rfl⟩
  | cons x xs ih =>
    intro a b h
    rw [List.foldlM_cons] at h
    rcases hfind : a.exchanges.find? (fun e => e.id == x.exchange) with _ | ex
    · simp only [hfind, res_bind_error] at h
      exact absurd h (by simp)
    · simp only [hfind, res_bind_ok] at h
      obtain ⟨a1, a2, a3, a4, a5, a6⟩ := ih _ _ h
      exact ⟨a1, a2, a3, a4, a5, a6⟩

theorem recalcExchanges_frame (s : State) (g : String) (s' : State)
    (h : recalcExchanges s g = .ok s') :
    s'.groups = s.groups ∧ s'.deps = s.deps ∧ s'.databases = s.databases ∧
    s'.projectParams = s.projectParams ∧ s'.databaseParams = s.databaseParams ∧
    s'.activityParams = s.activityParams := by
  simp only [recalcExchanges] at h
  split at h
  · exact absurd h (by simp)
  · split at h
    · exact absurd h (by simp)
    · rename_i s3 hfold
      split at h
      · exact absurd h (by simp)
      · simp only [Except.ok.injEq] at h
        subst h
        obtain ⟨a1, a2, a3, a4, a5, a6⟩ := pe_fold_frame g _ _ s s3 hfold
        exact ⟨a1, a2, a3, a4, a5, a6⟩

/-! ### Per-entry facts about a successful dependency chain -/

theorem chainOf_ne_nil_of_all_resolved (s : State) (scopes : List (Kind × String))
    (n : List String) (hne : n ≠ [])
    (hempty : neededAfter s scopes n = []) : chainOf s scopes n ≠ [] := by
  obtain ⟨x, hx⟩ := List.exists_mem_of_ne_nil n hne
  rcases hf : firstHit s scopes x with _ | σ
  · exfalso
    have hmem : x ∈ neededAfter s scopes n := by
      rw [mem_neededAfter]
      refine ⟨hx, ?_⟩
      intro σ hσ
      rw [firstHit] at hf
      have := List.find?_eq_none.mp hf σ hσ
      simpa using this
    rw [hempty] at hmem
    simp at hmem
  · obtain ⟨e, he, _, _⟩ := chainOf_complete s scopes n x hx σ hf
    intro hc
    rw [hc] at he
    simp at he

theorem dependencyChain_ok_nil_sources (s : State) (g : String) (row : GroupRow)
    (hrow : getGroup s g = some row)
    (h : dependencyChain s g = .ok []) : apLoad s g = [] ∨ needed0 s g = [] := by
  by_cases hd : apLoad s g = []
  · exact Or.inl hd
  · by_cases hn : needed0 s g = []
    · exact Or.inr hn
    · exfalso
      rw [dependencyChain_eq s g row (isEmpty_false_of_ne_nil hd)
        (isEmpty_false_of_ne_nil hn) hrow] at h
      by_cases hna : (neededAfter s (allScopes row (ownDb s g)) (needed0 s g)).isEmpty = true
      · rw [if_pos hna] at h
        injection h with h
        exact chainOf_ne_nil_of_all_resolved s _ _ hn (List.isEmpty_iff.mp hna) h
      · rw [if_neg hna] at h
        exact absurd h (by simp)

theorem dependencyChain_ok_spec (s : State) (g : String) (row : GroupRow)
    (chain : List ChainEntry) (hrow : getGroup s g = some row)
    (h : dependencyChain s g = .ok chain) (hne : chain ≠ []) :
    ∀ e ∈ chain, ((e.kind, e.group) ∈ allScopes row (ownDb s g)) ∧
      scopeNames s (e.kind, e.group) ≠ [] := by
  obtain ⟨hd, hn⟩ := chain_ne_nil_sources s g chain h hne
  rw [dependencyChain_eq s g row hd hn hrow] at h
  by_cases hna : (neededAfter s (allScopes row (ownDb s g)) (needed0 s g)).isEmpty = true
  · rw [if_pos hna] at h
    injection h with h
    subst h
    intro e he
    refine ⟨?_, ?_⟩
    · have hsub := chainOf_sublist s (allScopes row (ownDb s g)) (needed0 s g)
      exact hsub.subset (List.mem_map_of_mem _ he)
    · obtain ⟨x, hx⟩ := List.exists_mem_of_ne_nil _ (chainOf_names_nonempty s _ _ e he)
      have h2 := (chainOf_names s _ _ e he x).mp hx
      have h3 := List.find?_some h2.2
      simp only [decide_eq_true_eq] at h3
      intro hc
      rw [hc] at h3
      simp at h3
  · rw [if_neg hna] at h
    exact absurd h (by simp)

theorem allScopes_cases (row : GroupRow) (d : String) (k : Kind) (grp : String)
    (h : (k, grp) ∈ allScopes row d) :
    (k = Kind.activity ∧ grp ∈ row.order) ∨ (k, grp) = (Kind.database, d) ∨
      (k, grp) = (Kind.project, "project") := by
  rw [allScopes] at h
  rcases List.mem_append.mp h with h | h
  · obtain ⟨x, hx, hfx⟩ := List.mem_map.mp h
    simp only [Prod.mk.injEq] at hfx
    exact Or.inl ⟨hfx.1.symm, hfx.2 ▸ hx⟩
  · simp only [List.mem_cons, List.not_mem_nil, or_false] at h
    rcases h with h | h
    · exact Or.inr (Or.inl h)
    · exact Or.inr (Or.inr h)

theorem ownDb_mem (s : State) (g : String) (hwf7 : apWf s) (hne : apLoad s g ≠ []) :
    ownDb s g ∈ s.databases := by
  rcases hl : apLoad s g with _ | ⟨r, t⟩
  · exact absurd hl hne
  · simp only [ownDb, hl]
    have hr : r ∈ apLoad s g := by
      rw [hl]
      exact List.mem_cons_self r t
    have hr2 : r ∈ s.activityParams := List.mem_of_mem_filter hr
    exact (hwf7 r hr2).1

theorem apNames_ne_nil (s : State) (g : String) (h : apNames s g ≠ []) :
    apLoad s g ≠ [] := by
  intro hc
  apply h
  rw [apNames, hc]
  rfl

theorem dbNames_ne_nil (s : State) (d : String) (h : dbNames s d ≠ []) :
    dbLoad s d ≠ [] := by
  intro hc
  apply h
  rw [dbNames, hc]
  rfl

theorem projNames_ne_nil (s : State) (h : projNames s ≠ []) :
    projLoad s ≠ [] := by
  intro hc
  apply h
  rw [projNames]
  rw [projLoad] at hc
  rw [hc]
  rfl

/-! ### Scope completion: what each kind of chain entry guarantees -/

def entryDone (s : State) (e : ChainEntry) : Prop :=
  match e.kind with
  | .project => projDone s
  | .database => dbDone s e.group
  | .activity => okB s e.group = true

theorem entryDone_mono (e : ChainEntry) (s s2 : State) (hS : Steps s s2)
    (h : entryDone s e) : entryDone s2 e := by
  rcases e with ⟨k, grp, nms⟩
  rcases k
  · exact projDone_mono s s2 hS h
  · exact dbDone_mono s s2 grp hS h
  · exact okB_mono s s2 hS grp h

/-! ### `ProjectParameter.recalculate` preserves the invariants -/

/-- A successful `ProjectParameter.recalculate()` on a well-formed state:
invariants are preserved, the change is a tracked step, afterwards the
project scope is fresh or empty, and no group other than `project` changes
its freshness. -/
theorem recalcProject_ok (rank : String → Nat) (s s' : State)
    (hwf : WF s) (hrk : RankOK rank s)
    (h : recalcProject s = .ok s') :
    WF s' ∧ RankOK rank s' ∧ Steps s s' ∧ projDone s' ∧
    (∀ n, freshG s' n = true → freshG s n = true ∨ n = "project") := by
  simp only [recalcProject] at h
  by_cases hexp : projectExpired s = true
  · rw [if_bool_false _ (by rw [hexp]; rfl)] at h
    by_cases hload : (projLoad s).isEmpty = true
    · rw [if_pos hload] at h
      injection h with h
      subst h
      refine ⟨hwf, hrk, steps_refl s, ?_, fun n hf => Or.inl hf⟩
      intro _
      right
      exact List.isEmpty_iff.mp hload
    · rw [if_neg hload] at h
      split at h
      · exact absurd h (by simp)
      · rename_i amts hps
        simp only [Except.ok.injEq] at h
        obtain ⟨r0, hr0, hr0f⟩ := projectExpired_row s hexp
        set sW := writeProjAmounts s amts with hsW
        have hq : Quiet s sW := by
          rw [hsW]
          exact writeProjAmounts_quiet s amts
        have hsome : (getGroup sW "project").isSome = true := by
          rw [quiet_isSome s sW hq, hr0]
          rfl
        rcases hrw : getGroup sW "project" with _ | row'
        · rw [hrw] at hsome
          exact absurd hsome (by simp)
        · have hgc : getOrCreateGroup sW "project" = (row', sW) :=
            getOrCreate_found sW _ row' hrw
          rw [hgc] at h
          have hstaleW : freshG sW "project" = false := by
            rw [quiet_freshG s sW hq, freshG, hr0]
            exact hr0f
          have hwfW : WF sW := quiet_WF s sW hq hwf
          have hrkW : RankOK rank sW := quiet_RankOK rank s sW hq hrk
          have hB : ∀ e ∈ sW.deps, e.group = "project" → okB sW e.depends = true := by
            intro e he hg2
            exact absurd hg2 (hwfW.2.1 e he)
          obtain ⟨hWFu, hRKu, hSt, hUm, hUoth, _, _, _, _, _, _⟩ :=
            freshenExpire rank sW "project" row' hrw hstaleW hwfW hrkW hB s' h.symm
          refine ⟨hWFu, hRKu, steps_trans s sW s' (quiet_steps s sW hq) hSt, ?_, ?_⟩
          · intro _
            left
            exact hUm
          · intro n hf
            by_cases hn : n = "project"
            · exact Or.inr hn
            · left
              rw [← quiet_freshG s sW hq n, ← hUoth n hn]
              exact hf
  · rw [Bool.not_eq_true] at hexp
    rw [if_bool_true _ (by rw [hexp]; rfl)] at h
    injection h with h
    subst h
    exact ⟨hwf, hrk, steps_refl s, notExpired_projDone s hexp, fun n hf => Or.inl hf⟩

/-! ### `DatabaseParameter.recalculate` preserves the invariants -/

/-- The evaluate-write-freshen-expire tail shared by the database
recalculation paths. -/
theorem recalcDatabase_tail (rank : String → Nat) (d : String) (s2 s' : State)
    (rows : List (String × Option Expr × Option Int)) (glo : List (String × Option Int))
    (hwf2 : WF s2) (hrk2 : RankOK rank s2)
    (hst2 : freshG s2 d = false)
    (hB2 : ∀ e ∈ s2.deps, e.group = d → okB s2 e.depends = true)
    (h : (match psEval rows glo with
          | .error e => (.error (e, s2) : Res)
          | .ok amts =>
            match getGroup (writeDbAmounts s2 d amts) d with
            | none => (.error (.doesNotExist, writeDbAmounts s2 d amts) : Res)
            | some r =>
              .ok (expireDownstream
                (saveGroup (writeDbAmounts s2 d amts) { r with fresh := true }) d)) = .ok s') :
    WF s' ∧ RankOK rank s' ∧ Steps s2 s' ∧ freshG s' d = true ∧
    (∀ n, n ≠ d → freshG s' n = freshG s2 n) := by
  split at h
  · exact absurd h (by simp)
  · rename_i amts hps
    have hqW : Quiet s2 (writeDbAmounts s2 d amts) := writeDbAmounts_quiet s2 d amts
    split at h
    · exact absurd h (by simp)
    · rename_i r hgr
      simp only [Except.ok.injEq] at h
      have hwfW := quiet_WF _ _ hqW hwf2
      have hrkW := quiet_RankOK rank _ _ hqW hrk2
      have hstW : freshG (writeDbAmounts s2 d amts) d = false := by
        rw [quiet_freshG _ _ hqW]
        exact hst2
      have hBW : ∀ e ∈ (writeDbAmounts s2 d amts).deps, e.group = d →
          okB (writeDbAmounts s2 d amts) e.depends = true := by
        intro e he hgd
        rw [hqW.depsEq] at he
        rw [quiet_okB _ _ hqW]
        exact hB2 e he hgd
      obtain ⟨hwfU, hrkU, hSU, hfrU, hothU, _, _, _, _, _, _⟩ :=
        freshenExpire rank (writeDbAmounts s2 d amts) d r hgr hstW hwfW hrkW hBW s' h.symm
      refine ⟨hwfU, hrkU, steps_trans _ _ _ (quiet_steps _ _ hqW) hSU, hfrU, ?_⟩
      intro n hn
      rw [hothU n hn, quiet_freshG _ _ hqW]

/-- The first phase of `DatabaseParameter.recalculate` and of
`ParameterManager.recalculate`: recalculate the project scope when it is
stale, then continue. -/
theorem phase1_bind (rank : String → Nat) (s s' : State) (k : State → Res)
    (hwf : WF s) (hrk : RankOK rank s)
    (h : (if projectExpired s = true then Bind.bind (recalcProject s) k
          else Bind.bind (Except.ok s) k) = .ok s') :
    ∃ s1, WF s1 ∧ RankOK rank s1 ∧ Steps s s1 ∧ projDone s1 ∧
      (∀ n, freshG s1 n = true → freshG s n = true ∨ n = "project") ∧ k s1 = .ok s' := by
  by_cases hpe : projectExpired s = true
  · rw [if_pos hpe] at h
    rcases hp1 : recalcProject s with e | s1 <;> rw [hp1] at h
    · rw [res_bind_error] at h
      exact absurd h (by simp)
    · rw [res_bind_ok] at h
      obtain ⟨a, b, c, d2, e2⟩ := recalcProject_ok rank s s1 hwf hrk hp1
      exact ⟨s1, a, b, c, d2, e2, h⟩
  · rw [if_neg hpe, res_bind_ok] at h
    rw [Bool.not_eq_true] at hpe
    exact ⟨s, hwf, hrk, steps_refl s, notExpired_projDone s hpe, fun n hf => Or.inl hf, h⟩

/-- A successful `DatabaseParameter.recalculate(database)` on a well-formed
state with a registered database: invariants preserved, tracked step, the
database scope done afterwards; only the database's and the project's
groups can change freshness. -/
theorem recalcDatabase_ok (rank : String → Nat) (d : String) (s s' : State)
    (hwf : WF s) (hrk : RankOK rank s) (hd0 : d ∈ s.databases)
    (h : recalcDatabase s d = .ok s') :
    WF s' ∧ RankOK rank s' ∧ Steps s s' ∧ dbDone s' d ∧
    (∀ n, freshG s' n = true → freshG s n = true ∨ n = d ∨ n = "project") := by
  simp only [recalcDatabase] at h
  obtain ⟨s1, hwf1, hrk1, hS1, hpd1, hsk1, h⟩ := phase1_bind rank s s' _ hwf hrk h
  have hd1 : d ∈ s1.databases := by
    rw [hS1.dbEq]
    exact hd0
  by_cases hde : dbExpired s1 d = true
  case neg =>
    rw [Bool.not_eq_true] at hde
    rw [if_bool_true _ (by rw [hde]; rfl)] at h
    injection h with h
    subst h
    exact ⟨hwf1, hrk1, hS1, notExpired_dbDone s1 d hde,
      fun n hf => (hsk1 n hf).imp id Or.inr⟩
  case pos =>
    rw [if_bool_false _ (by rw [hde]; rfl)] at h
    obtain ⟨rd, hrd, hrdf⟩ := dbExpired_row s1 d hde
    have hfr1d : freshG s1 d = false := by
      rw [freshG, hrd]
      exact hrdf
    by_cases hld : (dbLoad s1 d).isEmpty = true
    · rw [if_pos hld] at h
      injection h with h
      subst h
      refine ⟨hwf1, hrk1, hS1, ?_, fun n hf => (hsk1 n hf).imp id Or.inr⟩
      intro _
      right
      exact List.isEmpty_iff.mp hld
    · rw [if_neg hld] at h
      set ns := getNewSymbols ((dbLoad s1 d).map (·.formula)) ((dbLoad s1 d).map (·.name))
        with hns
      set ms := ns.filter (fun n => !decide (n ∈ projNames s1)) with hms
      by_cases hmse : ms.isEmpty = true
      case neg =>
        rw [Bool.not_eq_true] at hmse
        rw [if_bool_true _ (by rw [hmse]; rfl)] at h
        exact absurd h (by simp)
      case pos =>
        rw [if_bool_false _ (by rw [hmse]; rfl)] at h
        by_cases hnse : ns.isEmpty = true
        · -- no outside symbols: the project edge is deleted
          rw [if_bool_true _ hnse] at h
          simp only [res_bind_ok] at h
          set s2 := { s1 with deps := s1.deps.filter (fun e => !(e.group == d && e.depends == "project")) } with hs2
          have hgroups : s2.groups = s1.groups := by rw [hs2]
          have hwf2 : WF s2 :=
            WF_filter_deps s1 (fun e => !(e.group == d && e.depends == "project")) hwf1
          have hrk2 := RankOK_fields rank s1 s2 hgroups hrk1
          have hst2 : freshG s2 d = false := by
            rw [freshG_eq_of_groups_eq s1 s2 hgroups]
            exact hfr1d
          have hB2 : ∀ e ∈ s2.deps, e.group = d → okB s2 e.depends = true := by
            intro e he hgd
            rw [hs2] at he
            obtain ⟨hin, hpred⟩ := List.mem_filter.mp he
            have hdp : e.depends ≠ "project" := by
              intro hc
              rw [hgd, hc] at hpred
              simp at hpred
            exact absurd (hwf1.2.2.1 e hin (by rw [hgd]; exact hd1)) hdp
          obtain ⟨hwfT, hrkT, hST, hfrT, hothT⟩ :=
            recalcDatabase_tail rank d s2 s' _ _ hwf2 hrk2 hst2 hB2 h
          refine ⟨hwfT, hrkT,
            steps_trans _ _ _ hS1 (steps_trans _ _ _
              (hs2 ▸ Steps_filter_deps s1 (fun e => !(e.group == d && e.depends == "project")))
              hST),
            fun _ => Or.inl hfrT, ?_⟩
          intro n hf
          by_cases hn : n = d
          · exact Or.inr (Or.inl hn)
          · rw [hothT n hn, freshG_eq_of_groups_eq s1 s2 hgroups] at hf
            exact (hsk1 n hf).imp id Or.inr
        · -- outside symbols resolve against project parameters
          rw [Bool.not_eq_true] at hnse
          rw [if_bool_false _ hnse] at h
          have hns0 : ns ≠ [] := by
            intro hc
            rw [hc] at hnse
            exact absurd hnse (by simp)
          have hproj : okB s1 "project" = true := by
            obtain ⟨x, hx⟩ := List.exists_mem_of_ne_nil ns hns0
            have hxp : x ∈ projNames s1 := by
              by_contra hxp
              have hxm : x ∈ ms := by
                rw [hms]
                rw [List.mem_filter]
                exact ⟨hx, by simpa using hxp⟩
              rw [List.isEmpty_iff.mp hmse] at hxm
              simp at hxm
            have hpl : projLoad s1 ≠ [] := projNames_ne_nil s1 (fun hc => by
              rw [hc] at hxp
              simp at hxp)
            rcases hpg : getGroup s1 "project" with _ | pr
            · simp only [okB, hpg]
            · simp only [okB, hpg]
              rcases hpd1 (by rw [hpg]; rfl) with hf | he
              · rw [freshG, hpg] at hf
                exact hf
              · exact absurd he hpl
          rcases hgo : getOrCreateDepSave s1 d "project" with e | s2 <;> rw [hgo] at h
          · rw [res_bind_error] at h
            exact absurd h (by simp)
          · simp only [res_bind_ok] at h
            obtain ⟨hwf2, hrk2, hST12, hgroups, hB2⟩ :
                WF s2 ∧ RankOK rank s2 ∧ Steps s1 s2 ∧ s2.groups = s1.groups ∧
                  (∀ e ∈ s2.deps, e.group = d → okB s2 e.depends = true) := by
              rcases getOrCreateDepSave_ok s1 d "project" s2 hgo with
                ⟨hs2, hmem⟩ | ⟨hs2, hnm, hgp, hgdb2, hgd2⟩
              · rw [hs2]
                refine ⟨hwf1, hrk1, steps_refl s1, rfl, ?_⟩
                intro e he hgd
                rw [hwf1.2.2.1 e he (by rw [hgd]; exact hd1)]
                exact hproj
              · set t := { s1 with deps := s1.deps ++ [(⟨d, "project"⟩ : DepRow)] } with ht
                obtain ⟨w1, w2, w3, w4, w5, w6, w7, w8⟩ := hwf1
                have hgrt : t.groups = s1.groups := by rw [ht]
                have hdbt : t.databases = s1.databases := by rw [ht]
                have hdept : t.deps = s1.deps ++ [(⟨d, "project"⟩ : DepRow)] := by rw [ht]
                have hapt : t.activityParams = s1.activityParams := by rw [ht]
                have hokp2 : okB t "project" = true := by
                  rw [okB_eq_of_groups_eq s1 t hgrt]
                  exact hproj
                have hwft : WF t := by
                  refine ⟨?_, ?_, ?_, ?_, ?_, ?_, ?_, ?_⟩
                  · intro e he
                    rw [hdept] at he
                    rcases List.mem_append.mp he with he | he
                    · exact w1 e he
                    · rw [List.mem_singleton] at he
                      subst he
                      exact hgp
                  · intro e he
                    rw [hdept] at he
                    rcases List.mem_append.mp he with he | he
                    · exact w2 e he
                    · rw [List.mem_singleton] at he
                      subst he
                      exact hgp
                  · intro e he hm
                    rw [hdept] at he
                    rw [hdbt] at hm
                    rcases List.mem_append.mp he with he | he
                    · exact w3 e he hm
                    · rw [List.mem_singleton] at he
                      subst he
                      rfl
                  · intro e he hm
                    rw [hdept] at he
                    rw [hdbt] at hm
                    rw [show apLoad t e.group = apLoad s1 e.group from by
                      rw [apLoad, apLoad, hapt]]
                    rw [show needed0 t e.group = needed0 s1 e.group from by
                      rw [needed0, needed0, apNames, apNames, apLoad, apLoad, hapt]]
                    rcases List.mem_append.mp he with he | he
                    · exact w4 e he hm
                    · rw [List.mem_singleton] at he
                      subst he
                      exact absurd hd1 hm
                  · intro e he hf
                    rw [hdept] at he
                    rw [okB_eq_of_groups_eq s1 t hgrt]
                    rw [freshG_eq_of_groups_eq s1 t hgrt] at hf
                    rcases List.mem_append.mp he with he | he
                    · exact w5 e he hf
                    · rw [List.mem_singleton] at he
                      subst he
                      rw [hfr1d] at hf
                      exact absurd hf (by simp)
                  · intro r hr x hx
                    rw [hgrt] at hr
                    rw [hdbt]
                    exact w6 r hr x hx
                  · intro p hp
                    rw [hapt] at hp
                    rw [hdbt]
                    exact w7 p hp
                  · rw [projNotDb, hdbt]
                    exact w8
                have hstt : Steps s1 t := by
                  refine ⟨hdbt, by rw [hapt], by rw [ht], by rw [ht], ?_, ?_, ?_, ?_⟩
                  · intro n hn
                    rw [getGroup_eq_of_groups_eq s1 t hgrt]
                    exact hn
                  · intro n hn
                    rw [freshG_eq_of_groups_eq s1 t hgrt]
                    exact hn
                  · intro n hn
                    rw [okB_eq_of_groups_eq s1 t hgrt, okB, hn]
                  · intro e he
                    rw [hdept] at he
                    rcases List.mem_append.mp he with he | he
                    · exact Or.inl he
                    · rw [List.mem_singleton] at he
                      subst he
                      exact Or.inr hokp2
                have hBt : ∀ e ∈ t.deps, e.group = d → okB t e.depends = true := by
                  intro e he hgd
                  rw [hdept] at he
                  rcases List.mem_append.mp he with he | he
                  · rw [w3 e he (by rw [hgd]; exact hd1)]
                    exact hokp2
                  · rw [List.mem_singleton] at he
                    subst he
                    exact hokp2
                rw [hs2]
                exact ⟨hwft, RankOK_fields rank s1 t hgrt hrk1, hstt, hgrt, hBt⟩
            have hst2 : freshG s2 d = false := by
              rw [freshG_eq_of_groups_eq s1 s2 hgroups]
              exact hfr1d
            obtain ⟨hwfT, hrkT, hST, hfrT, hothT⟩ :=
              recalcDatabase_tail rank d s2 s' _ _ hwf2 hrk2 hst2 hB2 h
            refine ⟨hwfT, hrkT, steps_trans _ _ _ hS1 (steps_trans _ _ _ hST12 hST),
              fun _ => Or.inl hfrT, ?_⟩
            intro n hf
            by_cases hn : n = d
            · exact Or.inr (Or.inl hn)
            · rw [hothT n hn, freshG_eq_of_groups_eq s1 s2 hgroups] at hf
              exact (hsk1 n hf).imp id Or.inr

/-! ### The tail of `ActivityParameter.recalculate` -/

/-- The evaluate-write-freshen-expire-reproject tail of
`ActivityParameter.recalculate(group)`: under the usual invariants, with the
group stale and all its outgoing edges pointing at absent-or-fresh groups,
it freshens exactly the group. -/
theorem finishActivity_ok (rank : String → Nat) (g : String) (s s' : State)
    (hwf : WF s) (hrk : RankOK rank s)
    (hstale : freshG s g = false)
    (hB : ∀ e ∈ s.deps, e.group = g → okB s e.depends = true)
    (h : finishActivity s g = .ok s') :
    WF s' ∧ RankOK rank s' ∧ Steps s s' ∧ freshG s' g = true ∧
    (∀ n, n ≠ g → freshG s' n = freshG s n) ∧ s'.deps = s.deps := by
  simp only [finishActivity] at h
  split at h
  · exact absurd h (by simp)
  · split at h
    · exact absurd h (by simp)
    · rename_i amts hps
      have hqW : Quiet s (writeApAmounts s g amts) := writeApAmounts_quiet s g amts
      split at h
      · exact absurd h (by simp)
      · rename_i r hgr
        have hwfW := quiet_WF _ _ hqW hwf
        have hrkW := quiet_RankOK rank _ _ hqW hrk
        have hstW : freshG (writeApAmounts s g amts) g = false := by
          rw [quiet_freshG _ _ hqW]
          exact hstale
        have hBW : ∀ e ∈ (writeApAmounts s g amts).deps, e.group = g →
            okB (writeApAmounts s g amts) e.depends = true := by
          intro e he hgd
          rw [hqW.depsEq] at he
          rw [quiet_okB _ _ hqW]
          exact hB e he hgd
        obtain ⟨hwfU, hrkU, hSU, hfrU, hothU, hsomeU, hdepsU, hdbU, hppU, hdpU, hapU⟩ :=
          freshenExpire rank (writeApAmounts s g amts) g r hgr hstW hwfW hrkW hBW
            (expireDownstream
              (saveGroup (writeApAmounts s g amts) { r with fresh := true }) g) rfl
        obtain ⟨f1, f2, f3, f4, f5, f6⟩ := recalcExchanges_frame _ g s' h
        refine ⟨WF_fields _ s' f1 f2 f3 f6 hwfU, RankOK_fields rank _ s' f1 hrkU,
          ?_, ?_, ?_, ?_⟩
        · exact steps_trans _ _ _ (quiet_steps _ _ hqW) (steps_trans _ _ _ hSU
            (Steps_fields _ s' f1 f2 f3 f6 f5 f4))
        · rw [freshG_eq_of_groups_eq _ s' f1]
          exact hfrU
        · intro n hn
          rw [freshG_eq_of_groups_eq _ s' f1, hothU n hn, quiet_freshG _ _ hqW]
        · rw [f2, hdepsU, hqW.depsEq]

theorem saveGroup_pointwise (s : State) (r : GroupRow) (row : GroupRow)
    (hrow : getGroup s r.name = some row) (hfr : r.fresh = row.fresh) :
    ∀ n, freshG (saveGroup s r) n = freshG s n := by
  intro n
  by_cases hn : n = r.name
  · subst hn
    rw [freshG_saveGroup_self s r (by rw [hrow]; rfl)]
    rw [freshG, hrow]
    exact hfr
  · exact freshG_saveGroup_other s r n hn

theorem okB_of_dbDone (s : State) (d : String) (hdd : dbDone s d) (hl : dbLoad s d ≠ []) :
    okB s d = true := by
  rcases hg : getGroup s d with _ | r
  · rw [okB, hg]
  · rcases hdd (by rw [hg]; rfl) with hf | he
    · rw [okB, hg]
      rw [freshG, hg] at hf
      exact hf
    · exact absurd he hl

theorem okB_of_projDone (s : State) (hdd : projDone s) (hl : projLoad s ≠ []) :
    okB s "project" = true := by
  rcases hg : getGroup s "project" with _ | r
  · rw [okB, hg]
  · rcases hdd (by rw [hg]; rfl) with hf | he
    · rw [okB, hg]
      rw [freshG, hg] at hf
      exact hf
    · exact absurd he hl

/-! ### `ActivityParameter.recalculate` preserves the invariants -/

/-- A successful `ActivityParameter.recalculate(group)` on a well-formed,
rank-ordered state, for a group that is neither a database nor `project`:
invariants preserved, tracked step, the group absent-or-fresh afterwards,
and every group whose freshness flips to fresh is the group itself, a
lower-ranked group, a database, or `project`. -/
theorem recalcActivity_ok (rank : String → Nat) (fuel : Nat) :
    ∀ (g : String) (s s' : State), WF s → RankOK rank s → g ∉ s.databases → g ≠ "project" →
    recalcActivity fuel g s = .ok s' →
    WF s' ∧ RankOK rank s' ∧ Steps s s' ∧ okB s' g = true ∧
    (∀ n, freshG s' n = true →
      freshG s n = true ∨ n = g ∨ rank n < rank g ∨ n ∈ s.databases ∨ n = "project") := by
  induction fuel with
  | zero =>
    intro g s s' _ _ _ _ h
    exact absurd h (by simp [recalcActivity])
  | succ fuel ih =>
    intro g s s' hwf hrk hgdb hgp h
    simp only [recalcActivity] at h
    by_cases hexp : activityExpired s g = true
    case neg =>
      rw [Bool.not_eq_true] at hexp
      rw [if_bool_true _ (by rw [hexp]; rfl)] at h
      injection h with h
      subst h
      exact ⟨hwf, hrk, steps_refl s, okB_of_not_expired s g hexp, fun n hf => Or.inl hf⟩
    case pos =>
      rw [if_bool_false _ (by rw [hexp]; rfl)] at h
      obtain ⟨row0, hrow0, hrow0f⟩ := activityExpired_row s g hexp
      have hfrs : freshG s g = false := by
        rw [freshG, hrow0]
        exact hrow0f
      split at h
      · exact absurd h (by simp)
      · rename_i chain2 hchain2
        by_cases hch : chain2.isEmpty = true
        · -- empty chain: the order and edge rewrite is skipped entirely
          rw [if_bool_true _ hch] at h
          simp only [res_bind_ok] at h
          have hc0 : chain2 = [] := List.isEmpty_iff.mp hch
          subst hc0
          rw [List.reverse_nil, List.foldlM_nil] at h
          simp only [res_pure, res_bind_ok] at h
          have hsrc := dependencyChain_ok_nil_sources s g row0 hrow0 hchain2
          have hB0 : ∀ e ∈ s.deps, e.group = g → okB s e.depends = true := by
            intro e he hgd
            have h4 := hwf.2.2.2.1 e he (by rw [hgd]; exact hgdb)
            rw [hgd] at h4
            rcases hsrc with h2 | h2
            · exact absurd h2 h4.1
            · exact absurd h2 h4.2
          obtain ⟨wf2, rk2, S5, hfr2, hoth2, _⟩ :=
            finishActivity_ok rank g s s' hwf hrk hfrs hB0 h
          refine ⟨wf2, rk2, S5, freshG_okB _ _ hfr2, ?_⟩
          intro n hf
          by_cases hn : n = g
          · exact Or.inr (Or.inl hn)
          · rw [hoth2 n hn] at hf
            exact Or.inl hf
        · -- nonempty chain
          rw [Bool.not_eq_true] at hch
          rw [if_bool_false _ hch] at h
          have hne : chain2 ≠ [] := by
            intro hc
            rw [hc] at hch
            exact absurd hch (by simp)
          split at h
          · rename_i hnone
            rw [hrow0] at hnone
            exact absurd hnone (by simp)
          · rename_i row2 hrow2
            have hrow02 : row2 = row0 := by
              rw [hrow0] at hrow2
              injection hrow2 with hrow2
              exact hrow2.symm
            have hrowname : row2.name = g := by simpa using List.find?_some hrow2
            have hrowmem : row2 ∈ s.groups := by
              rw [getGroup] at hrow2
              exact List.mem_of_find?_eq_some hrow2
            have hrowf : row2.fresh = false := by
              rw [hrow02]
              exact hrow0f
            -- the per-entry facts of the chain
            obtain ⟨hdf, hnf⟩ := chain_ne_nil_sources s g chain2 hchain2 hne
            have hapne : apLoad s g ≠ [] := by
              intro hc
              rw [hc] at hdf
              exact absurd hdf (by simp)
            have hneedne : needed0 s g ≠ [] := by
              intro hc
              rw [hc] at hnf
              exact absurd hnf (by simp)
            have hspec := dependencyChain_ok_spec s g row2 chain2 hrow2 hchain2 hne
            have hfact : ∀ e ∈ chain2,
                (e.kind = Kind.activity ∧ e.group ∈ row2.order ∧ apLoad s e.group ≠ [] ∧
                  e.group ∉ s.databases ∧ e.group ≠ "project" ∧ rank e.group < rank g) ∨
                (e.kind = Kind.database ∧ e.group ∈ s.databases ∧ dbLoad s e.group ≠ []) ∨
                (e.kind = Kind.project ∧ e.group = "project" ∧ projLoad s ≠ []) := by
              intro e he
              obtain ⟨hmem, hsc⟩ := hspec e he
              rcases allScopes_cases row2 (ownDb s g) e.kind e.group hmem with
                ⟨hk, hord⟩ | hdbc | hpc
              · left
                have horder := hwf.2.2.2.2.2.1 row2 hrowmem e.group hord
                refine ⟨hk, hord, ?_, horder.1, horder.2, ?_⟩
                · apply apNames_ne_nil
                  rw [hk] at hsc
                  exact hsc
                · have h5 := hrk row2 hrowmem e.group hord
                  rw [hrowname] at h5
                  exact h5
              · right
                left
                simp only [Prod.mk.injEq] at hdbc
                refine ⟨hdbc.1, ?_, ?_⟩
                · rw [hdbc.2]
                  exact ownDb_mem s g hwf.2.2.2.2.2.2.1 hapne
                · apply dbNames_ne_nil
                  rw [hdbc.1] at hsc
                  exact hsc
              · right
                right
                simp only [Prod.mk.injEq] at hpc
                refine ⟨hpc.1, hpc.2, ?_⟩
                apply projNames_ne_nil
                rw [hpc.1] at hsc
                exact hsc
            -- name and shape the intermediate states
            set ord := chain2.filterMap
              (fun e => if e.kind == Kind.activity then some e.group else none) with hordeq
            set sG := saveGroup s { row2 with order := ord } with hsG
            set sF := { sG with deps := sG.deps.filter (fun e => !(e.group == g)) } with hsF
            rcases hins : insertDeps sF g (chain2.map (·.group)) with e | sMid <;>
              rw [hins] at h
            · rw [res_bind_error] at h
              exact absurd h (by simp)
            · simp only [res_bind_ok] at h
              rcases hfold : chain2.reverse.foldlM (fun s e =>
                  match e.kind with
                  | Kind.project => recalcProject s
                  | Kind.database => recalcDatabase s e.group
                  | Kind.activity => recalcActivity fuel e.group s) sMid with e | sEnd <;>
                rw [hfold] at h
              · rw [res_bind_error] at h
                exact absurd h (by simp)
              · rw [res_bind_ok] at h
                -- h : finishActivity sEnd g = .ok s'
                obtain ⟨d1, d2, d3, d4, d5, d6, d7, d8, d9, d10, d11⟩ :=
                  insertDeps_ok g (chain2.map (·.group)) sF sMid hins
                have hinsne := insertDeps_ok_ne g (chain2.map (·.group)) sF sMid hins
                -- pointwise facts from s to sMid
                have hGfr : ∀ n, freshG sG n = freshG s n := by
                  rw [hsG]
                  exact saveGroup_pointwise s { row2 with order := ord } row2
                    (by rw [show ({ row2 with order := ord } : GroupRow).name = g from hrowname]
                        exact hrow2) rfl
                have hsFgr : sF.groups = sG.groups := by rw [hsF]
                have hMidGr : sMid.groups = sG.groups := by rw [d2, hsFgr]
                have hMidFr : ∀ n, freshG sMid n = freshG s n := by
                  intro n
                  rw [freshG_eq_of_groups_eq sG sMid hMidGr]
                  exact hGfr n
                have hMidSome : ∀ n, (getGroup sMid n).isSome = (getGroup s n).isSome := by
                  intro n
                  rw [getGroup_eq_of_groups_eq sG sMid hMidGr]
                  rw [hsG, isSome_saveGroup]
                have hMidOk : ∀ n, okB sMid n = okB s n := by
                  intro n
                  rw [okB_eq, okB_eq, hMidSome, hMidFr]
                have hMidDb : sMid.databases = s.databases := by
                  rw [d9, hsF, hsG]
                  rfl
                have hMidAp : sMid.activityParams = s.activityParams := by
                  rw [d5, hsF, hsG]
                  rfl
                have hMidDbp : sMid.databaseParams = s.databaseParams := by
                  rw [d4, hsF, hsG]
                  rfl
                have hMidPp : sMid.projectParams = s.projectParams := by
                  rw [d3, hsF, hsG]
                  rfl
                have hsGdeps : sG.deps = s.deps := by
                  rw [hsG]
                  rfl
                have hMidDeps : sMid.deps
                    = s.deps.filter (fun e => !(e.group == g))
                      ++ (chain2.map (·.group)).map (fun c => (⟨g, c⟩ : DepRow)) := by
                  rw [d1, hsF, hsG]
                  rfl
                -- rank facts for the rewritten order
                have hordRank : ∀ x ∈ ord, rank x < rank g := by
                  intro x hx
                  rw [hordeq] at hx
                  obtain ⟨e, he, hfe⟩ := List.mem_filterMap.mp hx
                  by_cases hk : (e.kind == Kind.activity) = true
                  · rw [if_pos hk] at hfe
                    injection hfe with hfe
                    rcases hfact e he with ⟨_, _, _, _, _, h6⟩ | ⟨h6, _, _⟩ | ⟨h6, _, _⟩
                    · rw [← hfe]
                      exact h6
                    · rw [h6] at hk
                      exact absurd hk (by simp)
                    · rw [h6] at hk
                      exact absurd hk (by simp)
                  · rw [if_neg hk] at hfe
                    exact absurd hfe (by simp)
                -- invariants at sMid
                have hwfG : WF sG := by
                  obtain ⟨w1, w2, w3, w4, w5, w6, w7, w8⟩ := hwf
                  have hGok : ∀ n, okB sG n = okB s n := by
                    intro n
                    rw [okB_eq, okB_eq, hGfr]
                    rw [show (getGroup sG n).isSome = (getGroup s n).isSome from by
                      rw [hsG, isSome_saveGroup]]
                  have hGdb : sG.databases = s.databases := by
                    rw [hsG]
                    rfl
                  have hGap : sG.activityParams = s.activityParams := by
                    rw [hsG]
                    rfl
                  refine ⟨?_, ?_, ?_, ?_, ?_, ?_, ?_, ?_⟩
                  · intro e he
                    rw [hsGdeps] at he
                    exact w1 e he
                  · intro e he
                    rw [hsGdeps] at he
                    exact w2 e he
                  · intro e he hm
                    rw [hsGdeps] at he
                    rw [hGdb] at hm
                    exact w3 e he hm
                  · intro e he hm
                    rw [hsGdeps] at he
                    rw [hGdb] at hm
                    rw [show apLoad sG e.group = apLoad s e.group from by
                      rw [apLoad, apLoad, hGap]]
                    rw [show needed0 sG e.group = needed0 s e.group from by
                      rw [needed0, needed0, apNames, apNames, apLoad, apLoad, hGap]]
                    exact w4 e he hm
                  · intro e he hf
                    rw [hsGdeps] at he
                    rw [hGok]
                    rw [hGfr] at hf
                    exact w5 e he hf
                  · rw [hsG]
                    exact saveGroup_orderWf s _ w6
                  · intro p hp
                    rw [hGap] at hp
                    rw [hGdb]
                    exact w7 p hp
                  · rw [projNotDb, hGdb]
                    exact w8
                have hrkG : RankOK rank sG := by
                  rw [hsG]
                  refine saveGroup_RankOK rank s _ hrk ?_
                  intro x hx
                  rw [show ({ row2 with order := ord } : GroupRow).name = row2.name from rfl,
                    hrowname]
                  exact hordRank x hx
                have hwfMid : WF sMid := by
                  obtain ⟨w1, w2, w3, w4, w5, w6, w7, w8⟩ := hwfG
                  refine ⟨?_, ?_, ?_, ?_, ?_, ?_, ?_, ?_⟩
                  · intro e he
                    rw [hMidDeps] at he
                    rcases List.mem_append.mp he with he | he
                    · exact w1 e (by rw [hsGdeps]; exact List.mem_of_mem_filter he)
                    · obtain ⟨c, hc, hce⟩ := List.mem_map.mp he
                      rw [← hce]
                      exact hinsne c hc
                  · intro e he
                    rw [hMidDeps] at he
                    rcases List.mem_append.mp he with he | he
                    · exact w2 e (by rw [hsGdeps]; exact List.mem_of_mem_filter he)
                    · obtain ⟨c, hc, hce⟩ := List.mem_map.mp he
                      rw [← hce]
                      exact hgp
                  · intro e he hm
                    rw [hMidDeps] at he
                    rw [hMidDb] at hm
                    rcases List.mem_append.mp he with he | he
                    · exact w3 e (by rw [hsGdeps]; exact List.mem_of_mem_filter he)
                        (by rw [show sG.databases = s.databases from by rw [hsG]; rfl]; exact hm)
                    · obtain ⟨c, hc, hce⟩ := List.mem_map.mp he
                      rw [← hce] at hm
                      exact absurd hm hgdb
                  · intro e he hm
                    rw [hMidDeps] at he
                    rw [hMidDb] at hm
                    rw [show apLoad sMid e.group = apLoad s e.group from by
                      rw [apLoad, apLoad, hMidAp]]
                    rw [show needed0 sMid e.group = needed0 s e.group from by
                      rw [needed0, needed0, apNames, apNames, apLoad, apLoad, hMidAp]]
                    rcases List.mem_append.mp he with he | he
                    · have h4 := w4 e (by rw [hsGdeps]; exact List.mem_of_mem_filter he)
                        (by rw [show sG.databases = s.databases from by rw [hsG]; rfl]; exact hm)
                      rw [show apLoad sG e.group = apLoad s e.group from by
                        rw [apLoad, apLoad, show sG.activityParams = s.activityParams from by rw [hsG]; rfl]] at h4
                      rw [show needed0 sG e.group = needed0 s e.group from by
                        rw [needed0, needed0, apNames, apNames, apLoad, apLoad,
                          show sG.activityParams = s.activityParams from by rw [hsG]; rfl]] at h4
                      exact h4
                    · obtain ⟨c, hc, hce⟩ := List.mem_map.mp he
                      rw [← hce]
                      exact ⟨hapne, hneedne⟩
                  · intro e he hf
                    rw [hMidDeps] at he
                    rw [okB_eq, hMidSome, hMidFr, ← okB_eq]
                    rw [freshG_eq_of_groups_eq sG sMid hMidGr] at hf
                    rcases List.mem_append.mp he with he | he
                    · have h5 := w5 e (by rw [hsGdeps]; exact List.mem_of_mem_filter he) hf
                      rw [okB_eq, show (getGroup sG e.depends).isSome
                          = (getGroup s e.depends).isSome from by rw [hsG, isSome_saveGroup],
                        hGfr, ← okB_eq] at h5
                      exact h5
                    · obtain ⟨c, hc, hce⟩ := List.mem_map.mp he
                      rw [← hce] at hf
                      rw [hGfr] at hf
                      rw [hfrs] at hf
                      exact absurd hf (by simp)
                  · intro r hr x hx
                    rw [hMidGr] at hr
                    rw [hMidDb]
                    have h6 := w6 r hr x hx
                    rw [show sG.databases = s.databases from by rw [hsG]; rfl] at h6
                    exact h6
                  · intro p hp
                    rw [hMidAp] at hp
                    rw [hMidDb]
                    have hp2 : p ∈ sG.activityParams := by
                      rw [hsG]
                      exact hp
                    have h7 := w7 p hp2
                    rw [show sG.databases = s.databases from by rw [hsG]; rfl] at h7
                    exact h7
                  · rw [projNotDb, hMidDb]
                    have h8 := w8
                    rw [projNotDb, show sG.databases = s.databases from by rw [hsG]; rfl] at h8
                    exact h8
                have hrkMid : RankOK rank sMid := RankOK_fields rank sG sMid hMidGr hrkG
                -- the upstream fold
                have hmono2 : ∀ (x : ChainEntry) (s1 s2 : State), Steps s1 s2 →
                    entryDone s1 x → entryDone s2 x :=
                  fun x s1 s2 hS hQ => entryDone_mono x s1 s2 hS hQ
                have hstep2 : ∀ x ∈ chain2.reverse, ∀ s1 s2,
                    (WF s1 ∧ RankOK rank s1 ∧ Steps sMid s1 ∧ freshG s1 g = false ∧
                      s1.databases = s.databases ∧
                      (∀ n, freshG s1 n = true → freshG s n = true ∨ rank n < rank g ∨
                        n ∈ s.databases ∨ n = "project")) →
                    (fun s e =>
                      match e.kind with
                      | Kind.project => recalcProject s
                      | Kind.database => recalcDatabase s e.group
                      | Kind.activity => recalcActivity fuel e.group s) s1 x = .ok s2 →
                    (WF s2 ∧ RankOK rank s2 ∧ Steps sMid s2 ∧ freshG s2 g = false ∧
                      s2.databases = s.databases ∧
                      (∀ n, freshG s2 n = true → freshG s n = true ∨ rank n < rank g ∨
                        n ∈ s.databases ∨ n = "project")) ∧ Steps s1 s2 ∧ entryDone s2 x := by
                  intro x hx s1 s2 hI hst
                  obtain ⟨hIwf, hIrk, hISt, hIfr, hIdb, hIacct⟩ := hI
                  have hxc : x ∈ chain2 := List.mem_reverse.mp hx
                  rcases x with ⟨k, grp, nms⟩
                  rcases k
                  · -- project entry
                    have hst2 : recalcProject s1 = .ok s2 := hst
                    obtain ⟨wf2, rk2, st2, pd2, sk2⟩ := recalcProject_ok rank s1 s2 hIwf hIrk hst2
                    have hfr2 : freshG s2 g = false := by
                      by_contra hc
                      rw [Bool.not_eq_false] at hc
                      rcases sk2 g hc with h1 | h1
                      · rw [hIfr] at h1
                        exact Bool.noConfusion h1
                      · exact hgp h1
                    refine ⟨⟨wf2, rk2, steps_trans _ _ _ hISt st2, hfr2,
                      st2.dbEq.trans hIdb, ?_⟩, st2, pd2⟩
                    intro n hf
                    rcases sk2 n hf with h1 | h1
                    · exact hIacct n h1
                    · exact Or.inr (Or.inr (Or.inr h1))
                  · -- database entry
                    have hst2 : recalcDatabase s1 grp = .ok s2 := hst
                    rcases hfact ⟨Kind.database, grp, nms⟩ hxc with
                      ⟨hk, _⟩ | ⟨_, hdbm, hdl⟩ | ⟨hk, _⟩
                    · exact absurd hk (by simp)
                    · obtain ⟨wf2, rk2, st2, dbd2, sk2⟩ := recalcDatabase_ok rank grp s1 s2
                        hIwf hIrk (by rw [hIdb]; exact hdbm) hst2
                      have hfr2 : freshG s2 g = false := by
                        by_contra hc
                        rw [Bool.not_eq_false] at hc
                        rcases sk2 g hc with h1 | h1 | h1
                        · rw [hIfr] at h1
                          exact Bool.noConfusion h1
                        · exact hgdb (h1 ▸ hdbm)
                        · exact hgp h1
                      refine ⟨⟨wf2, rk2, steps_trans _ _ _ hISt st2, hfr2,
                        st2.dbEq.trans hIdb, ?_⟩, st2, dbd2⟩
                      intro n hf
                      rcases sk2 n hf with h1 | h1 | h1
                      · exact hIacct n h1
                      · exact Or.inr (Or.inr (Or.inl (h1 ▸ hdbm)))
                      · exact Or.inr (Or.inr (Or.inr h1))
                    · exact absurd hk (by simp)
                  · -- activity entry
                    have hst2 : recalcActivity fuel grp s1 = .ok s2 := hst
                    rcases hfact ⟨Kind.activity, grp, nms⟩ hxc with
                      ⟨_, hord2, hap2, hndb2, hnp2, hrkg2⟩ | ⟨hk, _⟩ | ⟨hk, _⟩
                    · obtain ⟨wf2, rk2, st2, okb2, sk2⟩ := ih grp s1 s2 hIwf hIrk
                        (by rw [hIdb]; exact hndb2) hnp2 hst2
                      have hfr2 : freshG s2 g = false := by
                        by_contra hc
                        rw [Bool.not_eq_false] at hc
                        rcases sk2 g hc with h1 | h1 | h1 | h1 | h1
                        · rw [hIfr] at h1
                          exact Bool.noConfusion h1
                        · rw [h1] at hrkg2
                          exact absurd hrkg2 (Nat.lt_irrefl _)
                        · exact absurd (Nat.lt_trans h1 hrkg2) (Nat.lt_irrefl _)
                        · rw [hIdb] at h1
                          exact hgdb h1
                        · exact hgp h1
                      refine ⟨⟨wf2, rk2, steps_trans _ _ _ hISt st2, hfr2,
                        st2.dbEq.trans hIdb, ?_⟩, st2, okb2⟩
                      intro n hf
                      rcases sk2 n hf with h1 | h1 | h1 | h1 | h1
                      · exact hIacct n h1
                      · exact Or.inr (Or.inl (h1 ▸ hrkg2))
                      · exact Or.inr (Or.inl (Nat.lt_trans h1 hrkg2))
                      · rw [hIdb] at h1
                        exact Or.inr (Or.inr (Or.inl h1))
                      · exact Or.inr (Or.inr (Or.inr h1))
                    · exact absurd hk (by simp)
                    · exact absurd hk (by simp)
                obtain ⟨hIEnd, S4, hQs⟩ := foldlM_invariant _
                  (fun t => WF t ∧ RankOK rank t ∧ Steps sMid t ∧ freshG t g = false ∧
                    t.databases = s.databases ∧
                    (∀ n, freshG t n = true → freshG s n = true ∨ rank n < rank g ∨
                      n ∈ s.databases ∨ n = "project"))
                  (fun e t => entryDone t e) hmono2 chain2.reverse sMid sEnd
                  ⟨hwfMid, hrkMid, steps_refl sMid, by rw [hMidFr]; exact hfrs, hMidDb,
                    fun n hf => Or.inl (by rw [← hMidFr]; exact hf)⟩
                  hstep2 hfold
                obtain ⟨hEwf, hErk, _, hEfr, hEdb, hEacct⟩ := hIEnd
                -- all chain groups are absent-or-fresh at the end of the fold
                have hchainOk : ∀ c ∈ chain2.map (·.group), okB sEnd c = true := by
                  intro c hc
                  obtain ⟨e, he, hce⟩ := List.mem_map.mp hc
                  have hQ := hQs e (List.mem_reverse.mpr he)
                  rcases e with ⟨k, grp, nms⟩
                  have hgrp : grp = c := hce
                  subst hgrp
                  rcases hfact ⟨k, grp, nms⟩ he with
                    ⟨hk, _⟩ | ⟨hk, hdbm, hdl⟩ | ⟨hk, hgr, hpl⟩
                  · have hk2 : k = Kind.activity := hk
                    subst hk2
                    exact hQ
                  · have hk2 : k = Kind.database := hk
                    subst hk2
                    refine okB_of_dbDone sEnd grp hQ ?_
                    intro hc0
                    apply hdl
                    have h1 : dbLoad sMid grp = dbLoad s grp := by
                      rw [dbLoad, dbLoad, hMidDbp]
                    rw [← h1]
                    exact (dbSk_load_ne sMid sEnd S4.dbSk grp).mp hc0
                  · have hk2 : k = Kind.project := hk
                    subst hk2
                    have hgr2 : grp = "project" := hgr
                    subst hgr2
                    refine okB_of_projDone sEnd hQ ?_
                    intro hc0
                    apply hpl
                    have h1 : projLoad sMid = projLoad s := by
                      rw [projLoad, projLoad, hMidPp]
                    rw [← h1]
                    exact (ppSk_load_ne sMid sEnd S4.ppSk).mp hc0
                -- the group's outgoing edges at the end of the fold
                have hB : ∀ e ∈ sEnd.deps, e.group = g → okB sEnd e.depends = true := by
                  intro e he hgd
                  rcases S4.newEdge e he with he2 | he2
                  · rw [hMidDeps] at he2
                    rcases List.mem_append.mp he2 with he3 | he3
                    · have hpred := (List.mem_filter.mp he3).2
                      rw [hgd] at hpred
                      simp at hpred
                    · obtain ⟨c, hc, hce⟩ := List.mem_map.mp he3
                      have hdep : e.depends = c := by rw [← hce]
                      rw [hdep]
                      exact hchainOk c hc
                  · exact he2
                -- finish
                obtain ⟨wf2, rk2, S5, hfr2, hoth2, hdeps2⟩ :=
                  finishActivity_ok rank g sEnd s' hEwf hErk hEfr hB h
                refine ⟨wf2, rk2, ?_, freshG_okB _ _ hfr2, ?_⟩
                · refine ⟨?_, ?_, ?_, ?_, ?_, ?_, ?_, ?_⟩
                  · rw [S5.dbEq, S4.dbEq, hMidDb]
                  · rw [S5.apSk, S4.apSk, hMidAp]
                  · rw [S5.dbSk, S4.dbSk, hMidDbp]
                  · rw [S5.ppSk, S4.ppSk, hMidPp]
                  · intro n hn
                    refine S5.rows n (S4.rows n ?_)
                    rw [hMidSome n]
                    exact hn
                  · intro n hn
                    refine S5.freshMono n (S4.freshMono n ?_)
                    rw [hMidFr n]
                    exact hn
                  · intro n hn
                    have hn2 : getGroup sMid n = none := by
                      rcases hx : getGroup sMid n with _ | r
                      · rfl
                      · have := hMidSome n
                        rw [hx, hn] at this
                        exact absurd this (by simp)
                    exact okB_mono sEnd s' S5 n (S4.newFresh n hn2)
                  · intro e he
                    rw [hdeps2] at he
                    rcases S4.newEdge e he with he2 | he2
                    · rw [hMidDeps] at he2
                      rcases List.mem_append.mp he2 with he3 | he3
                      · exact Or.inl (List.mem_of_mem_filter he3)
                      · obtain ⟨c, hc, hce⟩ := List.mem_map.mp he3
                        right
                        rw [show e.depends = c from by rw [← hce]]
                        exact okB_mono sEnd s' S5 c (hchainOk c hc)
                    · exact Or.inr (okB_mono sEnd s' S5 _ he2)
                · intro n hf
                  by_cases hn : n = g
                  · exact Or.inr (Or.inl hn)
                  · rw [hoth2 n hn] at hf
                    rcases hEacct n hf with h1 | h1 | h1 | h1
                    · exact Or.inl h1
                    · exact Or.inr (Or.inr (Or.inl h1))
                    · exact Or.inr (Or.inr (Or.inr (Or.inl h1)))
                    · exact Or.inr (Or.inr (Or.inr (Or.inr h1)))

/-! ## Claim C1 -/

/-- C1 (amended): assume the data-model invariants `WF` — the schema
`CHECK` constraints and the `GroupDependency.save` rules (no self edges,
no edges out of `project`, database groups depend only on `project`),
purged `order` lists, activity-parameter registry coherence, `project`
not a registered database, the invariant that a fresh group's
dependencies are absent or fresh, and `edgesHaveNeeds` (a dependency edge
out of an activity group exists only because that group has parameters
and free symbols) — together with a rank function witnessing the
acyclicity of the stored `order` lists.  If
`ParameterManager.recalculate()` then returns without raising, every
Group row is fresh afterwards, except that the `project` group may
survive stale when the project parameter table is empty and a
database-named group may survive stale when that database's parameter
table is empty (each per-scope `recalculate` returns early on empty data
without freshening its group).  Every hypothesis beyond the schema rules
is forced by the counterexample: its part 1 refutes the claim as stated
(the empty-parameter carve-outs), and its part 2 exhibits a state
violating only `edgesHaveNeeds` — a dangling dependency edge left on a
group whose formulas need no outside symbols — on which `recalculate()`
returns ok while an ordinary activity group ends stale, because the later
freshening of the edge's target expires the group again. -/
theorem c1_recalculate_all_fresh_unless_empty (rank : String → Nat) (fuel : Nat)
    (s0 s' : State) (hwf : WF s0) (hrk : RankOK rank s0)
    (h : pmRecalculate fuel s0 = .ok s') :
    ∀ n, (getGroup s' n).isSome = true →
      freshG s' n = true ∨ (n = "project" ∧ projLoad s' = []) ∨
        (n ∈ s'.databases ∧ dbLoad s' n = []) := by
  simp only [pmRecalculate] at h
  obtain ⟨s1, hwf1, hrk1, hS1, hpd1, hsk1, h⟩ := phase1_bind rank s0 s' _ hwf hrk h
  rcases hf2 : s1.databases.foldlM
      (fun s d => if dbExpired s d = true then recalcDatabase s d else Except.ok s) s1 with
    e | sB <;> rw [hf2] at h
  · rw [res_bind_error] at h
    exact absurd h (by simp)
  · simp only [res_bind_ok] at h
    have hstep2 : ∀ d ∈ s1.databases, ∀ t t2,
        (WF t ∧ RankOK rank t ∧ Steps s1 t) →
        (fun s d => if dbExpired s d = true then recalcDatabase s d else Except.ok s) t d
          = .ok t2 →
        (WF t2 ∧ RankOK rank t2 ∧ Steps s1 t2) ∧ Steps t t2 ∧ dbDone t2 d := by
      intro d hd t t2 hI hst
      obtain ⟨hIwf, hIrk, hISt⟩ := hI
      have hst0 : (if dbExpired t d = true then recalcDatabase t d else Except.ok t)
          = .ok t2 := hst
      by_cases hde : dbExpired t d = true
      · rw [if_pos hde] at hst0
        obtain ⟨wf2, rk2, st2, dbd2, _⟩ := recalcDatabase_ok rank d t t2 hIwf hIrk
          (by rw [hISt.dbEq]; exact hd) hst0
        exact ⟨⟨wf2, rk2, steps_trans _ _ _ hISt st2⟩, st2, dbd2⟩
      · rw [if_neg hde] at hst0
        injection hst0 with hst0
        subst hst0
        rw [Bool.not_eq_true] at hde
        exact ⟨⟨hIwf, hIrk, hISt⟩, steps_refl t, notExpired_dbDone t d hde⟩
    obtain ⟨⟨hwfB, hrkB, hSB⟩, hS2, hQ2s⟩ := foldlM_invariant _
      (fun t => WF t ∧ RankOK rank t ∧ Steps s1 t) (fun d t => dbDone t d)
      (fun d t t2 hS hQ => dbDone_mono t t2 d hS hQ)
      s1.databases s1 sB ⟨hwf1, hrk1, steps_refl s1⟩ hstep2 hf2
    have hstep3 : ∀ n ∈ (sB.groups.filter (fun r => !r.fresh)).map (·.name), ∀ t t2,
        (WF t ∧ RankOK rank t ∧ Steps sB t) →
        (fun s n => if (decide (n ∈ s.databases) || n == "project") = true then Except.ok s
          else recalcActivity fuel n s) t n = .ok t2 →
        (WF t2 ∧ RankOK rank t2 ∧ Steps sB t2) ∧ Steps t t2 ∧
          (n ∈ sB.databases ∨ n = "project" ∨ okB t2 n = true) := by
      intro n hn t t2 hI hst
      obtain ⟨hIwf, hIrk, hISt⟩ := hI
      have hst0 : (if (decide (n ∈ t.databases) || n == "project") = true then Except.ok t
          else recalcActivity fuel n t) = .ok t2 := hst
      by_cases hc : (decide (n ∈ t.databases) || n == "project") = true
      · rw [if_pos hc] at hst0
        injection hst0 with hst0
        subst hst0
        refine ⟨⟨hIwf, hIrk, hISt⟩, steps_refl t, ?_⟩
        simp only [Bool.or_eq_true, decide_eq_true_eq, beq_iff_eq] at hc
        rcases hc with hc | hc
        · rw [hISt.dbEq] at hc
          exact Or.inl hc
        · exact Or.inr (Or.inl hc)
      · rw [if_neg hc] at hst0
        simp only [Bool.or_eq_true, decide_eq_true_eq, beq_iff_eq, not_or] at hc
        obtain ⟨wf2, rk2, st2, okb2, _⟩ := recalcActivity_ok rank fuel n t t2 hIwf hIrk
          hc.1 hc.2 hst0
        exact ⟨⟨wf2, rk2, steps_trans _ _ _ hISt st2⟩, st2, Or.inr (Or.inr okb2)⟩
    obtain ⟨⟨hwfE, hrkE, _⟩, hS3, hQ3s⟩ := foldlM_invariant _
      (fun t => WF t ∧ RankOK rank t ∧ Steps sB t)
      (fun n t => n ∈ sB.databases ∨ n = "project" ∨ okB t n = true)
      (fun n t t2 hS hQ => hQ.imp id (fun hq => hq.imp id (okB_mono t t2 hS n)))
      ((sB.groups.filter (fun r => !r.fresh)).map (·.name)) sB s'
      ⟨hwfB, hrkB, steps_refl sB⟩ hstep3 h
    intro n hsome
    rcases hgB : getGroup sB n with _ | r
    · left
      exact okB_and_row_fresh s' n (hS3.newFresh n hgB) hsome
    · by_cases hfB : freshG sB n = true
      · left
        exact hS3.freshMono n hfB
      · have hmem : n ∈ (sB.groups.filter (fun r => !r.fresh)).map (·.name) := by
          have hrmem : r ∈ sB.groups := by
            rw [getGroup] at hgB
            exact List.mem_of_find?_eq_some hgB
          have hrname : r.name = n := by simpa using List.find?_some hgB
          have hrfr : r.fresh = false := by
            rw [Bool.not_eq_true] at hfB
            rw [freshG, hgB] at hfB
            exact hfB
          refine List.mem_map.mpr ⟨r, ?_, hrname⟩
          rw [List.mem_filter]
          refine ⟨hrmem, ?_⟩
          rw [hrfr]
          rfl
        rcases hQ3s n hmem with h1 | h1 | h1
        · have h1' : n ∈ s1.databases := by
            rw [← hS2.dbEq]
            exact h1
          rcases dbDone_mono sB s' n hS3 (hQ2s n h1') hsome with hf | he
          · exact Or.inl hf
          · refine Or.inr (Or.inr ⟨?_, he⟩)
            rw [hS3.dbEq]
            exact h1
        · subst h1
          rcases projDone_mono sB s' hS3 (projDone_mono s1 sB hS2 hpd1) hsome with hf | he
          · exact Or.inl hf
          · exact Or.inr (Or.inl ⟨rfl, he⟩)
        · left
          exact okB_and_row_fresh s' n h1 hsome

/-- A reachable state refuting C1 as stated: a stale `project` group with
no project parameters and a stale registered-database group with no
database parameters. -/
def exC1 : State :=
  { groups := [{ name := "project", fresh := false, updated := 0, order := [] },
               { name := "db", fresh := false, updated := 0, order := [] }],
    deps := [], projectParams := [], databaseParams := [], activityParams := [],
    paramExchanges := [], exchanges := [], activities := [], databases := ["db"],
    dirty := [], time := 0 }

/-- Two stale formula-free activity groups with a leftover dependency
edge `(g, h)`: every data-model invariant holds except `edgesHaveNeeds`
(`g` has parameters but no free symbols, yet still has an outgoing
edge — exactly what the empty-chain skip of C3 can leave behind). -/
def exC1b : State :=
  { groups := [{ name := "g", fresh := false, updated := 0, order := [] },
               { name := "h", fresh := false, updated := 0, order := [] }],
    deps := [{ group := "g", depends := "h" }],
    projectParams := [],
    databaseParams := [],
    activityParams := [{ group := "g", database := "db", code := "a1", name := "x",
                         formula := none, amount := some 4, data := [] },
                       { group := "h", database := "db", code := "a2", name := "z",
                         formula := none, amount := some 5, data := [] }],
    paramExchanges := [], exchanges := [], activities := [], databases := ["db"],
    dirty := [], time := 0 }

/-- The state `recalculate()` returns on `exC1b`: `g` was freshened first,
then freshening `h` expired `g` again through the leftover edge. -/
def exC1bFinal : State :=
  { groups := [{ name := "g", fresh := false, updated := 0, order := [] },
               { name := "h", fresh := true, updated := 1, order := [] }],
    deps := [{ group := "g", depends := "h" }],
    projectParams := [],
    databaseParams := [],
    activityParams := [{ group := "g", database := "db", code := "a1", name := "x",
                         formula := none, amount := some 4, data := [] },
                       { group := "h", database := "db", code := "a2", name := "z",
                         formula := none, amount := some 5, data := [] }],
    paramExchanges := [], exchanges := [], activities := [], databases := ["db"],
    dirty := ["db", "db"], time := 2 }

/-- C1 is false as stated, in two independent ways.  Part 1:
`recalculate()` returns without raising on `exC1` and changes nothing,
yet the `project` group row and the database-named group row both still
have `fresh = false` (their parameter sets are empty, so the per-scope
recalculations return before freshening) — this forces the two
empty-parameter carve-outs of the amended statement.  Part 2: those
carve-outs alone do not make the claim true: `exC1b` satisfies every
data-model invariant except `edgesHaveNeeds`, and on it `recalculate()`
also returns ok while the ordinary activity group `g` — present, with
parameters, neither `project` nor a database name — ends stale: `g` is
freshened first, and the later freshening of `h` expires it again through
its dangling dependency edge.  This forces the amended statement's
`edgesHaveNeeds` hypothesis. -/
theorem c1_counterexample :
    ((WF exC1 ∧ RankOK (fun _ => 0) exC1) ∧
      pmRecalculate 2 exC1 = .ok exC1 ∧
      (getGroup exC1 "project").isSome = true ∧ freshG exC1 "project" = false ∧
      (getGroup exC1 "db").isSome = true ∧ freshG exC1 "db" = false) ∧
    ((noSelfDeps exC1b ∧ noProjectDeps exC1b ∧ dbDepsProject exC1b ∧ inv2 exC1b ∧
        orderWf exC1b ∧ apWf exC1b ∧ projNotDb exC1b ∧ RankOK (fun _ => 0) exC1b ∧
        ¬ edgesHaveNeeds exC1b) ∧
      pmRecalculate 3 exC1b = .ok exC1bFinal ∧
      (getGroup exC1bFinal "g").isSome = true ∧ freshG exC1bFinal "g" = false ∧
      "g" ≠ "project" ∧ "g" ∉ exC1bFinal.databases ∧ apLoad exC1bFinal "g" ≠ []) := by
  refine ⟨⟨⟨?_, ?_⟩, ?_, ?_, ?_, ?_, ?_⟩,
    ⟨?_, ?_, ?_, ?_, ?_, ?_, ?_, ?_, ?_⟩, ?_, ?_, ?_, ?_, ?_, ?_⟩
  · unfold WF noSelfDeps noProjectDeps dbDepsProject edgesHaveNeeds inv2 orderWf apWf projNotDb
    decide
  · unfold RankOK
    decide
  · decide
  · decide
  · decide
  · decide
  · decide
  · unfold noSelfDeps
    decide
  · unfold noProjectDeps
    decide
  · unfold dbDepsProject
    decide
  · unfold inv2
    decide
  · unfold orderWf
    decide
  · unfold apWf
    decide
  · unfold projNotDb
    decide
  · unfold RankOK
    decide
  · unfold edgesHaveNeeds
    decide
  · decide
  · decide
  · decide
  · decide
  · decide
  · decide

/-- A fully fresh well-formed state used to witness the amended theorem. -/
def exC1w : State :=
  { groups := [{ name := "project", fresh := true, updated := 0, order := [] },
               { name := "db", fresh := true, updated := 0, order := [] },
               { name := "g", fresh := true, updated := 0, order := [] }],
    deps := [{ group := "g", depends := "db" }],
    projectParams := [],
    databaseParams := [{ name := "d1", database := "db", formula := none,
                         amount := some 2, data := [] }],
    activityParams := [{ group := "g", database := "db", code := "a1", name := "x",
                         formula := some (Expr.var "y"), amount := none, data := [] }],
    paramExchanges := [], exchanges := [], activities := [], databases := ["db"],
    dirty := [], time := 0 }

theorem c1_witness :
    (WF exC1w ∧ RankOK (fun _ => 0) exC1w ∧ pmRecalculate 1 exC1w = .ok exC1w) ∧
    (freshG exC1w "g" = true ∨ ("g" = "project" ∧ projLoad exC1w = []) ∨
      ("g" ∈ exC1w.databases ∧ dbLoad exC1w "g" = [])) :=
  ⟨⟨(by unfold WF noSelfDeps noProjectDeps dbDepsProject edgesHaveNeeds inv2 orderWf apWf projNotDb; decide),
    (by unfold RankOK; decide),
    (by decide)⟩,
   c1_recalculate_all_fresh_unless_empty (fun _ => 0) 1 exC1w exC1w
     (by unfold WF noSelfDeps noProjectDeps dbDepsProject edgesHaveNeeds inv2 orderWf apWf projNotDb; decide)
     (by unfold RankOK; decide)
     (by decide) "g" (by decide)⟩

end BW
